import Mathlib

/-!
# libvo/vo_bl.c — the Blinkenlights video output driver

A shallow embedding of `vo_bl.c`.  The file-scope variables of the driver form an explicit
`State`; every driver entry point is a function from states to results.  A result is either a
return with a code, a fall through to the next statement, or `undef` when the C program would
leave defined behaviour (a null or dangling dereference, an access outside an array or block,
a string conversion given a number that is no address).

Conventions
* bytes (`unsigned char`, `uint8_t`) are natural numbers below 256;
* `int` values are integers; the driver's arithmetic stays far inside the `int` range on the
  inputs the theorems consider, which is stated where it matters;
* a block of memory is the list of its cells, a pointer into it is an offset;
* calls to the C library and the operating system are recorded, in order, in `State.trace`;
  what they answer is supplied by an `Env`.
-/

set_option linter.unusedVariables false
set_option maxRecDepth 100000

namespace VoBl

/-! ## Data model -/

/-- Pixel format tags of `img_format.h`; only the two tags the profile table names matter. -/
inductive ImgFmt
  | IMGFMT_BGR1
  | IMGFMT_YV12
  | other (code : Nat)
deriving DecidableEq, Repr

/-- The functions whose addresses are stored in the profile table. -/
inductive Fn
  | bml_init
  | bml_write_frame
  | bml_close
  | udp_init
  | udp_send
  | udp_close
deriving DecidableEq, Repr

/-- State of a `FILE *` field: the null pointer, a pointer to an open stream, or a pointer to a
stream that has been closed. -/
inductive Stream
  | null
  | opened
  | closed
deriving DecidableEq, Repr

/-- The struct `bl_file_t`: a file target.  `name` is the string the `name` pointer designates
(`none` is the null pointer). -/
structure bl_file_t where
  name : Option (List Char)
  fp : Stream
deriving DecidableEq, Repr

/-- The struct `bl_host_t`: a network target. -/
structure bl_host_t where
  name : Option (List Char)
  port : Int
  fd : Int
deriving DecidableEq, Repr

/-- The struct `bl_properties_t`: a device profile.  A function pointer field is `none` when it
is `NULL`. -/
structure bl_properties_t where
  name : List Char
  img_format : ImgFmt
  channels : Nat
  width : Nat
  height : Nat
  bpc : Nat
  init_file : Option Fn
  write_frame : Option Fn
  close_file : Option Fn
  init_connection : Option Fn
  send_frame : Option Fn
  close_connection : Option Fn
deriving DecidableEq, Repr

def BL_MAX_FILES : Nat := 16

def BL_MAX_HOSTS : Nat := 16

def NO_BLS : Nat := 2

/-- The entry `bls[0]`. -/
def bls_hdl : bl_properties_t :=
  { name := "hdl".toList, img_format := ImgFmt.IMGFMT_BGR1,
    channels := 1, width := 18, height := 8, bpc := 1,
    init_file := none, write_frame := none, close_file := none,
    init_connection := none, send_frame := none, close_connection := none }

/-- The entry `bls[1]`. -/
def bls_arcade : bl_properties_t :=
  { name := "arcade".toList, img_format := ImgFmt.IMGFMT_YV12,
    channels := 1, width := 26, height := 20, bpc := 8,
    init_file := some Fn.bml_init, write_frame := some Fn.bml_write_frame,
    close_file := some Fn.bml_close,
    init_connection := some Fn.udp_init, send_frame := some Fn.udp_send,
    close_connection := some Fn.udp_close }

/-- The profile table `bls[NO_BLS]`. -/
def bls : List bl_properties_t := [bls_hdl, bls_arcade]

/-- Calls into libc and the kernel, in the order the driver makes them.  Sinks are named by
their index in `bl_files` / `bl_hosts`.  A `fprintf` event carries the text one call of a
`bml_*` function prints to the stream of that file. -/
inductive Event
  | fopen (file : Nat) (name : List Char) (ok : Bool)
  | fprintf (file : Nat) (text : List Char)
  | fclose (file : Nat)
  | gethostbyname (host : Nat) (name : List Char) (ok : Bool)
  | socket (host : Nat) (fd : Int)
  | connect (host : Nat) (fd : Int) (ok : Bool)
  | write (host : Nat) (fd : Int) (bytes : List Nat)
  | close (host : Nat) (fd : Int)
deriving DecidableEq, Repr

/-- The file-scope variables of `vo_bl.c`, and the trace of calls made so far.

* `bl_subdevice`, `bl_packet`, `tmp`: the block a pointer designates, `none` for a null pointer
  or a block that has been freed;
* `image`: an offset into the block of `bl_packet` (`none` is the null pointer); it is usable
  only while that block is live;
* `bl`: the profile `bl` points to. -/
structure State where
  image : Option Nat
  tmp : Option (List Nat)
  framenum : Int
  bl_subdevice : Option (List Char)
  prevpts : Int
  bl : Option bl_properties_t
  bl_files : List bl_file_t
  bl_hosts : List bl_host_t
  no_bl_files : Nat
  no_bl_hosts : Nat
  bl_packet : Option (List Nat)
  bl_size : Nat
  trace : List Event
deriving DecidableEq, Repr

/-- The state when the driver is loaded: statics are zero-initialised except `prevpts = -1`. -/
def State.init : State :=
  { image := none, tmp := none, framenum := 0, bl_subdevice := none, prevpts := -1,
    bl := none,
    bl_files := List.replicate BL_MAX_FILES { name := none, fp := Stream.null },
    bl_hosts := List.replicate BL_MAX_HOSTS { name := none, port := 0, fd := 0 },
    no_bl_files := 0, no_bl_hosts := 0, bl_packet := none, bl_size := 0, trace := [] }

/-- Outcome of running a piece of the driver. -/
inductive Res
  | ret (code : Nat) (s : State)
  | next (s : State)
  | undef
deriving DecidableEq, Repr

/-- What the environment answers: whether each `malloc` succeeds and what the fresh block
holds, and how the opening calls for the sink with a given index turn out. -/
structure Env where
  malloc_subdevice : Bool
  malloc_packet : Option (List Nat)
  malloc_tmp : Option (List Nat)
  fopen : Nat → Bool
  gethostbyname : Nat → Bool
  socket : Nat → Int
  connect : Nat → Bool

/-- A fresh block of `n` bytes whose indeterminate contents are taken from `mem`. -/
def block (n : Nat) (mem : List Nat) : List Nat :=
  ((mem.map (· % 256)) ++ List.replicate n 0).take n

/-- The loop `for (i = 0; i < count; i++) body(i)` where the body may return from the function. -/
def loop_from (body : Nat → State → Res) : Nat → Nat → State → Res
  | 0, _, s => Res.next s
  | todo + 1, i, s =>
    match body i s with
    | Res.next s1 => loop_from body todo (i + 1) s1
    | r => r

def for_loop (count : Nat) (body : Nat → State → Res) (s : State) : Res :=
  loop_from body count 0 s

/-! ## The packet header -/

/-- Offsets of the fields of `bl_packet_t`, in declaration order:
`magic` (4 bytes), `height`, `width`, `channels`, `maxval` (2 bytes each), then `data`. -/
def off_magic : Nat := 0

def off_height : Nat := 4

def off_width : Nat := 6

def off_channels : Nat := 8

def off_maxval : Nat := 10

def off_data : Nat := 12

/-- The bytes in memory of a `uint32_t` holding `htonl(v)`: most significant byte first. -/
def htonl (v : Nat) : List Nat :=
  [v / 16777216 % 256, v / 65536 % 256, v / 256 % 256, v % 256]

/-- The bytes in memory of a `uint16_t` holding `htons(v)`: most significant byte first. -/
def htons (v : Nat) : List Nat :=
  [v / 256 % 256, v % 256]

/-- Store `bytes` into the block `mem` at offset `off`. -/
def poke (mem : List Nat) (off : Nat) (bytes : List Nat) : List Nat :=
  mem.take off ++ bytes ++ mem.drop (off + bytes.length)

/-- The value of the expression `2<<bl->bpc - 1`; in C the subtraction binds tighter than the
shift, so this is `2 << (bpc - 1)`. -/
def maxval_expr (bl : bl_properties_t) : Nat :=
  2 <<< (bl.bpc - 1)

/-- The five assignments to `bl_packet->...` at the end of `preinit`. -/
def write_header (bl : bl_properties_t) (pkt : List Nat) : List Nat :=
  let pkt := poke pkt off_magic (htonl 0x23542666)
  let pkt := poke pkt off_width (htons bl.width)
  let pkt := poke pkt off_height (htons bl.height)
  let pkt := poke pkt off_channels (htons bl.channels)
  poke pkt off_maxval (htons (maxval_expr bl))

/-- Read a big-endian 16 bit value at offset `off`. -/
def read16 (mem : List Nat) (off : Nat) : Nat :=
  mem.getD off 0 * 256 + mem.getD (off + 1) 0

/-! ## C strings -/

/-- The terminating character of a C string. -/
def NUL : Char := Char.ofNat 0

/-- The string designated by a pointer to the memory `m`: the characters before the first
`NUL`. -/
def cstr (m : List Char) : List Char :=
  m.takeWhile (fun c => c ≠ NUL)

def strlen (m : List Char) : Nat :=
  (cstr m).length

/-- The character `*p` for a pointer `p` into the block `buf`.  The parser reads only at or
before the terminator of the block, since each of its scans stops at a `NUL`; past the end of
the block the model reads `NUL`. -/
def deref (buf : List Char) (p : Nat) : Char :=
  (buf.drop p).headD NUL

/-- The function `strncmp(s1, s2, n)`: the sign of the first difference among the first `n`
characters, comparison stopping after a `NUL`. -/
def strncmp : List Char → List Char → Nat → Int
  | _, _, 0 => 0
  | s1, s2, n + 1 =>
    let c1 := s1.headD NUL
    let c2 := s2.headD NUL
    if c1 ≠ c2 then (if c1 < c2 then -1 else 1)
    else if c1 = NUL then 0
    else strncmp s1.tail s2.tail n

def isspace (c : Char) : Bool :=
  c = ' ' || c = '\t' || c = '\n' || c = Char.ofNat 11 || c = Char.ofNat 12 || c = '\r'

def isdigit (c : Char) : Bool :=
  decide (48 ≤ c.toNat) && decide (c.toNat ≤ 57)

/-- The digit loop of `atoi`. -/
def atoi_digits : List Char → Nat → Nat
  | [], acc => acc
  | c :: cs, acc => if isdigit c then atoi_digits cs (acc * 10 + (c.toNat - 48)) else acc

/-- The function `atoi`: skip white space, take an optional sign, read decimal digits.  The
result is the one C gives whenever the value is representable as an `int`. -/
def atoi (m : List Char) : Int :=
  match m.dropWhile isspace with
  | '-' :: r => - (atoi_digits r 0 : Int)
  | '+' :: r => (atoi_digits r 0 : Int)
  | r => (atoi_digits r 0 : Int)

/-- The loop `while (!stop(*q)) q++;` for a condition `stop` that holds of `NUL`, with the
number of iterations bounded by `fuel`; `buf.length` iterations always suffice. -/
def skip_to (stop : Char → Bool) (buf : List Char) : Nat → Nat → Nat
  | 0, q => q
  | fuel + 1, q => if stop (deref buf q) then q else skip_to stop buf fuel (q + 1)

/-- The condition `*q == ',' || *q == '\0'` that ends the scan of a file name or a port. -/
def stop_comma (c : Char) : Bool :=
  c = ',' || c = NUL

/-- The condition `*q == ',' || *q == '\0' || *q == ':'` that ends the scan of a host name. -/
def stop_colon (c : Char) : Bool :=
  c = ',' || c = NUL || c = ':'

/-! ## `preinit`: parsing the subdevice string -/

/-- The statements `bl_files[no_bl_files].name = p; no_bl_files++;` where `p` designates `name`.
Storing outside the array is undefined. -/
def add_file (s : State) (name : List Char) : Option State :=
  match s.bl_files.get? s.no_bl_files with
  | none => none
  | some f =>
    some { s with
      bl_files := s.bl_files.set s.no_bl_files { f with name := some name },
      no_bl_files := s.no_bl_files + 1 }

/-- The statements `bl_hosts[i].name = p; bl_hosts[i].port = port;` -/
def set_host (s : State) (i : Nat) (name : List Char) (port : Int) : Option State :=
  match s.bl_hosts.get? i with
  | none => none
  | some h =>
    some { s with bl_hosts := s.bl_hosts.set i { h with name := some name, port := port } }

/-- The statements
`bl_hosts[no_bl_hosts].name = p; bl_hosts[no_bl_hosts].port = port; no_bl_hosts++;` -/
def add_host (s : State) (name : List Char) (port : Int) : Option State :=
  match set_host s s.no_bl_hosts name port with
  | none => none
  | some s1 => some { s1 with no_bl_hosts := s1.no_bl_hosts + 1 }

/-- The call `mp_msg(MSGT_VO, MSGL_ERR, "bl: syntax error in entry %d in subdevice %s, ...",
no_bl_hosts, no_bl_files, arg)` made for an entry that begins neither with `file=` nor with
`host=`: the format has the two conversions `%d` and `%s` and the call has three arguments,
so `%s` is given the `int` `no_bl_files` and `arg` is not used.  The count 0 is read as a
null pointer, for which the C library prints `(null)`, and the call returns; any other
count (1 .. 16) is read as the address of a string, where no object lives, and the call is
undefined.  The value tells whether the call returns. -/
def mp_msg_syntax_error (s : State) : Bool :=
  decide (s.no_bl_files = 0)

/-- The loop `while (!end) { ... }` of `preinit` over the block `buf` of `bl_subdevice`, with `p`
the offset of the current entry.  The loop writes `NUL` into the block in place; the block is
put back into the state when the loop is left.  A name stored in a target is the string its
pointer designates once the terminating `NUL` has been written; no later write touches it.
The first argument bounds the number of iterations; running out of it is reported as
`undef`. -/
def parse_loop : Nat → List Char → Nat → State → Res
  | 0, _, _, _ => Res.undef
  | fuel + 1, buf, p, s =>
    let q := p + 5
    if strncmp (buf.drop p) "file=".toList 5 = 0 then
      if s.no_bl_files = BL_MAX_FILES then
        Res.ret 1 { s with bl_subdevice := some buf }
      else
        let p := p + 5
        let q := skip_to stop_comma buf buf.length q
        let fin := decide (deref buf q = NUL)
        let buf := buf.set q NUL
        match add_file s (cstr (buf.drop p)) with
        | none => Res.undef
        | some s1 =>
          if fin then Res.next { s1 with bl_subdevice := some buf }
          else parse_loop fuel buf (q + 1) s1
    else if strncmp (buf.drop p) "host=".toList 5 = 0 then
      if s.no_bl_hosts = BL_MAX_HOSTS then
        Res.ret 1 { s with bl_subdevice := some buf }
      else
        let p := p + 5
        let q := skip_to stop_colon buf buf.length q
        if deref buf q = ':' then
          let buf := buf.set q NUL
          let q := q + 1
          match add_host s (cstr (buf.drop p)) (atoi (buf.drop q)) with
          | none => Res.undef
          | some s1 =>
            let q := skip_to stop_comma buf buf.length q
            if deref buf q = NUL then Res.next { s1 with bl_subdevice := some buf }
            else parse_loop fuel buf (q + 1) s1
        else
          let fin := decide (deref buf q = NUL)
          let buf := buf.set q NUL
          match add_host s (cstr (buf.drop p)) 2323 with
          | none => Res.undef
          | some s1 =>
            if fin then Res.next { s1 with bl_subdevice := some buf }
            else parse_loop fuel buf (q + 1) s1
    else
      if mp_msg_syntax_error s then Res.ret 1 { s with bl_subdevice := some buf }
      else Res.undef

/-- The first part of `preinit(arg)`, up to the end of the `while` loop: `Res.ret 1` when the
function returns failure there, `Res.next` when control reaches the allocation of the packet.
`arg` is `none` for a null pointer, otherwise the memory it points to. -/
def preinit_parse (env : Env) (s : State) (arg : Option (List Char)) : Res :=
  match arg with
  | none => Res.ret 1 s
  | some a =>
    if strlen a = 0 then Res.ret 1 s
    else if env.malloc_subdevice = false then Res.ret 1 { s with bl_subdevice := none }
    else
      let buf := cstr a ++ [NUL]
      let p := 0
      if strncmp (buf.drop p) "arcade".toList 6 ≠ 0 then
        Res.ret 1 { s with bl_subdevice := some buf }
      else
        let s := { s with bl := bls.get? 1 }
        let p := p + 6
        if deref buf p = NUL then
          match set_host { s with no_bl_hosts := 1 } 0 "localhost".toList 2323 with
          | none => Res.undef
          | some s1 => Res.next { s1 with bl_subdevice := some buf }
        else if deref buf p ≠ ':' then
          Res.ret 1 { s with bl_subdevice := some buf }
        else
          parse_loop buf.length buf (p + 1) s

/-! ## The file sink (`bml_*`) and the network sink (`udp_*`) -/

/-- Output of the conversion `%d`. -/
def fmt_d (n : Int) : List Char :=
  match n with
  | Int.ofNat k => Nat.toDigits 10 k
  | Int.negSucc k => '-' :: Nat.toDigits 10 (k + 1)

/-- Output of the conversion `%02x` for a byte: two lower case hexadecimal digits. -/
def fmt_02x (b : Nat) : List Char :=
  [Nat.digitChar (b / 16 % 16), Nat.digitChar (b % 16)]

/-- The text `bml_init` prints after opening the file. -/
def bml_preamble (bl : bl_properties_t) : List Char :=
  "<?xml version=\"1.0\" encoding=\"utf-8\"?>\n".toList
  ++ "<blm width=\"".toList ++ fmt_d bl.width ++ "\" height=\"".toList ++ fmt_d bl.height
  ++ "\" bits=\"".toList ++ fmt_d bl.bpc ++ "\" channels=\"".toList ++ fmt_d bl.channels
  ++ "\">\n".toList
  ++ "    <header>\n".toList
  ++ "        <title>Movie autogenerated by MPlayer</title>\n".toList
  ++ "        <url>http://www.mplayerhq.hu</url>\n".toList
  ++ "    </header>\n".toList

/-- Mark the stream of `bl_files[i]`. -/
def set_fp (s : State) (i : Nat) (fp : Stream) : Option State :=
  match s.bl_files.get? i with
  | none => none
  | some f => some { s with bl_files := s.bl_files.set i { f with fp := fp } }

/-- The call `bml_init(&bl_files[i])`: returns 1 when `fopen` fails, falls through (returns 0) after
printing the preamble otherwise. -/
def bml_init (env : Env) (i : Nat) (s : State) : Res :=
  match s.bl_files.get? i with
  | none => Res.undef
  | some f =>
    match f.name with
    | none => Res.undef
    | some name =>
      if env.fopen i = false then
        match set_fp s i Stream.null with
        | none => Res.undef
        | some s1 => Res.ret 1 { s1 with trace := s1.trace ++ [Event.fopen i name false] }
      else
        match s.bl, set_fp s i Stream.opened with
        | some bl, some s1 =>
          Res.next { s1 with
            trace := s1.trace ++ [Event.fopen i name true, Event.fprintf i (bml_preamble bl)] }
        | _, _ => Res.undef

/-- The digits of one row: `fprintf(f->fp, "%02x", *(i + j * bl->width + k))` for
`k = 0 .. width - 1`, reading the block `img`. -/
def bml_row_digits (img : List Nat) (base : Nat) : Nat → Nat → Option (List Char)
  | 0, _ => some []
  | todo + 1, k =>
    match img.get? (base + k), bml_row_digits img base todo (k + 1) with
    | some b, some rest => some (fmt_02x b ++ rest)
    | _, _ => none

/-- One row entry of a frame record. -/
def bml_row (bl : bl_properties_t) (img : List Nat) (j : Nat) : Option (List Char) :=
  match bml_row_digits img (j * bl.width) bl.width 0 with
  | none => none
  | some ds => some ("        <row>".toList ++ ds ++ "</row>\n".toList)

/-- The rows `j, j + 1, ...` of a frame record, `todo` of them. -/
def bml_rows (bl : bl_properties_t) (img : List Nat) : Nat → Nat → Option (List (List Char))
  | 0, _ => some []
  | todo + 1, j =>
    match bml_row bl img j, bml_rows bl img todo (j + 1) with
    | some r, some rest => some (r :: rest)
    | _, _ => none

/-- The text `bml_write_frame(f, i, duration)` prints: the frame record for the pixels in the
block `img`.  `none` when a pixel is read outside the block. -/
def bml_frame_text (bl : bl_properties_t) (img : List Nat) (duration : Int) :
    Option (List Char) :=
  match bml_rows bl img bl.height 0 with
  | none => none
  | some rows =>
    some ("    <frame duration=\"".toList ++ fmt_d duration ++ "\">\n".toList
      ++ rows.flatten ++ "    </frame>\n".toList)

/-- The call `bml_write_frame(&bl_files[i], img, duration)`. -/
def bml_write_frame (i : Nat) (img : Option (List Nat)) (duration : Int) (s : State) : Res :=
  match s.bl_files.get? i, s.bl, img with
  | some f, some bl, some px =>
    if f.fp = Stream.opened then
      match bml_frame_text bl px duration with
      | none => Res.undef
      | some text => Res.next { s with trace := s.trace ++ [Event.fprintf i text] }
    else Res.undef
  | _, _, _ => Res.undef

/-- The call `bml_close(&bl_files[i])`. -/
def bml_close (i : Nat) (s : State) : Res :=
  match s.bl_files.get? i with
  | none => Res.undef
  | some f =>
    if f.fp = Stream.opened then
      match set_fp s i Stream.closed with
      | none => Res.undef
      | some s1 =>
        Res.next { s1 with
          trace := s1.trace ++ [Event.fprintf i "</blm>\n".toList, Event.fclose i] }
    else Res.undef

/-- Set `bl_hosts[i].fd`. -/
def set_fd (s : State) (i : Nat) (fd : Int) : Option State :=
  match s.bl_hosts.get? i with
  | none => none
  | some h => some { s with bl_hosts := s.bl_hosts.set i { h with fd := fd } }

/-- The call `udp_init(&bl_hosts[i])`: returns 1 when the name does not resolve, when no socket
can be created or when it cannot be connected; falls through (returns 0) otherwise. -/
def udp_init (env : Env) (i : Nat) (s : State) : Res :=
  match s.bl_hosts.get? i with
  | none => Res.undef
  | some h =>
    match h.name with
    | none => Res.undef
    | some name =>
      if env.gethostbyname i = false then
        Res.ret 1 { s with trace := s.trace ++ [Event.gethostbyname i name false] }
      else
        let fd := env.socket i
        match set_fd s i fd with
        | none => Res.undef
        | some s1 =>
          if fd < 0 then
            Res.ret 1 { s1 with
              trace := s1.trace ++ [Event.gethostbyname i name true, Event.socket i fd] }
          else if env.connect i = false then
            Res.ret 1 { s1 with
              trace := s1.trace ++ [Event.gethostbyname i name true, Event.socket i fd,
                Event.connect i fd false, Event.close i fd] }
          else
            Res.next { s1 with
              trace := s1.trace ++ [Event.gethostbyname i name true, Event.socket i fd,
                Event.connect i fd true] }

/-- The call `udp_send(&bl_hosts[i])`: one `write` of the first `bl_size` bytes of the packet block.
A failing `write` only logs a message. -/
def udp_send (i : Nat) (s : State) : Res :=
  match s.bl_hosts.get? i, s.bl_packet with
  | some h, some pkt =>
    if s.bl_size ≤ pkt.length then
      Res.next { s with trace := s.trace ++ [Event.write i h.fd (pkt.take s.bl_size)] }
    else Res.undef
  | _, _ => Res.undef

/-- The call `udp_close(&bl_hosts[i])`. -/
def udp_close (i : Nat) (s : State) : Res :=
  match s.bl_hosts.get? i with
  | none => Res.undef
  | some h => Res.next { s with trace := s.trace ++ [Event.close i h.fd] }

/-- A call through a function pointer of the profile; calling a null pointer is undefined. -/
def call_init_file (env : Env) (bl : bl_properties_t) (i : Nat) (s : State) : Res :=
  match bl.init_file with
  | some Fn.bml_init => bml_init env i s
  | _ => Res.undef

def call_write_frame (bl : bl_properties_t) (i : Nat) (img : Option (List Nat))
    (duration : Int) (s : State) : Res :=
  match bl.write_frame with
  | some Fn.bml_write_frame => bml_write_frame i img duration s
  | _ => Res.undef

def call_close_file (bl : bl_properties_t) (i : Nat) (s : State) : Res :=
  match bl.close_file with
  | some Fn.bml_close => bml_close i s
  | _ => Res.undef

def call_init_connection (env : Env) (bl : bl_properties_t) (i : Nat) (s : State) : Res :=
  match bl.init_connection with
  | some Fn.udp_init => udp_init env i s
  | _ => Res.undef

def call_send_frame (bl : bl_properties_t) (i : Nat) (s : State) : Res :=
  match bl.send_frame with
  | some Fn.udp_send => udp_send i s
  | _ => Res.undef

def call_close_connection (bl : bl_properties_t) (i : Nat) (s : State) : Res :=
  match bl.close_connection with
  | some Fn.udp_close => udp_close i s
  | _ => Res.undef

/-! ## `preinit`: buffers, header and sinks -/

/-- The second part of `preinit`, from the computation of `bl_size` to the end. -/
def preinit_open (env : Env) (s : State) : Res :=
  match s.bl with
  | none => Res.undef
  | some bl =>
    let pkt := env.malloc_packet.map (block (bl.width * bl.height * 3 + 12))
    let tmp := env.malloc_tmp.map (block (bl.width * bl.height * bl.channels))
    let s := { s with
      bl_size := bl.width * bl.height * bl.channels + 12,
      bl_packet := pkt, image := some off_data, tmp := tmp }
    match pkt, tmp with
    | some mem, some _ =>
      let s := { s with bl_packet := some (write_header bl mem) }
      match for_loop s.no_bl_files (call_init_file env bl) s with
      | Res.next s1 =>
        match for_loop s1.no_bl_hosts (call_init_connection env bl) s1 with
        | Res.next s2 => Res.ret 0 s2
        | r => r
      | r => r
    | _, _ => Res.ret 1 s

/-- The function `preinit(arg)`. -/
def preinit (env : Env) (s : State) (arg : Option (List Char)) : Res :=
  match preinit_parse env s arg with
  | Res.next s1 => preinit_open env s1
  | r => r

/-! ## `config`, `draw_slice`, `flip_page`, `uninit` -/

/-- Read `n` bytes of the block `mem` at offset `off`; `none` outside the block. -/
def peek (mem : List Nat) (off : Int) (n : Nat) : Option (List Nat) :=
  if 0 ≤ off ∧ off.toNat + n ≤ mem.length then some ((mem.drop off.toNat).take n) else none

/-- The call `memcpy(dst + doff, src + soff, n)`: the block `dst` afterwards; `none` when the copy
reads or writes outside a block.  A copy of no bytes accesses nothing. -/
def memcpy (dst : List Nat) (doff : Nat) (src : List Nat) (soff : Int) (n : Nat) :
    Option (List Nat) :=
  if n = 0 then some dst
  else
    match peek src soff n with
    | none => none
    | some bytes => if doff + n ≤ dst.length then some (poke dst doff bytes) else none

/-- The call `memset(dst + off, 0, n)`. -/
def memset0 (dst : List Nat) (off : Nat) (n : Nat) : Option (List Nat) :=
  if n = 0 then some dst
  else if off + n ≤ dst.length then some (poke dst off (List.replicate n 0)) else none

/-- The function `config(width, height, d_width, d_height, fullscreen, title, format)`; the
arguments the function does not read are left out. -/
def config (s : State) (width height : Nat) (format : ImgFmt) : Res :=
  let s := { s with framenum := 0 }
  if format ≠ ImgFmt.IMGFMT_YV12 then Res.ret 1 s
  else
    match s.bl with
    | none => Res.undef
    | some bl =>
      if width > bl.width then Res.ret 1 s
      else if height > bl.height then Res.ret 1 s
      else
        match s.image with
        | none => Res.ret 1 s
        | some off =>
          match s.bl_packet with
          | none => Res.undef
          | some pkt =>
            match memset0 pkt off (bl.width * bl.height * 3) with
            | none => Res.undef
            | some pkt1 => Res.ret 0 { s with bl_packet := some pkt1 }

/-- The loop of `draw_slice`: `todo` rows remain, `dst` and `src` are the current offsets into
the packet block and the source plane. -/
def draw_rows (s : State) (plane : List Nat) (stride : Int) (w : Int) :
    Nat → Nat → Int → List Nat → Option (List Nat)
  | 0, _, _, pkt => some pkt
  | todo + 1, dst, src, pkt =>
    match s.bl with
    | none => none
    | some bl =>
      if w < 0 then none
      else
        match memcpy pkt dst plane src w.toNat with
        | none => none
        | some pkt1 => draw_rows s plane stride w todo (dst + bl.width) (src + stride) pkt1

/-- The function `draw_slice(srcimg, stride, w, h, x, y)`; `plane` is the memory `srcimg[0]`
points to and `stride` is `stride[0]`.  The offsets `x` and `y` are copied into locals and
not used: the destination starts at `image`. -/
def draw_slice (s : State) (plane : List Nat) (stride : Int) (w h x y : Int) : Res :=
  if h ≤ 0 then Res.ret 0 s
  else
    match s.image, s.bl_packet with
    | some off, some pkt =>
      match draw_rows s plane stride w h.toNat off 0 pkt with
      | none => Res.undef
      | some pkt1 => Res.ret 0 { s with bl_packet := some pkt1 }
    | _, _ => Res.undef

/-- The function `flip_page()`; `vo_pts` is the value of the global of that name, which the
player sets before the call.  The difference `vo_pts - prevpts` is taken exactly: that is the
value of the C expression on `int` whenever the difference is representable as an `int`, as
it is for times that are not negative; statements that name a duration are made for such
times. -/
def flip_page (s : State) (vo_pts : Int) : Res :=
  match s.bl with
  | none => Res.undef
  | some bl =>
    let r :=
      if s.prevpts ≥ 0 then
        for_loop s.no_bl_files
          (fun i s1 => call_write_frame bl i s1.tmp (Int.tdiv (vo_pts - s1.prevpts) 90) s1) s
      else Res.next s
    match r with
    | Res.next s1 =>
      match s1.image, s1.bl_packet, s1.tmp with
      | some off, some pkt, some t =>
        let n := bl.width * bl.height * bl.channels
        match memcpy t 0 (pkt.drop off) 0 n with
        | none => Res.undef
        | some t1 =>
          let s2 := { s1 with tmp := some t1, prevpts := vo_pts }
          match for_loop s2.no_bl_hosts (call_send_frame bl) s2 with
          | Res.next s3 => Res.ret 0 { s3 with framenum := s3.framenum + 1 }
          | r => r
      | _, _, _ => Res.undef
    | r => r

/-- The function `uninit()`. -/
def uninit (s : State) : Res :=
  let s := { s with bl_packet := none, bl_subdevice := none }
  let r :=
    if s.no_bl_files = 0 then Res.next s
    else
      match s.bl with
      | none => Res.undef
      | some bl => for_loop s.no_bl_files (call_close_file bl) s
  match r with
  | Res.next s1 =>
    let r1 :=
      if s1.no_bl_hosts = 0 then Res.next s1
      else
        match s1.bl with
        | none => Res.undef
        | some bl => for_loop s1.no_bl_hosts (call_close_connection bl) s1
    match r1 with
    | Res.next s2 => Res.ret 0 { s2 with no_bl_files := 0, no_bl_hosts := 0, bl := none }
    | r => r
  | r => r

/-! ## Predicates used in the statements -/

/-- A returned result satisfies `R` (of the code and the state), a fall through satisfies `N`;
nothing is said of `undef`. -/
def Res.sat (R : Nat → State → Prop) (N : State → Prop) : Res → Prop
  | Res.ret c s => R c s
  | Res.next s => N s
  | Res.undef => True

/-- The property `P` holds of the state a result carries; nothing is said of `undef`. -/
def Res.holds (P : State → Prop) (r : Res) : Prop :=
  r.sat (fun _ s => P s) P

/-- A concrete environment in which every allocation and every opening call succeeds. -/
def env_ok : Env :=
  { malloc_subdevice := true, malloc_packet := some [], malloc_tmp := some [],
    fopen := fun _ => true, gethostbyname := fun _ => true,
    socket := fun i => 3 + i, connect := fun _ => true }

/-- The variables the sink functions never assign: everything except the sink arrays and
the trace. -/
def SameVars (s t : State) : Prop :=
  t.image = s.image ∧ t.tmp = s.tmp ∧ t.framenum = s.framenum ∧
  t.bl_subdevice = s.bl_subdevice ∧ t.prevpts = s.prevpts ∧ t.bl = s.bl ∧
  t.no_bl_files = s.no_bl_files ∧ t.no_bl_hosts = s.no_bl_hosts ∧
  t.bl_packet = s.bl_packet ∧ t.bl_size = s.bl_size

/-! ## The parser, entry by entry -/

/-- An entry of the subdevice string: a run of characters without a comma or a `NUL`. -/
def entry_ok (e : List Char) : Prop :=
  ∀ c ∈ e, c ≠ ',' ∧ c ≠ NUL

instance entry_ok_decidable (e : List Char) : Decidable (entry_ok e) := by
  unfold entry_ok
  infer_instance

/-- The memory from the start of the entry `e` on, when the entries `es` follow it: entries are
separated by commas and the last one is followed by the terminator. -/
def tail_buf : List Char → List (List Char) → List Char
  | e, [] => e ++ [NUL]
  | e, e1 :: es => e ++ ',' :: tail_buf e1 es

def not_colon (c : Char) : Bool :=
  decide (c ≠ ':')

/-- The host name of a host entry with body `body` (what follows `host=`): the characters
before the first colon. -/
def host_name (body : List Char) : List Char :=
  body.takeWhile not_colon

/-- The port of a host entry: `atoi` of what follows the first colon, 2323 without a colon. -/
def host_port (body : List Char) : Int :=
  match body.dropWhile not_colon with
  | [] => 2323
  | _ :: port => atoi port

/-- What one iteration of the parsing loop does with the entry `e`, apart from the writes into
the block: the description of `parse_loop` that `parse_loop_step` proves. -/
def parse_entry (s : State) (e : List Char) : Res :=
  if e.take 5 = "file=".toList then
    if s.no_bl_files = BL_MAX_FILES then Res.ret 1 s
    else
      match add_file s (e.drop 5) with
      | none => Res.undef
      | some s1 => Res.next s1
  else if e.take 5 = "host=".toList then
    if s.no_bl_hosts = BL_MAX_HOSTS then Res.ret 1 s
    else
      match add_host s (host_name (e.drop 5)) (host_port (e.drop 5)) with
      | none => Res.undef
      | some s1 => Res.next s1
  else if mp_msg_syntax_error s then Res.ret 1 s
  else Res.undef

/-- The parsing loop over a list of entries, apart from the writes into the block. -/
def parse_entries (s : State) : List (List Char) → Res
  | [] => Res.next s
  | e :: es =>
    match parse_entry s e with
    | Res.next s1 => parse_entries s1 es
    | r => r

/-- Put the block `b` of `bl_subdevice` into the state of a result. -/
def Res.with_sub (b : List Char) : Res → Res
  | Res.ret c s => Res.ret c { s with bl_subdevice := some b }
  | Res.next s => Res.next { s with bl_subdevice := some b }
  | Res.undef => Res.undef

/-- The entries `e, es` joined by commas: the text of the subdevice string after `arcade:`. -/
def join_entries : List Char → List (List Char) → List Char
  | e, [] => e
  | e, e1 :: es => e ++ ',' :: join_entries e1 es

/-- The arrays have their declared sizes and the counters do not exceed them. -/
def State.wf (s : State) : Prop :=
  s.bl_files.length = BL_MAX_FILES ∧ s.bl_hosts.length = BL_MAX_HOSTS ∧
  s.no_bl_files ≤ BL_MAX_FILES ∧ s.no_bl_hosts ≤ BL_MAX_HOSTS

/-- The configured file targets: the names in the first `no_bl_files` slots of `bl_files`. -/
def State.files (s : State) : List (Option (List Char)) :=
  (s.bl_files.take s.no_bl_files).map (fun f => f.name)

/-- The configured network targets: name and port in the first `no_bl_hosts` slots of
`bl_hosts`. -/
def State.hosts (s : State) : List (Option (List Char) × Int) :=
  (s.bl_hosts.take s.no_bl_hosts).map (fun h => (h.name, h.port))

/-- An entry that begins with `file=`. -/
def is_file_entry (e : List Char) : Bool :=
  decide (e.take 5 = "file=".toList)

/-- An entry that begins with `host=`. -/
def is_host_entry (e : List Char) : Bool :=
  decide (e.take 5 = "host=".toList)

/-- The file names the entries `es` name, in order. -/
def entry_files (es : List (List Char)) : List (Option (List Char)) :=
  es.filterMap (fun e => if is_file_entry e then some (some (e.drop 5)) else none)

/-- The hosts the entries `es` name, in order. -/
def entry_hosts (es : List (List Char)) : List (Option (List Char) × Int) :=
  es.filterMap (fun e =>
    if is_host_entry e then some (some (host_name (e.drop 5)), host_port (e.drop 5))
    else none)

/-! ## The grammar of valid subdevice strings -/

/-- An entry of a valid subdevice string: `file=<path>`, `host=<name>` or
`host=<name>:<port>` with the port written in decimal digits. -/
inductive Entry
  | file (path : List Char)
  | host (name : List Char) (port : Option (List Char))
deriving DecidableEq, Repr

/-- The value of a string of decimal digits. -/
def dec_value (digits : List Char) : Nat :=
  digits.foldl (fun acc c => acc * 10 + (c.toNat - 48)) 0

/-- The text of an entry. -/
def Entry.text : Entry → List Char
  | Entry.file path => "file=".toList ++ path
  | Entry.host name none => "host=".toList ++ name
  | Entry.host name (some port) => "host=".toList ++ (name ++ ':' :: port)

/-- The conditions on an entry: no comma (and no terminator) in a path, no comma and no colon
in a host name, a port made of decimal digits whose value fits an `int`. -/
def Entry.ok : Entry → Prop
  | Entry.file path => ∀ c ∈ path, c ≠ ',' ∧ c ≠ NUL
  | Entry.host name port =>
    (∀ c ∈ name, c ≠ ',' ∧ c ≠ NUL ∧ c ≠ ':') ∧
    ∀ d ∈ port, (∀ c ∈ d, isdigit c = true) ∧ dec_value d < 2 ^ 31

instance Entry.ok_decidable (e : Entry) : Decidable e.ok := by
  cases e <;> unfold Entry.ok <;> infer_instance

/-- The paths of the file entries, in order of appearance. -/
def spec_files (es : List Entry) : List (List Char) :=
  es.filterMap (fun e =>
    match e with
    | Entry.file path => some path
    | Entry.host _ _ => none)

/-- Name and port of the host entries, in order of appearance; the port is 2323 when the
entry has none. -/
def spec_hosts (es : List Entry) : List (List Char × Int) :=
  es.filterMap (fun e =>
    match e with
    | Entry.file _ => none
    | Entry.host name none => some (name, 2323)
    | Entry.host name (some port) => some (name, (dec_value port : Int)))

/-- The subdevice string `arcade:e_1,...,e_n`. -/
def spec_string (e : Entry) (es : List Entry) : List Char :=
  "arcade:".toList ++ join_entries e.text (es.map Entry.text)

/-- The classes of malformed arguments of `preinit` on which the function returns: a null
pointer; an empty string; a string that does not start with `arcade`; `arcade` followed by
a character other than a colon; `arcade:` followed by comma-separated entries one of which,
`bad`, begins neither with `file=` nor with `host=` (which includes an empty entry between
two commas and the empty entry that a trailing colon or comma leaves) and has no file entry
before it. -/
inductive Malformed : Option (List Char) → Prop
  | null : Malformed none
  | empty (a : List Char) : cstr a = [] → Malformed (some a)
  | unknown_profile (a : List Char) : (cstr a).take 6 ≠ "arcade".toList → Malformed (some a)
  | bad_separator (a : List Char) (c : Char) (rest : List Char) :
      cstr a = "arcade".toList ++ c :: rest → c ≠ ':' → Malformed (some a)
  | bad_entry (a e : List Char) (es pre : List (List Char)) (bad : List Char)
      (post : List (List Char)) :
      cstr a = "arcade:".toList ++ join_entries e es →
      entry_ok e → (∀ x ∈ es, entry_ok x) →
      e :: es = pre ++ bad :: post →
      (∀ x ∈ pre, is_file_entry x = false) →
      is_file_entry bad = false → is_host_entry bad = false →
      Malformed (some a)

/-- Fifteen file entries and sixteen host entries; with one more file entry in front they make
a string with exactly sixteen entries of each kind. -/
def entries_15_16 : List (List Char) :=
  List.replicate 15 "file=f".toList ++ List.replicate 16 "host=h".toList

/-- What `t` keeps of the targets of `s`: the counters have not decreased, the targets
stored below the counters of `s` are the same, and the profile pointer is the one of `s` or
points to the arcade profile. -/
def Kept (s t : State) : Prop :=
  s.no_bl_files ≤ t.no_bl_files ∧ s.no_bl_hosts ≤ t.no_bl_hosts ∧
  t.bl_files.take s.no_bl_files = s.bl_files.take s.no_bl_files ∧
  t.bl_hosts.take s.no_bl_hosts = s.bl_hosts.take s.no_bl_hosts ∧
  (t.bl = s.bl ∨ t.bl = some bls_arcade)

/-- The variables C9 names are all unchanged: the profile pointer, the target arrays and
their counters. -/
def Untouched (s t : State) : Prop :=
  t.bl = s.bl ∧ t.bl_files = s.bl_files ∧ t.bl_hosts = s.bl_hosts ∧
  t.no_bl_files = s.no_bl_files ∧ t.no_bl_hosts = s.no_bl_hosts

/-! ## Streaming: the states `preinit` establishes, and sequences of frames -/

/-- The header `preinit` writes for the arcade profile. -/
def arcade_header : List Nat :=
  [0x23, 0x54, 0x26, 0x66, 0, 20, 0, 26, 0, 1, 1, 0]

/-- The driver is ready to stream, as after a successful `preinit`: the arcade profile is
active, `pkt` is the packet block (header and image area) and `snap` the block of `tmp`, the
arrays are well formed and every configured file is open. -/
structure Ready (s : State) (pkt snap : List Nat) : Prop where
  bl_eq : s.bl = some bls_arcade
  image_eq : s.image = some off_data
  packet_eq : s.bl_packet = some pkt
  packet_length : pkt.length = 1572
  header_eq : pkt.take 12 = arcade_header
  tmp_eq : s.tmp = some snap
  tmp_length : snap.length = 520
  size_eq : s.bl_size = 532
  wf : s.wf
  files_open : ∀ i, i < s.no_bl_files → ∃ f, s.bl_files.get? i = some f ∧ f.fp = Stream.opened

/-- The current image as `flip_page` reads it: the first `width*height*channels` bytes at
`image` (empty when there is no image). -/
def State.pixels (s : State) : List Nat :=
  match s.bl, s.image, s.bl_packet with
  | some bl, some off, some pkt => (pkt.drop off).take (bl.width * bl.height * bl.channels)
  | _, _, _ => []

/-- The descriptor stored for the host with index `i`. -/
def host_fd (s : State) (i : Nat) : Int :=
  match s.bl_hosts.get? i with
  | some h => h.fd
  | none => 0

/-- One `write` of `bytes` to each configured host, in the order of `bl_hosts`. -/
def sends (s : State) (bytes : List Nat) : List Event :=
  (List.range s.no_bl_hosts).map (fun i => Event.write i (host_fd s i) bytes)

/-- One `fprintf` of `text` to each configured file, in the order of `bl_files`. -/
def records (s : State) (text : List Char) : List Event :=
  (List.range s.no_bl_files).map (fun i => Event.fprintf i text)

/-- The arguments of one call of `draw_slice`: the first plane, its stride, and the
rectangle. -/
structure DrawCall where
  plane : List Nat
  stride : Int
  w : Int
  h : Int
  x : Int
  y : Int

/-- A call of `draw_slice` within the arcade dimensions whose `h` source rows of `w` bytes
can be read from the plane. -/
def DrawCall.fits (d : DrawCall) : Prop :=
  0 ≤ d.w ∧ d.w ≤ 26 ∧ d.h ≤ 20 ∧
  ∀ i : Nat, (i : Int) < d.h → 0 ≤ (i : Int) * d.stride ∧
    (i : Int) * d.stride + d.w ≤ d.plane.length

/-- The calls of `draw_slice` for one frame, in order. -/
def draw_all (s : State) : List DrawCall → Res
  | [] => Res.ret 0 s
  | d :: ds =>
    match draw_slice s d.plane d.stride d.w d.h d.x d.y with
    | Res.ret _ s1 => draw_all s1 ds
    | r => r

/-- One frame as the player delivers it: the `draw_slice` calls, then `flip_page` with
`vo_pts = pts`. -/
structure Commit where
  draws : List DrawCall
  pts : Int

/-- The player's calls for a sequence of frames; the result lists the state after each
`flip_page`, and is `none` when a call is undefined. -/
def play (s : State) : List Commit → Option (List State)
  | [] => some []
  | c :: cs =>
    match draw_all s c.draws with
    | Res.ret _ s1 =>
      match flip_page s1 c.pts with
      | Res.ret _ s2 => (play s2 cs).map (fun posts => s2 :: posts)
      | _ => none
    | _ => none

/-- The first commit of a sequence, from the state `s` to the state `p`: no frame record is
printed, only the packets are sent. -/
def FirstCommit (s : State) (c : Commit) (p : State) : Prop :=
  ∃ pre, draw_all s c.draws = Res.ret 0 pre ∧
    p.trace = s.trace ++ sends p (arcade_header ++ p.pixels) ∧
    p.prevpts = c.pts ∧ p.pixels = pre.pixels

/-- A later commit, from the state `p` after the previous `flip_page` to the state `q`
after this one: every file gets one frame record, with the pixels the image had in `p` and
the duration `(pts - previous pts) / 90`; then the packets are sent. -/
def NextCommit (p : State) (c : Commit) (q : State) : Prop :=
  ∃ pre text, draw_all p c.draws = Res.ret 0 pre ∧
    bml_frame_text bls_arcade p.pixels (Int.tdiv (c.pts - p.prevpts) 90) = some text ∧
    q.trace = p.trace ++ records p text ++ sends q (arcade_header ++ q.pixels) ∧
    q.prevpts = c.pts ∧ q.pixels = pre.pixels

/-- The commits `cs` lead from `p` through the states `qs`, each step being a
`NextCommit`. -/
def Chained : State → List Commit → List State → Prop
  | _, [], [] => True
  | p, c :: cs, q :: qs => NextCommit p c q ∧ Chained q cs qs
  | _, _, _ => False

/-- Files `0 .. i - 1` are open and the file array has its size. -/
def FilesOpen (i : Nat) (t : State) : Prop :=
  t.bl_files.length = BL_MAX_FILES ∧
  ∀ j, j < i → ∃ f, t.bl_files.get? j = some f ∧ f.fp = Stream.opened

/-- The state a result carries (the initial state for `undef`). -/
def Res.state : Res → State
  | Res.ret _ s => s
  | Res.next s => s
  | Res.undef => State.init

/-- The state after `preinit` on `arcade:host=localhost:2323,file=out.bml` in the initial
state, every allocation and opening call succeeding. -/
def demo_state : State :=
  (preinit env_ok State.init (some "arcade:host=localhost:2323,file=out.bml".toList)).state

/-- A frame drawn by one full-size `draw_slice` call with every pixel equal to `v`. -/
def demo_frame (v : Nat) (pts : Int) : Commit :=
  { draws := [{ plane := List.replicate 520 v, stride := 26, w := 26, h := 20, x := 0, y := 0 }],
    pts := pts }

/-! ## Sinks left open by a failing `preinit` -/

/-- The calls that close a file. -/
def Event.is_fclose : Event → Bool
  | Event.fclose _ => true
  | _ => false

/-- Between the states `s` and `t` no file was closed, and a socket was closed only after the
`connect` on that same socket failed: no call released a sink that had been opened. -/
def NoRelease (s t : State) : Prop :=
  ∃ evs, t.trace = s.trace ++ evs ∧ (∀ e ∈ evs, e.is_fclose = false) ∧
    ∀ i fd, Event.close i fd ∈ evs → Event.connect i fd false ∈ evs

/-- An environment in which every allocation and every `fopen` succeeds and no host name
resolves. -/
def env_unresolved : Env :=
  { env_ok with gethostbyname := fun _ => false }

/-- An environment in which every allocation succeeds, the host with index 0 is reached and
the name of every other host does not resolve. -/
def env_second_unresolved : Env :=
  { env_ok with gethostbyname := fun i => decide (i = 0) }

/-! ## What `uninit` prints and closes -/

/-- The closing tag `bml_close` prints. -/
def closing_tag : List Char := "</blm>\n".toList

/-- The calls of the first loop of `uninit` for the files `0 .. n - 1`: the closing tag is
printed to each file, which is then closed. -/
def file_closings (n : Nat) : List Event :=
  (List.range n).flatMap (fun i => [Event.fprintf i closing_tag, Event.fclose i])

/-- The calls of the second loop of `uninit`: one `close` for the descriptor of each host. -/
def host_closings (s : State) : List Event :=
  (List.range s.no_bl_hosts).map (fun i => Event.close i (host_fd s i))

/-! ## Reading a frame record back -/

/-- The value of a lower case hexadecimal digit, `none` for every other character. -/
def hex_value (c : Char) : Option Nat :=
  if 48 ≤ c.toNat ∧ c.toNat ≤ 57 then some (c.toNat - 48)
  else if 97 ≤ c.toNat ∧ c.toNat ≤ 102 then some (c.toNat - 87)
  else none

/-- Decode a string of lower case hexadecimal digits without separators, each consecutive
pair of digits giving one byte; `none` when a character is not such a digit or a digit is
left over. -/
def decode_hex : List Char → Option (List Nat)
  | [] => some []
  | [_] => none
  | hi :: lo :: rest =>
    match hex_value hi, hex_value lo, decode_hex rest with
    | some h, some l, some bytes => some ((16 * h + l) :: bytes)
    | _, _, _ => none

/-- A row entry with the digits `ds`. -/
def row_entry (ds : List Char) : List Char :=
  "        <row>".toList ++ ds ++ "</row>\n".toList

/-- A frame record: the opening tag with the duration attribute, one row entry for each
element of `rows`, the closing tag. -/
def frame_record (duration : Int) (rows : List (List Char)) : List Char :=
  "    <frame duration=\"".toList ++ fmt_d duration ++ "\">\n".toList
    ++ (rows.map row_entry).flatten ++ "    </frame>\n".toList

/-- The duration attribute of a frame record read back: the decimal number that follows the
21 characters of the opening tag up to and including the quote. -/
def record_duration (text : List Char) : Int :=
  atoi (text.drop 21)

/-- The digits of row `j` of the pixels `img` of the arcade profile: two digits for each of
the 26 bytes of the row. -/
def hex_row (img : List Nat) (j : Nat) : List Char :=
  ((img.drop (j * 26)).take 26).flatMap fmt_02x

/-! ## What a file receives -/

/-- The texts printed to the file with index `i` in the trace `tr`, in order. -/
def file_texts (i : Nat) (tr : List Event) : List (List Char) :=
  tr.filterMap (fun e =>
    match e with
    | Event.fprintf j text => if j = i then some text else none
    | _ => none)

/-- The rows of the frame record of the pixels `px`. -/
def hex_rows (px : List Nat) : List (List Char) :=
  (List.range 20).map (hex_row px)

/-- The frame records for the snapshots `pxs`, the k-th of them with the duration from the
k-th to the (k+1)-th of the commit times `ts`. -/
def recorded_frames : List (List Nat) → List Int → List (List Char)
  | px :: pxs, t0 :: t1 :: ts =>
    frame_record (Int.tdiv (t1 - t0) 90) (hex_rows px) :: recorded_frames pxs (t1 :: ts)
  | _, _ => []

/-! ## General lemmas on results and loops -/


theorem Res.sat_mono {R R1 : Nat → State → Prop} {N N1 : State → Prop} {r : Res}
    (hR : ∀ c s, R c s → R1 c s) (hN : ∀ s, N s → N1 s) (h : r.sat R N) : r.sat R1 N1 := by
  cases r with
  | ret c s => exact hR c s h
  | next s => exact hN s h
  | undef => trivial

theorem Res.holds_ret {P : State → Prop} {r : Res} {c : Nat} {s : State}
    (h : r.holds P) (e : r = Res.ret c s) : P s := by
  subst e; exact h

theorem Res.holds_next {P : State → Prop} {r : Res} {s : State}
    (h : r.holds P) (e : r = Res.next s) : P s := by
  subst e; exact h

theorem loop_from_sat (R : Nat → State → Prop) (P : State → Prop) (body : Nat → State → Res)
    (hb : ∀ i s, P s → (body i s).sat R P) :
    ∀ todo i s, P s → (loop_from body todo i s).sat R P := by
  intro todo
  induction todo with
  | zero => intro i s hs; simpa [loop_from, Res.sat] using hs
  | succ n ih =>
    intro i s hs
    have h1 := hb i s hs
    unfold loop_from
    cases hr : body i s with
    | ret c s1 => rw [hr] at h1; simpa [Res.sat] using h1
    | next s1 => rw [hr] at h1; exact ih (i + 1) s1 h1
    | undef => trivial

theorem for_loop_sat (R : Nat → State → Prop) (P : State → Prop) (body : Nat → State → Res)
    (hb : ∀ i s, P s → (body i s).sat R P) (count : Nat) (s : State) (hs : P s) :
    (for_loop count body s).sat R P :=
  loop_from_sat R P body hb count 0 s hs

theorem for_loop_holds (P : State → Prop) (body : Nat → State → Res)
    (hb : ∀ i s, P s → (body i s).holds P) (count : Nat) (s : State) (hs : P s) :
    (for_loop count body s).holds P :=
  for_loop_sat (fun _ t => P t) P body hb count s hs

/-- The parsing loop returns only with code 1, and keeps every property that adding a target
and updating the block of `bl_subdevice` keep. -/
theorem parse_loop_sat (P : State → Prop)
    (hsub : ∀ s b, P s → P { s with bl_subdevice := b })
    (hfile : ∀ s n s1, add_file s n = some s1 → P s → P s1)
    (hhost : ∀ s n port s1, add_host s n port = some s1 → P s → P s1) :
    ∀ fuel buf p s, P s → (parse_loop fuel buf p s).sat (fun c s1 => c = 1 ∧ P s1) P := by
  intro fuel
  induction fuel with
  | zero => intro buf p s _; trivial
  | succ n ih =>
    intro buf p s hs
    unfold parse_loop
    simp only
    split
    · split
      · exact ⟨rfl, hsub _ _ hs⟩
      · split
        · trivial
        · rename_i s1 h1
          have hs1 := hfile _ _ _ h1 hs
          split
          · exact hsub _ _ hs1
          · exact ih _ _ _ hs1
    · split
      · split
        · exact ⟨rfl, hsub _ _ hs⟩
        · split
          · split
            · trivial
            · rename_i s1 h1
              have hs1 := hhost _ _ _ _ h1 hs
              split
              · exact hsub _ _ hs1
              · exact ih _ _ _ hs1
          · split
            · trivial
            · rename_i s1 h1
              have hs1 := hhost _ _ _ _ h1 hs
              split
              · exact hsub _ _ hs1
              · exact ih _ _ _ hs1
      · split
        · exact ⟨rfl, hsub _ _ hs⟩
        · trivial

theorem add_file_eq {s s1 : State} {n : List Char} (h : add_file s n = some s1) :
    ∃ f, s.bl_files.get? s.no_bl_files = some f ∧
      s1 = { s with
        bl_files := s.bl_files.set s.no_bl_files { f with name := some n },
        no_bl_files := s.no_bl_files + 1 } := by
  unfold add_file at h
  split at h
  · exact absurd h (by simp)
  · rename_i f hf
    exact ⟨f, hf, (Option.some.inj h).symm⟩

theorem set_host_eq {s s1 : State} {i : Nat} {n : List Char} {port : Int}
    (h : set_host s i n port = some s1) :
    ∃ x, s.bl_hosts.get? i = some x ∧
      s1 = { s with bl_hosts := s.bl_hosts.set i { x with name := some n, port := port } } := by
  unfold set_host at h
  split at h
  · exact absurd h (by simp)
  · rename_i x hx
    exact ⟨x, hx, (Option.some.inj h).symm⟩

theorem add_host_eq {s s1 : State} {n : List Char} {port : Int}
    (h : add_host s n port = some s1) :
    ∃ x, s.bl_hosts.get? s.no_bl_hosts = some x ∧
      s1 = { s with
        bl_hosts := s.bl_hosts.set s.no_bl_hosts { x with name := some n, port := port },
        no_bl_hosts := s.no_bl_hosts + 1 } := by
  unfold add_host at h
  split at h
  · exact absurd h (by simp)
  · rename_i s2 h2
    obtain ⟨x, hx, rfl⟩ := set_host_eq h2
    exact ⟨x, hx, (Option.some.inj h).symm⟩

/-- The parser leaves `bl` pointing to the arcade profile whenever it does not fail. -/
theorem preinit_parse_sat (env : Env) (s : State) (arg : Option (List Char)) :
    (preinit_parse env s arg).sat (fun c _ => c = 1) (fun s1 => s1.bl = some bls_arcade) := by
  unfold preinit_parse
  split
  · exact rfl
  · simp only
    split
    · exact rfl
    · split
      · exact rfl
      · split
        · exact rfl
        · split
          · split
            · trivial
            · rename_i s1 h1
              obtain ⟨x, _, rfl⟩ := set_host_eq h1
              rfl
          · split
            · exact rfl
            · exact Res.sat_mono (fun _ _ h => h.1) (fun _ h => h)
                (parse_loop_sat (fun t => t.bl = some bls_arcade)
                  (fun _ _ h => h)
                  (fun _ _ _ h1 h => by obtain ⟨f, _, rfl⟩ := add_file_eq h1; exact h)
                  (fun _ _ _ _ h1 h => by obtain ⟨f, _, rfl⟩ := add_host_eq h1; exact h)
                  _ _ _ _ rfl)

theorem SameVars.refl (s : State) : SameVars s s :=
  ⟨rfl, rfl, rfl, rfl, rfl, rfl, rfl, rfl, rfl, rfl⟩

theorem SameVars.trans {s t u : State} (h1 : SameVars s t) (h2 : SameVars t u) : SameVars s u := by
  obtain ⟨a1, a2, a3, a4, a5, a6, a7, a8, a9, a10⟩ := h1
  obtain ⟨b1, b2, b3, b4, b5, b6, b7, b8, b9, b10⟩ := h2
  exact ⟨b1.trans a1, b2.trans a2, b3.trans a3, b4.trans a4, b5.trans a5, b6.trans a6,
    b7.trans a7, b8.trans a8, b9.trans a9, b10.trans a10⟩

theorem set_fp_eq {s s1 : State} {i : Nat} {fp : Stream} (h : set_fp s i fp = some s1) :
    ∃ f, s.bl_files.get? i = some f ∧
      s1 = { s with bl_files := s.bl_files.set i { f with fp := fp } } := by
  unfold set_fp at h
  split at h
  · exact absurd h (by simp)
  · rename_i f hf
    exact ⟨f, hf, (Option.some.inj h).symm⟩

theorem set_fd_eq {s s1 : State} {i : Nat} {fd : Int} (h : set_fd s i fd = some s1) :
    ∃ x, s.bl_hosts.get? i = some x ∧
      s1 = { s with bl_hosts := s.bl_hosts.set i { x with fd := fd } } := by
  unfold set_fd at h
  split at h
  · exact absurd h (by simp)
  · rename_i x hx
    exact ⟨x, hx, (Option.some.inj h).symm⟩

theorem bml_init_same (env : Env) (i : Nat) (s : State) :
    (bml_init env i s).sat (fun c t => c = 1 ∧ SameVars s t) (SameVars s) := by
  unfold bml_init
  split
  · trivial
  · split
    · trivial
    · split
      · split
        · trivial
        · rename_i s1 h1
          obtain ⟨f, _, rfl⟩ := set_fp_eq h1
          exact ⟨rfl, SameVars.refl s⟩
      · split
        · rename_i s1 _ h1
          obtain ⟨f, _, rfl⟩ := set_fp_eq h1
          exact SameVars.refl s
        · trivial

theorem udp_init_same (env : Env) (i : Nat) (s : State) :
    (udp_init env i s).sat (fun c t => c = 1 ∧ SameVars s t) (SameVars s) := by
  unfold udp_init
  split
  · trivial
  · split
    · trivial
    · split
      · exact ⟨rfl, SameVars.refl s⟩
      · simp only
        split
        · trivial
        · rename_i s1 h1
          obtain ⟨x, _, rfl⟩ := set_fd_eq h1
          split
          · exact ⟨rfl, SameVars.refl s⟩
          · split
            · exact ⟨rfl, SameVars.refl s⟩
            · exact SameVars.refl s

theorem call_init_file_same (env : Env) (bl : bl_properties_t) (i : Nat) (s : State) :
    (call_init_file env bl i s).sat (fun c t => c = 1 ∧ SameVars s t) (SameVars s) := by
  unfold call_init_file
  split
  · exact bml_init_same env i s
  · trivial

theorem call_init_connection_same (env : Env) (bl : bl_properties_t) (i : Nat) (s : State) :
    (call_init_connection env bl i s).sat (fun c t => c = 1 ∧ SameVars s t) (SameVars s) := by
  unfold call_init_connection
  split
  · exact udp_init_same env i s
  · trivial

/-- A loop whose body leaves the framed variables alone leaves them alone. -/
theorem for_loop_same (body : Nat → State → Res)
    (hb : ∀ i s, (body i s).holds (SameVars s)) (count : Nat) (s : State) :
    (for_loop count body s).holds (SameVars s) :=
  for_loop_holds (SameVars s) body
    (fun i t ht => Res.sat_mono (fun _ _ h => ht.trans h) (fun _ h => ht.trans h) (hb i t))
    count s (SameVars.refl s)

/-- The same for a loop whose body returns only with code 1. -/
theorem for_loop_same_one (body : Nat → State → Res)
    (hb : ∀ i s, (body i s).sat (fun c t => c = 1 ∧ SameVars s t) (SameVars s))
    (count : Nat) (s : State) :
    (for_loop count body s).sat (fun c t => c = 1 ∧ SameVars s t) (SameVars s) :=
  for_loop_sat (fun c t => c = 1 ∧ SameVars s t) (SameVars s) body
    (fun i t ht =>
      Res.sat_mono (fun _ _ h => ⟨h.1, ht.trans h.2⟩) (fun _ h => ht.trans h) (hb i t))
    count s (SameVars.refl s)

theorem poke_length (mem : List Nat) (off : Nat) (bytes : List Nat)
    (h : off + bytes.length ≤ mem.length) : (poke mem off bytes).length = mem.length := by
  simp [poke]
  omega

theorem htons_length (v : Nat) : (htons v).length = 2 := rfl

theorem htonl_length (v : Nat) : (htonl v).length = 4 := rfl

theorem write_header_length (bl : bl_properties_t) (mem : List Nat) (h : 12 ≤ mem.length) :
    (write_header bl mem).length = mem.length := by
  have h1 : (poke mem off_magic (htonl 0x23542666)).length = mem.length :=
    poke_length _ _ _ (by rw [htonl_length, off_magic]; omega)
  have h2 : (poke (poke mem off_magic (htonl 0x23542666)) off_width
      (htons bl.width)).length = mem.length := by
    rw [poke_length _ _ _ (by rw [htons_length, off_width, h1]; omega), h1]
  have h3 : (poke (poke (poke mem off_magic (htonl 0x23542666)) off_width
      (htons bl.width)) off_height (htons bl.height)).length = mem.length := by
    rw [poke_length _ _ _ (by rw [htons_length, off_height, h2]; omega), h2]
  have h4 : (poke (poke (poke (poke mem off_magic (htonl 0x23542666)) off_width
      (htons bl.width)) off_height (htons bl.height)) off_channels
      (htons bl.channels)).length = mem.length := by
    rw [poke_length _ _ _ (by rw [htons_length, off_channels, h3]; omega), h3]
  unfold write_header
  simp only
  rw [poke_length _ _ _ (by rw [htons_length, off_maxval, h4]; omega), h4]

theorem for_loop_same_next {body : Nat → State → Res}
    (hb : ∀ i s, (body i s).sat (fun c t => c = 1 ∧ SameVars s t) (SameVars s))
    {count : Nat} {s s1 : State} (h : for_loop count body s = Res.next s1) : SameVars s s1 := by
  have l := for_loop_same_one body hb count s
  rw [h] at l
  exact l

theorem for_loop_same_ret {body : Nat → State → Res}
    (hb : ∀ i s, (body i s).sat (fun c t => c = 1 ∧ SameVars s t) (SameVars s))
    {count c : Nat} {s s1 : State} (h : for_loop count body s = Res.ret c s1) :
    c = 1 ∧ SameVars s s1 := by
  have l := for_loop_same_one body hb count s
  rw [h] at l
  exact l

theorem block_length (n : Nat) (mem : List Nat) : (block n mem).length = n := by
  simp [block]

/-- The first twelve bytes of the packet block once the header fields are assigned. -/
theorem write_header_take (bl : bl_properties_t) (mem : List Nat) (h : 12 ≤ mem.length) :
    (write_header bl mem).take 12 =
      htonl 0x23542666 ++ htons bl.height ++ htons bl.width ++ htons bl.channels
        ++ htons (maxval_expr bl) := by
  match mem, h with
  | a0 :: a1 :: a2 :: a3 :: a4 :: a5 :: a6 :: a7 :: a8 :: a9 :: a10 :: a11 :: rest, _ =>
    simp [write_header, poke, htonl, htons, off_magic, off_height, off_width, off_channels,
      off_maxval]

/-- When the second part of `preinit` returns 0, the packet block holds the header of the
active profile in its first twelve bytes. -/
theorem preinit_open_packet (env : Env) (s s1 : State) (bl : bl_properties_t)
    (hbl : s.bl = some bl) (h : preinit_open env s = Res.ret 0 s1) :
    s1.bl = some bl ∧ ∃ pkt, s1.bl_packet = some pkt ∧
      pkt.length = bl.width * bl.height * 3 + 12 ∧
      pkt.take 12 = htonl 0x23542666 ++ htons bl.height ++ htons bl.width
        ++ htons bl.channels ++ htons (maxval_expr bl) := by
  unfold preinit_open at h
  rw [hbl] at h
  simp only at h
  split at h
  · rename_i mem t hp ht
    split at h
    · rename_i s2 h2
      have f2 := for_loop_same_next (call_init_file_same env bl) h2
      split at h
      · rename_i s3 h3
        have f3 := for_loop_same_next (call_init_connection_same env bl) h3
        have e : s3 = s1 := by injection h
        subst e
        have f : SameVars _ s3 := SameVars.trans f2 f3
        obtain ⟨m0, hm0, rfl⟩ := Option.map_eq_some'.mp hp
        have hl : 12 ≤ (block (bl.width * bl.height * 3 + 12) m0).length := by
          rw [block_length]; omega
        refine ⟨by rw [f.2.2.2.2.2.1], write_header bl (block _ m0),
          by rw [f.2.2.2.2.2.2.2.2.1], ?_, ?_⟩
        · rw [write_header_length bl _ hl, block_length]
        · exact write_header_take bl _ hl
      · have hc := (for_loop_same_ret (call_init_connection_same env bl) h).1
        exact absurd hc (by decide)
    · have hc := (for_loop_same_ret (call_init_file_same env bl) h).1
      exact absurd hc (by decide)
  · exact absurd h (by simp)

/-! ## The parsing loop follows the entries -/

theorem strncmp_zero_iff (lit : List Char) (hl : ∀ c ∈ lit, c ≠ NUL) :
    ∀ m : List Char, strncmp m lit lit.length = 0 ↔ m.take lit.length = lit := by
  induction lit with
  | nil => intro m; simp [strncmp]
  | cons c l ih =>
    intro m
    have hc : c ≠ NUL := hl c (List.mem_cons_self _ _)
    have hl1 : ∀ x ∈ l, x ≠ NUL := fun x hx => hl x (List.mem_cons_of_mem _ hx)
    cases m with
    | nil =>
      simp only [List.length_cons, strncmp, List.headD_nil, List.headD_cons]
      rw [if_pos (Ne.symm hc)]
      constructor
      · intro h; split at h <;> simp at h
      · intro h; simp at h
    | cons d t =>
      simp only [List.length_cons, strncmp, List.headD_cons, List.tail_cons, List.take_succ_cons,
        List.cons.injEq]
      by_cases hd : d = c
      · subst hd
        simp only [ne_eq, not_true_eq_false, if_false, true_and, if_neg hc]
        exact ih hl1 t
      · rw [if_pos hd]
        constructor
        · intro h; split at h <;> simp at h
        · intro h; exact absurd h.1 hd

theorem deref_append (pre rest : List Char) :
    deref (pre ++ rest) pre.length = rest.headD NUL := by
  simp [deref]

theorem skip_to_body (stop : Char → Bool) (body : List Char) :
    ∀ (A : List Char) (c : Char) (post : List Char) (fuel q : Nat),
      (∀ x ∈ body, stop x = false) → stop c = true → body.length < fuel → q = A.length →
      skip_to stop (A ++ (body ++ c :: post)) fuel q = A.length + body.length := by
  induction body with
  | nil =>
    intro A c post fuel q _ hc hf hq
    subst hq
    obtain ⟨n, rfl⟩ : ∃ n, fuel = n + 1 := ⟨fuel - 1, by simp at hf; omega⟩
    simp [skip_to, deref_append, hc]
  | cons x b ih =>
    intro A c post fuel q hb hc hf hq
    subst hq
    obtain ⟨n, rfl⟩ : ∃ n, fuel = n + 1 := ⟨fuel - 1, by simp at hf; omega⟩
    have hx : stop x = false := hb x (List.mem_cons_self _ _)
    simp only [skip_to, deref_append, List.cons_append, List.headD_cons, hx]
    have := ih (A ++ [x]) c post n (A.length + 1) (fun y hy => hb y (List.mem_cons_of_mem _ hy))
      hc (by simp at hf; omega) (by simp)
    simp only [List.append_assoc, List.singleton_append, List.length_append,
      List.length_singleton] at this
    simp only [Bool.false_eq_true, if_false, List.length_cons]
    rw [this]
    omega

theorem set_at (A : List Char) (c d : Char) (post : List Char) :
    (A ++ c :: post).set A.length d = A ++ d :: post := by
  induction A with
  | nil => rfl
  | cons a A ih => simp [ih]

theorem cstr_body (body post : List Char) (h : ∀ x ∈ body, x ≠ NUL) :
    cstr (body ++ NUL :: post) = body := by
  induction body with
  | nil => simp [cstr]
  | cons x b ih =>
    have hx : x ≠ NUL := h x (List.mem_cons_self _ _)
    have := ih (fun y hy => h y (List.mem_cons_of_mem _ hy))
    simp only [cstr] at this ⊢
    simp only [List.cons_append, List.takeWhile, hx, ne_eq, not_false_eq_true, decide_True,
      List.cons.injEq, true_and]
    exact this


theorem take_entry (lit e post : List Char) (sep : Char) (hs : sep ∉ lit)
    (h : (e ++ sep :: post).take lit.length = lit) : e.take lit.length = lit := by
  by_cases hlen : lit.length ≤ e.length
  · rwa [List.take_append_of_le_length hlen] at h
  · exfalso
    apply hs
    rw [← h, List.take_append_eq_append_take]
    have : lit.length - e.length = (lit.length - e.length - 1) + 1 := by omega
    rw [this, List.take_succ_cons]
    simp

theorem entry_ok_drop {e : List Char} (he : entry_ok e) (n : Nat) : entry_ok (e.drop n) :=
  fun c hc => he c (List.mem_of_mem_drop hc)

theorem stop_comma_false {x : Char} (h : x ≠ ',' ∧ x ≠ NUL) : stop_comma x = false := by
  simp [stop_comma, h.1, h.2]

theorem stop_comma_sep {sep : Char} (h : sep = ',' ∨ sep = NUL) : stop_comma sep = true := by
  rcases h with rfl | rfl <;> simp [stop_comma]

/-- One iteration of the parsing loop on a block that holds the entry `e` at offset
`pre.length`, followed by the separator `sep`: the targets change as `parse_entry` says,
and the loop goes on behind the separator unless that was the terminator. -/
theorem parse_loop_step_file (fuel : Nat) (pre path : List Char) (sep : Char)
    (post : List Char) (s : State) (he : entry_ok path) (hsep : sep = ',' ∨ sep = NUL) :
    parse_loop (fuel + 1) (pre ++ ("file=".toList ++ path ++ sep :: post)) pre.length s =
      if s.no_bl_files = BL_MAX_FILES then
        Res.ret 1 { s with
          bl_subdevice := some (pre ++ ("file=".toList ++ path ++ sep :: post)) }
      else
        match add_file s path with
        | none => Res.undef
        | some s1 =>
          if sep = NUL then
            Res.next { s1 with
              bl_subdevice := some ((pre ++ ("file=".toList ++ path ++ [NUL])) ++ post) }
          else
            parse_loop fuel ((pre ++ ("file=".toList ++ path ++ [NUL])) ++ post)
              (pre ++ ("file=".toList ++ path ++ [NUL])).length s1 := by
  have hcmp : strncmp (List.drop pre.length
      (pre ++ ("file=".toList ++ path ++ sep :: post))) "file=".toList 5 = 0 := by
    rw [List.drop_left]
    exact (strncmp_zero_iff "file=".toList (by decide) _).mpr rfl
  have hbuf : pre ++ ("file=".toList ++ path ++ sep :: post)
      = (pre ++ "file=".toList) ++ (path ++ sep :: post) := by simp
  have hq : skip_to stop_comma (pre ++ ("file=".toList ++ path ++ sep :: post))
      (pre ++ ("file=".toList ++ path ++ sep :: post)).length (pre.length + 5)
      = (pre ++ "file=".toList).length + path.length := by
    rw [hbuf]
    exact skip_to_body stop_comma path _ sep post _ _ (fun x hx => stop_comma_false (he x hx))
      (stop_comma_sep hsep) (by simp; omega) (by simp)
  have hbuf2 : pre ++ ("file=".toList ++ path ++ sep :: post)
      = (pre ++ "file=".toList ++ path) ++ (sep :: post) := by simp
  have hlen2 : (pre ++ "file=".toList).length + path.length
      = (pre ++ "file=".toList ++ path).length := by simp; omega
  have hd : deref (pre ++ ("file=".toList ++ path ++ sep :: post))
      ((pre ++ "file=".toList).length + path.length) = sep := by
    rw [hbuf2, hlen2, deref_append]; rfl
  have hset : (pre ++ ("file=".toList ++ path ++ sep :: post)).set
      ((pre ++ "file=".toList).length + path.length) NUL
      = (pre ++ "file=".toList) ++ (path ++ NUL :: post) := by
    rw [hbuf2, hlen2, set_at]; simp
  have hname : cstr (List.drop (pre.length + 5)
      ((pre ++ "file=".toList) ++ (path ++ NUL :: post))) = path := by
    have : pre.length + 5 = (pre ++ "file=".toList).length := by simp
    rw [this, List.drop_left]
    exact cstr_body path post (fun x hx => (he x hx).2)
  rw [parse_loop]
  simp only [hcmp, if_true, hq, hd, hset, hname]
  by_cases hfull : s.no_bl_files = BL_MAX_FILES
  · simp [hfull]
  · simp only [hfull, if_false]
    cases hadd : add_file s path with
    | none => rfl
    | some s1 =>
      simp only
      rcases hsep with rfl | rfl
      · have hne : (',' : Char) ≠ NUL := by decide
        simp [hne]
        congr 1
        omega
      · simp

theorem atoi_digits_append (p : List Char) (sep : Char) (post : List Char)
    (hsep : isdigit sep = false) :
    ∀ acc, atoi_digits (p ++ sep :: post) acc = atoi_digits p acc := by
  induction p with
  | nil => intro acc; simp [atoi_digits, hsep]
  | cons x p ih =>
    intro acc
    simp only [List.cons_append, atoi_digits]
    split
    · exact ih _
    · rfl

theorem atoi_space (x : Char) (m : List Char) (hx : isspace x = true) :
    atoi (x :: m) = atoi m := by
  simp [atoi, List.dropWhile, hx]

theorem atoi_nospace (x : Char) (m : List Char) (hx : isspace x = false) :
    atoi (x :: m) =
      if x = '-' then - (atoi_digits m 0 : Int)
      else if x = '+' then (atoi_digits m 0 : Int)
      else (atoi_digits (x :: m) 0 : Int) := by
  simp only [atoi, List.dropWhile, hx]
  split
  · rename_i r heq
    injection heq with h1 h2
    subst h1 h2
    simp
  · rename_i r heq
    injection heq with h1 h2
    subst h1 h2
    have : ('+' : Char) ≠ '-' := by decide
    simp [this]
  · rename_i r h1 h2
    have n1 : x ≠ '-' := fun h => h1 m (by rw [h])
    have n2 : x ≠ '+' := fun h => h2 m (by rw [h])
    simp [n1, n2]

/-- The function `atoi` does not read past a comma or a terminator. -/
theorem atoi_append (p : List Char) (sep : Char) (post : List Char)
    (hsep : sep = ',' ∨ sep = NUL) : atoi (p ++ sep :: post) = atoi p := by
  have hd : isdigit sep = false := by rcases hsep with rfl | rfl <;> decide
  have hs : isspace sep = false := by rcases hsep with rfl | rfl <;> decide
  have hm : sep ≠ '-' := by rcases hsep with rfl | rfl <;> decide
  have hp : sep ≠ '+' := by rcases hsep with rfl | rfl <;> decide
  induction p with
  | nil =>
    rw [List.nil_append, atoi_nospace sep post hs]
    simp [hm, hp, atoi_digits, hd, atoi]
  | cons x p ih =>
    rw [List.cons_append]
    by_cases hx : isspace x = true
    · rw [atoi_space x _ hx, atoi_space x _ hx, ih]
    · have hx1 : isspace x = false := by simpa using hx
      rw [atoi_nospace x _ hx1, atoi_nospace x _ hx1, atoi_digits_append p sep post hd]
      have := atoi_digits_append (x :: p) sep post hd 0
      rw [List.cons_append] at this
      rw [this]

theorem stop_colon_false {x : Char} (h : x ≠ ',' ∧ x ≠ NUL) (h1 : x ≠ ':') :
    stop_colon x = false := by
  simp [stop_colon, h.1, h.2, h1]

theorem parse_loop_step_host_plain (fuel : Nat) (pre name : List Char) (sep : Char)
    (post : List Char) (s : State) (he : entry_ok name) (hc : ∀ x ∈ name, x ≠ ':')
    (hsep : sep = ',' ∨ sep = NUL) :
    parse_loop (fuel + 1) (pre ++ ("host=".toList ++ name ++ sep :: post)) pre.length s =
      if s.no_bl_hosts = BL_MAX_HOSTS then
        Res.ret 1 { s with
          bl_subdevice := some (pre ++ ("host=".toList ++ name ++ sep :: post)) }
      else
        match add_host s name 2323 with
        | none => Res.undef
        | some s1 =>
          if sep = NUL then
            Res.next { s1 with
              bl_subdevice := some ((pre ++ ("host=".toList ++ name ++ [NUL])) ++ post) }
          else
            parse_loop fuel ((pre ++ ("host=".toList ++ name ++ [NUL])) ++ post)
              (pre ++ ("host=".toList ++ name ++ [NUL])).length s1 := by
  have hcmp0 : ¬ strncmp (List.drop pre.length
      (pre ++ ("host=".toList ++ name ++ sep :: post))) "file=".toList 5 = 0 := by
    rw [List.drop_left]
    intro h
    have := (strncmp_zero_iff "file=".toList (by decide) _).mp h
    simp at this
  have hcmp : strncmp (List.drop pre.length
      (pre ++ ("host=".toList ++ name ++ sep :: post))) "host=".toList 5 = 0 := by
    rw [List.drop_left]
    exact (strncmp_zero_iff "host=".toList (by decide) _).mpr rfl
  have hbuf : pre ++ ("host=".toList ++ name ++ sep :: post)
      = (pre ++ "host=".toList) ++ (name ++ sep :: post) := by simp
  have hstop : stop_colon sep = true := by
    rcases hsep with rfl | rfl <;> simp [stop_colon]
  have hq : skip_to stop_colon (pre ++ ("host=".toList ++ name ++ sep :: post))
      (pre ++ ("host=".toList ++ name ++ sep :: post)).length (pre.length + 5)
      = (pre ++ "host=".toList).length + name.length := by
    rw [hbuf]
    exact skip_to_body stop_colon name _ sep post _ _
      (fun x hx => stop_colon_false (he x hx) (hc x hx)) hstop (by simp; omega) (by simp)
  have hbuf2 : pre ++ ("host=".toList ++ name ++ sep :: post)
      = (pre ++ "host=".toList ++ name) ++ (sep :: post) := by simp
  have hlen2 : (pre ++ "host=".toList).length + name.length
      = (pre ++ "host=".toList ++ name).length := by simp; omega
  have hd : deref (pre ++ ("host=".toList ++ name ++ sep :: post))
      ((pre ++ "host=".toList).length + name.length) = sep := by
    rw [hbuf2, hlen2, deref_append]; rfl
  have hsc : sep ≠ ':' := by rcases hsep with rfl | rfl <;> decide
  have hset : (pre ++ ("host=".toList ++ name ++ sep :: post)).set
      ((pre ++ "host=".toList).length + name.length) NUL
      = (pre ++ "host=".toList) ++ (name ++ NUL :: post) := by
    rw [hbuf2, hlen2, set_at]; simp
  have hname : cstr (List.drop (pre.length + 5)
      ((pre ++ "host=".toList) ++ (name ++ NUL :: post))) = name := by
    have : pre.length + 5 = (pre ++ "host=".toList).length := by simp
    rw [this, List.drop_left]
    exact cstr_body name post (fun x hx => (he x hx).2)
  rw [parse_loop]
  simp only [hcmp0, hcmp, if_true, if_false, hq, hd, hsc, hset, hname]
  by_cases hfull : s.no_bl_hosts = BL_MAX_HOSTS
  · simp [hfull]
  · simp only [hfull, if_false]
    cases hadd : add_host s name 2323 with
    | none => rfl
    | some s1 =>
      simp only
      rcases hsep with rfl | rfl
      · have hne : (',' : Char) ≠ NUL := by decide
        simp [hne]
        congr 1
        omega
      · simp

theorem parse_loop_step_host_port (fuel : Nat) (pre name port : List Char) (sep : Char)
    (post : List Char) (s : State) (he : entry_ok name) (hc : ∀ x ∈ name, x ≠ ':')
    (hp : entry_ok port) (hsep : sep = ',' ∨ sep = NUL) :
    parse_loop (fuel + 1)
        (pre ++ ("host=".toList ++ (name ++ ':' :: port) ++ sep :: post)) pre.length s =
      if s.no_bl_hosts = BL_MAX_HOSTS then
        Res.ret 1 { s with
          bl_subdevice :=
            some (pre ++ ("host=".toList ++ (name ++ ':' :: port) ++ sep :: post)) }
      else
        match add_host s name (atoi port) with
        | none => Res.undef
        | some s1 =>
          if sep = NUL then
            Res.next { s1 with
              bl_subdevice :=
                some ((pre ++ ("host=".toList ++ (name ++ NUL :: port) ++ [sep])) ++ post) }
          else
            parse_loop fuel ((pre ++ ("host=".toList ++ (name ++ NUL :: port) ++ [sep])) ++ post)
              (pre ++ ("host=".toList ++ (name ++ NUL :: port) ++ [sep])).length s1 := by
  have hcmp0 : ¬ strncmp (List.drop pre.length
      (pre ++ ("host=".toList ++ (name ++ ':' :: port) ++ sep :: post))) "file=".toList 5
      = 0 := by
    rw [List.drop_left]
    intro h
    have := (strncmp_zero_iff "file=".toList (by decide) _).mp h
    simp at this
  have hcmp : strncmp (List.drop pre.length
      (pre ++ ("host=".toList ++ (name ++ ':' :: port) ++ sep :: post))) "host=".toList 5
      = 0 := by
    rw [List.drop_left]
    exact (strncmp_zero_iff "host=".toList (by decide) _).mpr rfl
  have hbuf : pre ++ ("host=".toList ++ (name ++ ':' :: port) ++ sep :: post)
      = (pre ++ "host=".toList) ++ (name ++ ':' :: (port ++ sep :: post)) := by simp
  have hq : skip_to stop_colon
      (pre ++ ("host=".toList ++ (name ++ ':' :: port) ++ sep :: post))
      (pre ++ ("host=".toList ++ (name ++ ':' :: port) ++ sep :: post)).length
      (pre.length + 5)
      = (pre ++ "host=".toList).length + name.length := by
    rw [hbuf]
    exact skip_to_body stop_colon name _ ':' _ _ _
      (fun x hx => stop_colon_false (he x hx) (hc x hx)) (by decide) (by simp; omega)
      (by simp)
  have hbuf2 : pre ++ ("host=".toList ++ (name ++ ':' :: port) ++ sep :: post)
      = (pre ++ "host=".toList ++ name) ++ (':' :: (port ++ sep :: post)) := by simp
  have hlen2 : (pre ++ "host=".toList).length + name.length
      = (pre ++ "host=".toList ++ name).length := by simp; omega
  have hd : deref (pre ++ ("host=".toList ++ (name ++ ':' :: port) ++ sep :: post))
      ((pre ++ "host=".toList).length + name.length) = ':' := by
    rw [hbuf2, hlen2, deref_append]; rfl
  have hset : (pre ++ ("host=".toList ++ (name ++ ':' :: port) ++ sep :: post)).set
      ((pre ++ "host=".toList).length + name.length) NUL
      = (pre ++ "host=".toList) ++ (name ++ NUL :: (port ++ sep :: post)) := by
    rw [hbuf2, hlen2, set_at]; simp
  have hname : cstr (List.drop (pre.length + 5)
      ((pre ++ "host=".toList) ++ (name ++ NUL :: (port ++ sep :: post)))) = name := by
    have : pre.length + 5 = (pre ++ "host=".toList).length := by simp
    rw [this, List.drop_left]
    exact cstr_body name _ (fun x hx => (he x hx).2)
  have hbuf3 : (pre ++ "host=".toList) ++ (name ++ NUL :: (port ++ sep :: post))
      = (pre ++ "host=".toList ++ name ++ [NUL]) ++ (port ++ sep :: post) := by simp
  have hlen3 : (pre ++ "host=".toList).length + name.length + 1
      = (pre ++ "host=".toList ++ name ++ [NUL]).length := by simp; omega
  have hatoi : atoi (List.drop ((pre ++ "host=".toList).length + name.length + 1)
      ((pre ++ "host=".toList) ++ (name ++ NUL :: (port ++ sep :: post)))) = atoi port := by
    rw [hbuf3, hlen3, List.drop_left]
    exact atoi_append port sep post hsep
  have hq2 : skip_to stop_comma
      ((pre ++ "host=".toList) ++ (name ++ NUL :: (port ++ sep :: post)))
      ((pre ++ "host=".toList) ++ (name ++ NUL :: (port ++ sep :: post))).length
      ((pre ++ "host=".toList).length + name.length + 1)
      = (pre ++ "host=".toList ++ name ++ [NUL]).length + port.length := by
    rw [hbuf3]
    exact skip_to_body stop_comma port _ sep post _ _
      (fun x hx => stop_comma_false (hp x hx)) (stop_comma_sep hsep) (by simp; omega)
      (by simp; omega)
  have hbuf4 : (pre ++ "host=".toList ++ name ++ [NUL]) ++ (port ++ sep :: post)
      = (pre ++ "host=".toList ++ name ++ [NUL] ++ port) ++ (sep :: post) := by simp
  have hlen4 : (pre ++ "host=".toList ++ name ++ [NUL]).length + port.length
      = (pre ++ "host=".toList ++ name ++ [NUL] ++ port).length := by simp; omega
  have hd2 : deref ((pre ++ "host=".toList) ++ (name ++ NUL :: (port ++ sep :: post)))
      ((pre ++ "host=".toList ++ name ++ [NUL]).length + port.length) = sep := by
    rw [hbuf3, hbuf4, hlen4, deref_append]; rfl
  rw [parse_loop]
  simp only [hcmp0, hcmp, if_true, if_false, hq, hd, hset, hname, hatoi, hq2, hd2]
  by_cases hfull : s.no_bl_hosts = BL_MAX_HOSTS
  · simp [hfull]
  · simp only [hfull, if_false]
    cases hadd : add_host s name (atoi port) with
    | none => rfl
    | some s1 =>
      simp only
      rcases hsep with rfl | rfl
      · have hne : (',' : Char) ≠ NUL := by decide
        simp [hne]
        congr 1
        omega
      · simp

theorem parse_loop_step_bad (fuel : Nat) (pre e : List Char) (sep : Char)
    (post : List Char) (s : State) (hsep : sep = ',' ∨ sep = NUL)
    (h1 : e.take 5 ≠ "file=".toList) (h2 : e.take 5 ≠ "host=".toList) :
    parse_loop (fuel + 1) (pre ++ (e ++ sep :: post)) pre.length s =
      if mp_msg_syntax_error s then
        Res.ret 1 { s with bl_subdevice := some (pre ++ (e ++ sep :: post)) }
      else Res.undef := by
  have hs1 : sep ∉ "file=".toList := by rcases hsep with rfl | rfl <;> decide
  have hs2 : sep ∉ "host=".toList := by rcases hsep with rfl | rfl <;> decide
  have hcmp1 : ¬ strncmp (List.drop pre.length (pre ++ (e ++ sep :: post)))
      "file=".toList 5 = 0 := by
    rw [List.drop_left]
    intro h
    exact h1 (take_entry _ e post sep hs1
      ((strncmp_zero_iff "file=".toList (by decide) _).mp h))
  have hcmp2 : ¬ strncmp (List.drop pre.length (pre ++ (e ++ sep :: post)))
      "host=".toList 5 = 0 := by
    rw [List.drop_left]
    intro h
    exact h2 (take_entry _ e post sep hs2
      ((strncmp_zero_iff "host=".toList (by decide) _).mp h))
  rw [parse_loop]
  simp only [hcmp1, hcmp2, if_false]

theorem host_name_colon_free (body : List Char) : ∀ x ∈ host_name body, x ≠ ':' := by
  intro x hx
  have := List.mem_takeWhile_imp hx
  simpa [not_colon] using this

/-- A host entry body either has no colon, or is a name, a colon and a port text. -/
theorem split_colon (body : List Char) :
    (body.dropWhile not_colon = [] ∧ host_name body = body) ∨
    ∃ port, body = host_name body ++ ':' :: port ∧
      body.dropWhile not_colon = ':' :: port := by
  induction body with
  | nil => left; simp [host_name]
  | cons x b ih =>
    by_cases hx : x = ':'
    · right
      subst hx
      have h0 : not_colon ':' = false := by decide
      exact ⟨b, by simp [host_name, List.takeWhile, h0], by simp [List.dropWhile, h0]⟩
    · have h0 : not_colon x = true := by simp [not_colon, hx]
      rcases ih with ⟨h1, h2⟩ | ⟨port, h1, h2⟩
      · left
        simp only [host_name] at h2 ⊢
        simp only [List.dropWhile, List.takeWhile, h0, h1, h2, and_self]
      · right
        refine ⟨port, ?_, ?_⟩
        · simp only [host_name] at h1 ⊢
          simp only [List.takeWhile, h0, List.cons_append, List.cons.injEq, true_and]
          exact h1
        · simp only [List.dropWhile, h0, h2]

/-- One iteration of the parsing loop on a block that holds the entry `e` at offset
`pre.length`, followed by the separator `sep`: the targets change as `parse_entry` says,
and the loop goes on behind the separator unless that was the terminator. -/
theorem parse_loop_step (fuel : Nat) (pre e : List Char) (sep : Char) (post : List Char)
    (s : State) (he : entry_ok e) (hsep : sep = ',' ∨ sep = NUL) :
    ∃ pre1 : List Char,
      parse_loop (fuel + 1) (pre ++ (e ++ sep :: post)) pre.length s =
        match parse_entry s e with
        | Res.next s1 =>
          if sep = NUL then Res.next { s1 with bl_subdevice := some (pre1 ++ post) }
          else parse_loop fuel (pre1 ++ post) pre1.length s1
        | Res.ret c s1 => Res.ret c { s1 with bl_subdevice := some (pre1 ++ post) }
        | Res.undef => Res.undef := by
  by_cases hf : e.take 5 = "file=".toList
  · have hE : e = "file=".toList ++ e.drop 5 := by rw [← hf, List.take_append_drop]
    have hstep := parse_loop_step_file fuel pre (e.drop 5) sep post s (entry_ok_drop he 5) hsep
    rw [← hE] at hstep
    by_cases hfull : s.no_bl_files = BL_MAX_FILES
    · refine ⟨pre ++ e ++ [sep], ?_⟩
      rw [hstep]
      simp [parse_entry, hf, hfull]
    · refine ⟨pre ++ (e ++ [NUL]), ?_⟩
      rw [hstep]
      simp only [parse_entry, hf, hfull, if_true, if_false]
      cases add_file s (e.drop 5) <;> rfl
  · by_cases hh : e.take 5 = "host=".toList
    · have hE : e = "host=".toList ++ e.drop 5 := by rw [← hh, List.take_append_drop]
      have hne : "host=".toList ≠ "file=".toList := by decide
      have hf1 : ¬ e.take 5 = "file=".toList := hf
      by_cases hfull : s.no_bl_hosts = BL_MAX_HOSTS
      · refine ⟨pre ++ e ++ [sep], ?_⟩
        rcases split_colon (e.drop 5) with ⟨h1, h2⟩ | ⟨port, h1, h2⟩
        · have hstep := parse_loop_step_host_plain fuel pre (e.drop 5) sep post s
            (entry_ok_drop he 5) (by rw [← h2]; exact host_name_colon_free _) hsep
          rw [← hE] at hstep
          rw [hstep]
          simp [parse_entry, hf1, hh, hfull]
        · have hok : entry_ok (host_name (e.drop 5) ++ ':' :: port) := by
            rw [← h1]; exact entry_ok_drop he 5
          have hstep := parse_loop_step_host_port fuel pre (host_name (e.drop 5)) port sep
            post s (fun c hc => hok c (List.mem_append_left _ hc)) (host_name_colon_free _)
            (fun c hc => hok c (List.mem_append_right _ (List.mem_cons_of_mem _ hc))) hsep
          rw [← h1, ← hE] at hstep
          rw [hstep]
          simp [parse_entry, hf1, hh, hfull]
      · rcases split_colon (e.drop 5) with ⟨h1, h2⟩ | ⟨port, h1, h2⟩
        · refine ⟨pre ++ (e ++ [NUL]), ?_⟩
          have hstep := parse_loop_step_host_plain fuel pre (e.drop 5) sep post s
            (entry_ok_drop he 5) (by rw [← h2]; exact host_name_colon_free _) hsep
          rw [← hE] at hstep
          rw [hstep]
          have hport : host_port (e.drop 5) = 2323 := by unfold host_port; rw [h1]
          simp only [parse_entry, hf1, hh, hfull, if_true, if_false, h2, hport]
          cases add_host s (e.drop 5) 2323 <;> rfl
        · refine ⟨pre ++ ("host=".toList ++ (host_name (e.drop 5) ++ NUL :: port) ++ [sep]),
            ?_⟩
          have hok : entry_ok (host_name (e.drop 5) ++ ':' :: port) := by
            rw [← h1]; exact entry_ok_drop he 5
          have hstep := parse_loop_step_host_port fuel pre (host_name (e.drop 5)) port sep
            post s (fun c hc => hok c (List.mem_append_left _ hc)) (host_name_colon_free _)
            (fun c hc => hok c (List.mem_append_right _ (List.mem_cons_of_mem _ hc))) hsep
          rw [← h1, ← hE] at hstep
          rw [hstep]
          have hport : host_port (e.drop 5) = atoi port := by unfold host_port; rw [h2]
          simp only [parse_entry, hf1, hh, hfull, if_true, if_false, hport]
          cases add_host s (host_name (e.drop 5)) (atoi port) <;> rfl
    · refine ⟨pre ++ e ++ [sep], ?_⟩
      have hpe : parse_entry s e
          = if mp_msg_syntax_error s then Res.ret 1 s else Res.undef := by
        unfold parse_entry
        rw [if_neg hf, if_neg hh]
      rw [parse_loop_step_bad fuel pre e sep post s hsep hf hh, hpe]
      cases mp_msg_syntax_error s <;> simp

/-- The parsing loop on a block that holds comma-separated entries computes what
`parse_entries` describes, and leaves the block in `bl_subdevice`. -/
theorem parse_loop_entries (es : List (List Char)) :
    ∀ (e pre : List Char) (s : State) (fuel : Nat),
      entry_ok e → (∀ x ∈ es, entry_ok x) → es.length < fuel →
      ∃ buf1, parse_loop fuel (pre ++ tail_buf e es) pre.length s
        = (parse_entries s (e :: es)).with_sub buf1 := by
  induction es with
  | nil =>
    intro e pre s fuel he _ hfuel
    obtain ⟨n, rfl⟩ : ∃ n, fuel = n + 1 := ⟨fuel - 1, by simp at hfuel; omega⟩
    obtain ⟨pre1, h⟩ := parse_loop_step n pre e NUL [] s he (Or.inr rfl)
    refine ⟨pre1 ++ [], ?_⟩
    rw [tail_buf, h]
    simp only [parse_entries]
    cases parse_entry s e <;> simp [Res.with_sub, parse_entries]
  | cons e1 es ih =>
    intro e pre s fuel he hes hfuel
    obtain ⟨n, rfl⟩ : ∃ n, fuel = n + 1 := ⟨fuel - 1, by simp at hfuel; omega⟩
    obtain ⟨pre1, h⟩ := parse_loop_step n pre e ',' (tail_buf e1 es) s he (Or.inl rfl)
    rw [tail_buf, h]
    simp only [parse_entries]
    cases hpe : parse_entry s e with
    | ret c s1 => exact ⟨pre1 ++ tail_buf e1 es, by simp [Res.with_sub]⟩
    | undef => exact ⟨[], by simp [Res.with_sub]⟩
    | next s1 =>
      have hne : (',' : Char) ≠ NUL := by decide
      simp only [hne, if_false]
      exact ih e1 pre1 s1 n (hes e1 (List.mem_cons_self _ _))
        (fun x hx => hes x (List.mem_cons_of_mem _ hx)) (by simp at hfuel; omega)

/-! ## Targets added by the parser -/

theorem take_succ_set {α : Type} (l : List α) :
    ∀ (i : Nat) (x : α), i < l.length → (l.set i x).take (i + 1) = l.take i ++ [x] := by
  induction l with
  | nil => intro i x h; simp at h
  | cons a l ih =>
    intro i x h
    cases i with
    | zero => simp
    | succ n =>
      simp only [List.set_cons_succ, List.take_succ_cons, List.cons_append, List.cons.injEq,
        true_and]
      exact ih n x (by simpa using h)

theorem take_set_ge {α : Type} (l : List α) :
    ∀ (i n : Nat) (x : α), n ≤ i → (l.set i x).take n = l.take n := by
  induction l with
  | nil => intro i n x _; simp
  | cons a l ih =>
    intro i n x h
    cases n with
    | zero => simp
    | succ m =>
      cases i with
      | zero => omega
      | succ j =>
        simp only [List.set_cons_succ, List.take_succ_cons, List.cons.injEq, true_and]
        exact ih j m x (by omega)

/-- Adding a file target to a state with room for it. -/
theorem add_file_spec (s : State) (n : List Char) (hw : s.wf)
    (hroom : s.no_bl_files ≠ BL_MAX_FILES) :
    ∃ s1, add_file s n = some s1 ∧ s1.wf ∧ s1.files = s.files ++ [some n] ∧
      s1.hosts = s.hosts ∧ s1.bl = s.bl ∧ s1.no_bl_files = s.no_bl_files + 1 ∧
      s1.no_bl_hosts = s.no_bl_hosts := by
  obtain ⟨h1, h2, h3, h4⟩ := hw
  have hlt : s.no_bl_files < s.bl_files.length := by rw [h1]; omega
  have hget : s.bl_files.get? s.no_bl_files = some (s.bl_files.get ⟨s.no_bl_files, hlt⟩) :=
    List.get?_eq_get hlt
  refine ⟨{ s with
      bl_files := s.bl_files.set s.no_bl_files
        { s.bl_files.get ⟨s.no_bl_files, hlt⟩ with name := some n },
      no_bl_files := s.no_bl_files + 1 },
    by unfold add_file; rw [hget], ?_, ?_, rfl, rfl, rfl, rfl⟩
  · refine ⟨by simp [h1], h2, ?_, h4⟩
    show s.no_bl_files + 1 ≤ BL_MAX_FILES
    omega
  · simp only [State.files]
    rw [take_succ_set _ _ _ hlt]
    simp

/-- Adding a network target to a state with room for it. -/
theorem add_host_spec (s : State) (n : List Char) (port : Int) (hw : s.wf)
    (hroom : s.no_bl_hosts ≠ BL_MAX_HOSTS) :
    ∃ s1, add_host s n port = some s1 ∧ s1.wf ∧ s1.hosts = s.hosts ++ [(some n, port)] ∧
      s1.files = s.files ∧ s1.bl = s.bl ∧ s1.no_bl_hosts = s.no_bl_hosts + 1 ∧
      s1.no_bl_files = s.no_bl_files := by
  obtain ⟨h1, h2, h3, h4⟩ := hw
  have hlt : s.no_bl_hosts < s.bl_hosts.length := by rw [h2]; omega
  have hget : s.bl_hosts.get? s.no_bl_hosts = some (s.bl_hosts.get ⟨s.no_bl_hosts, hlt⟩) :=
    List.get?_eq_get hlt
  refine ⟨{ s with
      bl_hosts := s.bl_hosts.set s.no_bl_hosts
        { s.bl_hosts.get ⟨s.no_bl_hosts, hlt⟩ with name := some n, port := port },
      no_bl_hosts := s.no_bl_hosts + 1 },
    by unfold add_host set_host; rw [hget], ?_, ?_, rfl, rfl, rfl, rfl⟩
  · refine ⟨h1, by simp [h2], h3, ?_⟩
    show s.no_bl_hosts + 1 ≤ BL_MAX_HOSTS
    omega
  · simp only [State.hosts]
    rw [take_succ_set _ _ _ hlt]
    simp

/-- What one iteration does in a well-formed state: a file entry is stored unless the file
array is full, a host entry is stored unless the host array is full; at any other entry the
function returns 1 when no file is stored and is undefined, in the call of `mp_msg`, when
one is. -/
theorem parse_entry_spec (s : State) (e : List Char) (hw : s.wf) :
    (is_file_entry e = true ∧ s.no_bl_files = BL_MAX_FILES ∧ parse_entry s e = Res.ret 1 s) ∨
    (is_file_entry e = true ∧ s.no_bl_files ≠ BL_MAX_FILES ∧
      ∃ s1, parse_entry s e = Res.next s1 ∧ s1.wf ∧ s1.files = s.files ++ [some (e.drop 5)] ∧
        s1.hosts = s.hosts ∧ s1.bl = s.bl ∧ s1.no_bl_files = s.no_bl_files + 1 ∧
        s1.no_bl_hosts = s.no_bl_hosts) ∨
    (is_file_entry e = false ∧ is_host_entry e = true ∧ s.no_bl_hosts = BL_MAX_HOSTS ∧
      parse_entry s e = Res.ret 1 s) ∨
    (is_file_entry e = false ∧ is_host_entry e = true ∧ s.no_bl_hosts ≠ BL_MAX_HOSTS ∧
      ∃ s1, parse_entry s e = Res.next s1 ∧ s1.wf ∧
        s1.hosts = s.hosts ++ [(some (host_name (e.drop 5)), host_port (e.drop 5))] ∧
        s1.files = s.files ∧ s1.bl = s.bl ∧ s1.no_bl_hosts = s.no_bl_hosts + 1 ∧
        s1.no_bl_files = s.no_bl_files) ∨
    (is_file_entry e = false ∧ is_host_entry e = false ∧ s.no_bl_files = 0 ∧
      parse_entry s e = Res.ret 1 s) ∨
    (is_file_entry e = false ∧ is_host_entry e = false ∧ s.no_bl_files ≠ 0 ∧
      parse_entry s e = Res.undef) := by
  unfold parse_entry is_file_entry is_host_entry mp_msg_syntax_error
  by_cases hf : e.take 5 = "file=".toList
  · by_cases hfull : s.no_bl_files = BL_MAX_FILES
    · left
      exact ⟨decide_eq_true hf, hfull, by rw [if_pos hf, if_pos hfull]⟩
    · right; left
      obtain ⟨s1, ha, hrest⟩ := add_file_spec s (e.drop 5) hw hfull
      exact ⟨decide_eq_true hf, hfull, s1, by rw [if_pos hf, if_neg hfull, ha], hrest⟩
  · by_cases hh : e.take 5 = "host=".toList
    · by_cases hfull : s.no_bl_hosts = BL_MAX_HOSTS
      · right; right; left
        exact ⟨decide_eq_false hf, decide_eq_true hh, hfull,
          by rw [if_neg hf, if_pos hh, if_pos hfull]⟩
      · right; right; right; left
        obtain ⟨s1, ha, hrest⟩ :=
          add_host_spec s (host_name (e.drop 5)) (host_port (e.drop 5)) hw hfull
        exact ⟨decide_eq_false hf, decide_eq_true hh, hfull, s1,
          by rw [if_neg hf, if_pos hh, if_neg hfull, ha], hrest⟩
    · by_cases h0 : s.no_bl_files = 0
      · right; right; right; right; left
        exact ⟨decide_eq_false hf, decide_eq_false hh, h0,
          by rw [if_neg hf, if_neg hh, if_pos (decide_eq_true h0)]⟩
      · right; right; right; right; right
        exact ⟨decide_eq_false hf, decide_eq_false hh, h0,
          by rw [if_neg hf, if_neg hh, if_neg (by simpa using h0)]⟩

theorem file_not_host (e : List Char) (h : is_file_entry e = true) :
    is_host_entry e = false := by
  unfold is_file_entry at h
  unfold is_host_entry
  have h1 : e.take 5 = "file=".toList := of_decide_eq_true h
  rw [h1]
  decide

/-- The entries from which the loop stores every target and ends normally: each is a file
or a host entry and neither array overflows. -/
theorem parse_entries_good (es : List (List Char)) :
    ∀ s : State, s.wf →
      (∀ e ∈ es, is_file_entry e = true ∨ is_host_entry e = true) →
      s.no_bl_files + es.countP is_file_entry ≤ BL_MAX_FILES →
      s.no_bl_hosts + es.countP is_host_entry ≤ BL_MAX_HOSTS →
      ∃ s1, parse_entries s es = Res.next s1 ∧ s1.wf ∧
        s1.files = s.files ++ entry_files es ∧ s1.hosts = s.hosts ++ entry_hosts es ∧
        s1.bl = s.bl ∧ s1.no_bl_files = s.no_bl_files + es.countP is_file_entry ∧
        s1.no_bl_hosts = s.no_bl_hosts + es.countP is_host_entry := by
  induction es with
  | nil =>
    intro s hw _ _ _
    exact ⟨s, rfl, hw, by simp [entry_files], by simp [entry_hosts], rfl, by simp, by simp⟩
  | cons e es ih =>
    intro s hw hgood hf hh
    have hgood1 : ∀ x ∈ es, is_file_entry x = true ∨ is_host_entry x = true :=
      fun x hx => hgood x (List.mem_cons_of_mem _ hx)
    rcases parse_entry_spec s e hw with
      ⟨h1, h2, _⟩ | ⟨h1, _, s1, hpe, hw1, hfs, hhs, hbl, hnf, hnh⟩ | ⟨h0, h1, h2, _⟩ |
      ⟨h0, h1, _, s1, hpe, hw1, hhs, hfs, hbl, hnh, hnf⟩ | ⟨h0, h1, _⟩ | ⟨h0, h1, _⟩
    · rw [List.countP_cons_of_pos _ _ h1] at hf
      omega
    · have hnot := file_not_host e h1
      rw [List.countP_cons_of_pos _ _ h1] at hf ⊢
      rw [List.countP_cons_of_neg _ _ (by simp [hnot])] at hh ⊢
      obtain ⟨s2, hp2, hw2, hf2, hh2, hbl2, hnf2, hnh2⟩ :=
        ih s1 hw1 hgood1 (by omega) (by omega)
      refine ⟨s2, ?_, hw2, ?_, ?_, by rw [hbl2, hbl], by omega, by omega⟩
      · simp only [parse_entries, hpe]
        exact hp2
      · rw [hf2, hfs]
        simp [entry_files, List.filterMap_cons, h1]
      · rw [hh2, hhs]
        simp [entry_hosts, List.filterMap_cons, hnot]
    · rw [List.countP_cons_of_pos _ _ h1] at hh
      omega
    · rw [List.countP_cons_of_pos _ _ h1] at hh ⊢
      rw [List.countP_cons_of_neg _ _ (by simp [h0])] at hf ⊢
      obtain ⟨s2, hp2, hw2, hf2, hh2, hbl2, hnf2, hnh2⟩ :=
        ih s1 hw1 hgood1 (by omega) (by omega)
      refine ⟨s2, ?_, hw2, ?_, ?_, by rw [hbl2, hbl], by omega, by omega⟩
      · simp only [parse_entries, hpe]
        exact hp2
      · rw [hf2, hfs]
        simp [entry_files, List.filterMap_cons, h0]
      · rw [hh2, hhs]
        simp [entry_hosts, List.filterMap_cons, h1]
    · rcases hgood e (List.mem_cons_self _ _) with h | h
      · rw [h0] at h; exact absurd h (by decide)
      · rw [h1] at h; exact absurd h (by decide)
    · rcases hgood e (List.mem_cons_self _ _) with h | h
      · rw [h0] at h; exact absurd h (by decide)
      · rw [h1] at h; exact absurd h (by decide)

/-- The loop returns failure as soon as a file or host entry finds its array full: when the
entries `pre`, all file or host entries, hold more than 16 of a kind (counting what is
stored already), the loop returns 1 whatever follows them. -/
theorem parse_entries_overflow (pre : List (List Char)) :
    ∀ (s : State) (post : List (List Char)), s.wf →
      (∀ e ∈ pre, is_file_entry e = true ∨ is_host_entry e = true) →
      (BL_MAX_FILES < s.no_bl_files + pre.countP is_file_entry ∨
        BL_MAX_HOSTS < s.no_bl_hosts + pre.countP is_host_entry) →
      ∃ s1, parse_entries s (pre ++ post) = Res.ret 1 s1 := by
  induction pre with
  | nil =>
    intro s post hw _ h
    obtain ⟨_, _, h3, h4⟩ := hw
    rcases h with h | h
    · simp at h; omega
    · simp at h; omega
  | cons e pre ih =>
    intro s post hw hgood h
    have hgood1 : ∀ x ∈ pre, is_file_entry x = true ∨ is_host_entry x = true :=
      fun x hx => hgood x (List.mem_cons_of_mem _ hx)
    rw [List.cons_append]
    rcases parse_entry_spec s e hw with
      ⟨h1, h2, hpe⟩ | ⟨h1, _, s1, hpe, hw1, hfs, hhs, hbl, hnf, hnh⟩ | ⟨h0, h1, h2, hpe⟩ |
      ⟨h0, h1, _, s1, hpe, hw1, hhs, hfs, hbl, hnh, hnf⟩ | ⟨h0, h1, _⟩ | ⟨h0, h1, _⟩
    · exact ⟨s, by simp only [parse_entries, hpe]⟩
    · have hnot := file_not_host e h1
      obtain ⟨s2, hs2⟩ := ih s1 post hw1 hgood1 (by
        rcases h with h | h
        · left
          rw [List.countP_cons_of_pos _ _ h1] at h
          omega
        · right
          rw [List.countP_cons_of_neg _ _ (by simp [hnot])] at h
          omega)
      exact ⟨s2, by simp only [parse_entries, hpe]; exact hs2⟩
    · exact ⟨s, by simp only [parse_entries, hpe]⟩
    · obtain ⟨s2, hs2⟩ := ih s1 post hw1 hgood1 (by
        rcases h with h | h
        · left
          rw [List.countP_cons_of_neg _ _ (by simp [h0])] at h
          omega
        · right
          rw [List.countP_cons_of_pos _ _ h1] at h
          omega)
      exact ⟨s2, by simp only [parse_entries, hpe]; exact hs2⟩
    · rcases hgood e (List.mem_cons_self _ _) with h | h
      · rw [h0] at h; exact absurd h (by decide)
      · rw [h1] at h; exact absurd h (by decide)
    · rcases hgood e (List.mem_cons_self _ _) with h | h
      · rw [h0] at h; exact absurd h (by decide)
      · rw [h1] at h; exact absurd h (by decide)

/-- The loop returns failure at an entry that is neither a file nor a host entry when no
file is stored by then: no file was stored at the start and no file entry comes before it. -/
theorem parse_entries_bad_first (pre : List (List Char)) :
    ∀ (s : State) (bad : List Char) (post : List (List Char)), s.wf → s.no_bl_files = 0 →
      (∀ e ∈ pre, is_file_entry e = false) →
      is_file_entry bad = false → is_host_entry bad = false →
      ∃ s1, parse_entries s (pre ++ bad :: post) = Res.ret 1 s1 := by
  induction pre with
  | nil =>
    intro s bad post hw hnf _ hb1 hb2
    rw [List.nil_append]
    rcases parse_entry_spec s bad hw with
      ⟨h1, _⟩ | ⟨h1, _⟩ | ⟨_, h1, _⟩ | ⟨_, h1, _⟩ | ⟨_, _, _, hpe⟩ | ⟨_, _, h2, _⟩
    · rw [hb1] at h1; exact absurd h1 (by decide)
    · rw [hb1] at h1; exact absurd h1 (by decide)
    · rw [hb2] at h1; exact absurd h1 (by decide)
    · rw [hb2] at h1; exact absurd h1 (by decide)
    · exact ⟨s, by simp only [parse_entries, hpe]⟩
    · exact absurd hnf h2
  | cons e pre ih =>
    intro s bad post hw hnf hpre hb1 hb2
    have he := hpre e (List.mem_cons_self _ _)
    rw [List.cons_append]
    rcases parse_entry_spec s e hw with
      ⟨h1, _⟩ | ⟨h1, _⟩ | ⟨_, _, _, hpe⟩ |
      ⟨_, _, _, s1, hpe, hw1, _, _, _, _, hnf1⟩ | ⟨_, _, _, hpe⟩ | ⟨_, _, h2, _⟩
    · rw [he] at h1; exact absurd h1 (by decide)
    · rw [he] at h1; exact absurd h1 (by decide)
    · exact ⟨s, by simp only [parse_entries, hpe]⟩
    · obtain ⟨s2, hs2⟩ := ih s1 bad post hw1 (by rw [hnf1]; exact hnf)
        (fun x hx => hpre x (List.mem_cons_of_mem _ hx)) hb1 hb2
      exact ⟨s2, by simp only [parse_entries, hpe]; exact hs2⟩
    · exact ⟨s, by simp only [parse_entries, hpe]⟩
    · exact absurd hnf h2

/-- The loop is undefined at an entry that is neither a file nor a host entry when a file is
stored by then and the entries before it were all stored: the call of `mp_msg` gives `%s`
the file count. -/
theorem parse_entries_bad_after_file (pre : List (List Char)) :
    ∀ (s : State) (bad : List Char) (post : List (List Char)), s.wf →
      (∀ e ∈ pre, is_file_entry e = true ∨ is_host_entry e = true) →
      s.no_bl_files + pre.countP is_file_entry ≤ BL_MAX_FILES →
      s.no_bl_hosts + pre.countP is_host_entry ≤ BL_MAX_HOSTS →
      s.no_bl_files + pre.countP is_file_entry ≠ 0 →
      is_file_entry bad = false → is_host_entry bad = false →
      parse_entries s (pre ++ bad :: post) = Res.undef := by
  induction pre with
  | nil =>
    intro s bad post hw _ _ _ hne hb1 hb2
    rw [List.nil_append]
    rcases parse_entry_spec s bad hw with
      ⟨h1, _⟩ | ⟨h1, _⟩ | ⟨_, h1, _⟩ | ⟨_, h1, _⟩ | ⟨_, _, h2, _⟩ | ⟨_, _, _, hpe⟩
    · rw [hb1] at h1; exact absurd h1 (by decide)
    · rw [hb1] at h1; exact absurd h1 (by decide)
    · rw [hb2] at h1; exact absurd h1 (by decide)
    · rw [hb2] at h1; exact absurd h1 (by decide)
    · exact absurd (by simpa using h2) hne
    · simp only [parse_entries, hpe]
  | cons e pre ih =>
    intro s bad post hw hgood hf hh hne hb1 hb2
    have hgood1 : ∀ x ∈ pre, is_file_entry x = true ∨ is_host_entry x = true :=
      fun x hx => hgood x (List.mem_cons_of_mem _ hx)
    rw [List.cons_append]
    rcases parse_entry_spec s e hw with
      ⟨h1, h2, _⟩ | ⟨h1, _, s1, hpe, hw1, hfs, hhs, hbl, hnf, hnh⟩ | ⟨h0, h1, h2, _⟩ |
      ⟨h0, h1, _, s1, hpe, hw1, hhs, hfs, hbl, hnh, hnf⟩ | ⟨h0, h1, _⟩ | ⟨h0, h1, _⟩
    · rw [List.countP_cons_of_pos _ _ h1] at hf
      omega
    · have hnot := file_not_host e h1
      rw [List.countP_cons_of_pos _ _ h1] at hf hne
      rw [List.countP_cons_of_neg _ _ (by simp [hnot])] at hh
      simp only [parse_entries, hpe]
      exact ih s1 bad post hw1 hgood1 (by omega) (by omega) (by omega) hb1 hb2
    · rw [List.countP_cons_of_pos _ _ h1] at hh
      omega
    · rw [List.countP_cons_of_pos _ _ h1] at hh
      rw [List.countP_cons_of_neg _ _ (by simp [h0])] at hf hne
      simp only [parse_entries, hpe]
      exact ih s1 bad post hw1 hgood1 (by omega) (by omega) (by omega) hb1 hb2
    · rcases hgood e (List.mem_cons_self _ _) with h | h
      · rw [h0] at h; exact absurd h (by decide)
      · rw [h1] at h; exact absurd h (by decide)
    · rcases hgood e (List.mem_cons_self _ _) with h | h
      · rw [h0] at h; exact absurd h (by decide)
      · rw [h1] at h; exact absurd h (by decide)

/-- In a well-formed state the loop never stores outside an array.  Its only undefined
outcome is the call of `mp_msg` for an entry that is neither a file nor a host entry, reached
after the entries before it have all been stored, within the arrays, with a file among the
targets. -/
theorem parse_entries_undef (es : List (List Char)) :
    ∀ s : State, s.wf → parse_entries s es = Res.undef →
      ∃ pre bad post, es = pre ++ bad :: post ∧
        (∀ e ∈ pre, is_file_entry e = true ∨ is_host_entry e = true) ∧
        is_file_entry bad = false ∧ is_host_entry bad = false ∧
        s.no_bl_files + pre.countP is_file_entry ≤ BL_MAX_FILES ∧
        s.no_bl_hosts + pre.countP is_host_entry ≤ BL_MAX_HOSTS ∧
        s.no_bl_files + pre.countP is_file_entry ≠ 0 := by
  induction es with
  | nil =>
    intro s _ h
    exact absurd h (by simp [parse_entries])
  | cons e es ih =>
    intro s hw h
    rcases parse_entry_spec s e hw with
      ⟨h1, h2, hpe⟩ | ⟨h1, _, s1, hpe, hw1, hfs, hhs, hbl, hnf, hnh⟩ | ⟨h0, h1, h2, hpe⟩ |
      ⟨h0, h1, _, s1, hpe, hw1, hhs, hfs, hbl, hnh, hnf⟩ | ⟨h0, h1, _, hpe⟩ |
      ⟨h0, h1, h2, hpe⟩
    · simp only [parse_entries, hpe] at h
      exact absurd h (by simp)
    · have hnot := file_not_host e h1
      simp only [parse_entries, hpe] at h
      obtain ⟨pre, bad, post, e1, e2, e3, e4, e5, e6, e7⟩ := ih s1 hw1 h
      refine ⟨e :: pre, bad, post, by rw [e1]; rfl, ?_, e3, e4, ?_, ?_, ?_⟩
      · intro x hx
        rcases List.mem_cons.mp hx with rfl | hx
        · exact Or.inl h1
        · exact e2 x hx
      · rw [List.countP_cons_of_pos _ _ h1]; omega
      · rw [List.countP_cons_of_neg _ _ (by simp [hnot])]; omega
      · rw [List.countP_cons_of_pos _ _ h1]; omega
    · simp only [parse_entries, hpe] at h
      exact absurd h (by simp)
    · simp only [parse_entries, hpe] at h
      obtain ⟨pre, bad, post, e1, e2, e3, e4, e5, e6, e7⟩ := ih s1 hw1 h
      refine ⟨e :: pre, bad, post, by rw [e1]; rfl, ?_, e3, e4, ?_, ?_, ?_⟩
      · intro x hx
        rcases List.mem_cons.mp hx with rfl | hx
        · exact Or.inr h1
        · exact e2 x hx
      · rw [List.countP_cons_of_neg _ _ (by simp [h0])]; omega
      · rw [List.countP_cons_of_pos _ _ h1]; omega
      · rw [List.countP_cons_of_neg _ _ (by simp [h0])]; omega
    · simp only [parse_entries, hpe] at h
      exact absurd h (by simp)
    · obtain ⟨_, _, h3, h4⟩ := hw
      exact ⟨[], e, es, rfl, by simp, h0, h1, by simpa using h3, by simpa using h4,
        by simpa using h2⟩

/-! ## `preinit` on a string of entries -/

theorem tail_buf_eq (es : List (List Char)) :
    ∀ e, tail_buf e es = join_entries e es ++ [NUL] := by
  induction es with
  | nil => intro e; rfl
  | cons e1 es ih => intro e; simp [tail_buf, join_entries, ih]

theorem tail_buf_length (es : List (List Char)) : ∀ e, es.length < (tail_buf e es).length := by
  induction es with
  | nil => intro e; simp [tail_buf]
  | cons e1 es ih =>
    intro e
    have := ih e1
    simp only [tail_buf, List.length_append, List.length_cons]
    omega

theorem cstr_no_nul (a : List Char) : ∀ c ∈ cstr a, c ≠ NUL := by
  intro c hc
  have := List.mem_takeWhile_imp hc
  simpa using this

/-- A string without commas is one entry; any string is a list of entries joined by
commas. -/
theorem exists_entries (l : List Char) (hl : ∀ c ∈ l, c ≠ NUL) :
    ∃ e es, l = join_entries e es ∧ entry_ok e ∧ ∀ x ∈ es, entry_ok x := by
  induction l with
  | nil => exact ⟨[], [], rfl, by simp [entry_ok], by simp⟩
  | cons c l ih =>
    obtain ⟨e, es, h1, h2, h3⟩ := ih (fun x hx => hl x (List.mem_cons_of_mem _ hx))
    by_cases hc : c = ','
    · refine ⟨[], e :: es, by simp [join_entries, hc, h1], by simp [entry_ok], ?_⟩
      intro x hx
      rcases List.mem_cons.mp hx with rfl | hx
      · exact h2
      · exact h3 x hx
    · refine ⟨c :: e, es, ?_, ?_, h3⟩
      · cases es with
        | nil => simp [join_entries] at h1 ⊢; exact h1
        | cons e1 es => simp [join_entries] at h1 ⊢; exact h1
      · intro x hx
        rcases List.mem_cons.mp hx with rfl | hx
        · exact ⟨hc, hl x (List.mem_cons_self _ _)⟩
        · exact h2 x hx

/-- The parser on a string `arcade:` followed by entries: the profile is set and the loop runs
over the entries. -/
theorem preinit_parse_entries (env : Env) (s : State) (a e : List Char)
    (es : List (List Char)) (hm : env.malloc_subdevice = true)
    (ha : cstr a = "arcade:".toList ++ join_entries e es)
    (he : entry_ok e) (hes : ∀ x ∈ es, entry_ok x) :
    ∃ buf1, preinit_parse env s (some a)
      = (parse_entries { s with bl := some bls_arcade } (e :: es)).with_sub buf1 := by
  have hbuf : cstr a ++ [NUL] = "arcade:".toList ++ tail_buf e es := by
    rw [ha, tail_buf_eq, List.append_assoc]
  have hlen : ¬ strlen a = 0 := by
    unfold strlen
    rw [ha]
    simp
  have hcmp : ¬ strncmp (List.drop 0 ("arcade:".toList ++ tail_buf e es)) "arcade".toList 6
      ≠ 0 := by
    rw [not_not, List.drop_zero]
    exact (strncmp_zero_iff "arcade".toList (by decide) _).mpr rfl
  have hd : deref ("arcade:".toList ++ tail_buf e es) (0 + 6) = ':' := rfl
  have hd1 : ¬ deref ("arcade:".toList ++ tail_buf e es) (0 + 6) = NUL := by
    rw [hd]; decide
  have hd2 : ¬ deref ("arcade:".toList ++ tail_buf e es) (0 + 6) ≠ ':' := by
    rw [hd]; simp
  obtain ⟨buf1, h⟩ := parse_loop_entries es e "arcade:".toList { s with bl := some bls_arcade }
    ("arcade:".toList ++ tail_buf e es).length he hes
    (by have := tail_buf_length es e; simp only [List.length_append]; omega)
  refine ⟨buf1, ?_⟩
  unfold preinit_parse
  simp only [hlen, hm, hbuf, if_false, hcmp, hd1, hd2]
  exact h

/-! ## The packet header (C1, C2) -/

/-- Whenever `preinit` returns 0 the profile is arcade and the packet block starts with the
header of that profile. -/
theorem preinit_packet (env : Env) (s s1 : State) (arg : Option (List Char))
    (h : preinit env s arg = Res.ret 0 s1) :
    s1.bl = some bls_arcade ∧ ∃ pkt, s1.bl_packet = some pkt ∧ pkt.length = 1572 ∧
      pkt.take 12 = [0x23, 0x54, 0x26, 0x66, 0, 20, 0, 26, 0, 1, 1, 0] := by
  unfold preinit at h
  have hp := preinit_parse_sat env s arg
  split at h
  · rename_i s0 h0
    rw [h0] at hp
    exact preinit_open_packet env s0 s1 bls_arcade hp h
  · rw [h] at hp
    have hc : (0 : Nat) = 1 := hp
    exact absurd hc (by decide)

/-- C1, as the code has it: whenever `preinit` succeeds, the packet header is laid out as
magic (4 bytes), then height, then width, then channels (2 bytes each, followed by the 2 bytes
of maxval), all big-endian: bytes 0..3 are 0x23 0x54 0x26 0x66, bytes 4..5 encode the height
20, bytes 6..7 encode the width 26 and bytes 8..9 encode the channel count 1. -/
theorem preinit_header_layout (env : Env) (s s1 : State) (arg : Option (List Char))
    (h : preinit env s arg = Res.ret 0 s1) :
    ∃ pkt, s1.bl_packet = some pkt ∧
      pkt.take 4 = [0x23, 0x54, 0x26, 0x66] ∧
      (pkt.drop 4).take 2 = [0, 20] ∧ read16 pkt 4 = bls_arcade.height ∧
      (pkt.drop 6).take 2 = [0, 26] ∧ read16 pkt 6 = bls_arcade.width ∧
      (pkt.drop 8).take 2 = [0, 1] ∧ read16 pkt 8 = bls_arcade.channels := by
  obtain ⟨_, pkt, hpkt, hlen, htake⟩ := preinit_packet env s s1 arg h
  refine ⟨pkt, hpkt, ?_⟩
  match pkt, hlen, htake with
  | a0 :: a1 :: a2 :: a3 :: a4 :: a5 :: a6 :: a7 :: a8 :: a9 :: a10 :: a11 :: rest, _, ht =>
    simp only [List.take, List.cons.injEq, and_true] at ht
    obtain ⟨rfl, rfl, rfl, rfl, rfl, rfl, rfl, rfl, rfl, rfl, rfl, rfl⟩ := ht
    simp [read16, bls_arcade]

/-- The theorem `preinit_header_layout` applies to the run of `preinit` on the string
`arcade` from the initial state. -/
theorem preinit_header_layout_witness :
    ∃ s1, preinit env_ok State.init (some "arcade".toList) = Res.ret 0 s1 ∧
      ∃ pkt, s1.bl_packet = some pkt ∧
        pkt.take 4 = [0x23, 0x54, 0x26, 0x66] ∧
        (pkt.drop 4).take 2 = [0, 20] ∧ read16 pkt 4 = bls_arcade.height ∧
        (pkt.drop 6).take 2 = [0, 26] ∧ read16 pkt 6 = bls_arcade.width ∧
        (pkt.drop 8).take 2 = [0, 1] ∧ read16 pkt 8 = bls_arcade.channels :=
  ⟨_, rfl, preinit_header_layout env_ok State.init _ (some "arcade".toList) rfl⟩

/-- C1 as stated fails: after `preinit` on the string `arcade` the twelve header bytes are
23 54 26 66 00 14 00 1a 00 01 01 00 (hexadecimal), so bytes 4..5 encode 20, the height, and
not the width 26. -/
theorem preinit_header_bytes_4_5_not_width :
    ∃ s1, preinit env_ok State.init (some "arcade".toList) = Res.ret 0 s1 ∧
      s1.bl_packet.map (fun pkt => pkt.take 12)
        = some [0x23, 0x54, 0x26, 0x66, 0, 20, 0, 26, 0, 1, 1, 0] ∧
      s1.bl_packet.map (fun pkt => read16 pkt 4) ≠ some 26 ∧
      s1.bl_packet.map (fun pkt => read16 pkt 6) ≠ some 20 :=
  ⟨_, rfl, by decide, by decide, by decide⟩

/-- C2 at the declared profiles: the expression `2<<bl->bpc - 1` is 256 for arcade (not
2^8 - 1 = 255) and 2 for hdl (not 2^1 - 1 = 1), and after `preinit` on the string `arcade`
the last two header bytes are 01 00, which decode to 256. -/
theorem preinit_maxval_is_power_of_two :
    maxval_expr bls_arcade = 256 ∧ maxval_expr bls_arcade ≠ 2 ^ bls_arcade.bpc - 1 ∧
    maxval_expr bls_hdl = 2 ∧ maxval_expr bls_hdl ≠ 2 ^ bls_hdl.bpc - 1 ∧
    ∃ s1, preinit env_ok State.init (some "arcade".toList) = Res.ret 0 s1 ∧
      s1.bl_packet.map (fun pkt => (pkt.drop 10).take 2) = some [1, 0] ∧
      s1.bl_packet.map (fun pkt => read16 pkt 10) = some 256 :=
  ⟨by decide, by decide, by decide, by decide, _, rfl, by decide, by decide⟩

/-! ## Valid subdevice strings (C5, C6) -/

theorem cstr_self (a : List Char) (h : ∀ c ∈ a, c ≠ NUL) : cstr a = a := by
  unfold cstr
  rw [List.takeWhile_eq_self_iff]
  intro c hc
  simpa using h c hc

theorem join_entries_no_nul (es : List (List Char)) :
    ∀ e, entry_ok e → (∀ x ∈ es, entry_ok x) → ∀ c ∈ join_entries e es, c ≠ NUL := by
  induction es with
  | nil => intro e he _ c hc; exact (he c hc).2
  | cons e1 es ih =>
    intro e he hes c hc
    simp only [join_entries, List.mem_append, List.mem_cons] at hc
    rcases hc with hc | rfl | hc
    · exact (he c hc).2
    · decide
    · exact ih e1 (hes e1 (List.mem_cons_self _ _))
        (fun x hx => hes x (List.mem_cons_of_mem _ hx)) c hc

theorem digit_props (c : Char) (h : isdigit c = true) :
    isspace c = false ∧ c ≠ '-' ∧ c ≠ '+' ∧ c ≠ ',' ∧ c ≠ NUL := by
  simp only [isdigit, Bool.and_eq_true, decide_eq_true_eq] at h
  refine ⟨?_, ?_, ?_, ?_, ?_⟩
  · simp only [isspace, Bool.or_eq_false_iff, decide_eq_false_iff_not]
    refine ⟨⟨⟨⟨⟨?_, ?_⟩, ?_⟩, ?_⟩, ?_⟩, ?_⟩ <;>
    · rintro rfl
      revert h
      decide
  all_goals
    rintro rfl
    revert h
    decide

theorem atoi_digits_all (d : List Char) (hd : ∀ c ∈ d, isdigit c = true) :
    ∀ acc, atoi_digits d acc = d.foldl (fun a c => a * 10 + (c.toNat - 48)) acc := by
  induction d with
  | nil => intro acc; rfl
  | cons x r ih =>
    intro acc
    simp only [atoi_digits, hd x (List.mem_cons_self _ _), if_true, List.foldl_cons]
    exact ih (fun c hc => hd c (List.mem_cons_of_mem _ hc)) _

/-- On a string of decimal digits `atoi` gives its value. -/
theorem atoi_of_digits (d : List Char) (hd : ∀ c ∈ d, isdigit c = true) :
    atoi d = (dec_value d : Int) := by
  cases d with
  | nil => rfl
  | cons x r =>
    obtain ⟨h1, h2, h3, _, _⟩ := digit_props x (hd x (List.mem_cons_self _ _))
    rw [atoi_nospace x r h1, if_neg h2, if_neg h3, atoi_digits_all _ hd]
    rfl

theorem host_name_plain (n : List Char) (h : ∀ c ∈ n, c ≠ ':') :
    host_name n = n ∧ host_port n = 2323 := by
  have h1 : n.takeWhile not_colon = n := by
    rw [List.takeWhile_eq_self_iff]
    intro c hc
    simp [not_colon, h c hc]
  have h2 : n.dropWhile not_colon = [] := by
    rw [List.dropWhile_eq_nil_iff]
    intro c hc
    simp [not_colon, h c hc]
  exact ⟨h1, by unfold host_port; rw [h2]⟩

theorem host_name_port (n d : List Char) (h : ∀ c ∈ n, c ≠ ':') :
    host_name (n ++ ':' :: d) = n ∧ host_port (n ++ ':' :: d) = atoi d := by
  have h0 : not_colon ':' = false := by decide
  have h1 : (n ++ ':' :: d).takeWhile not_colon = n := by
    induction n with
    | nil => simp [List.takeWhile, h0]
    | cons x r ih =>
      have hx : not_colon x = true := by simp [not_colon, h x (List.mem_cons_self _ _)]
      simp only [List.cons_append, List.takeWhile, hx, List.cons.injEq, true_and]
      exact ih (fun c hc => h c (List.mem_cons_of_mem _ hc))
  have h2 : (n ++ ':' :: d).dropWhile not_colon = ':' :: d := by
    clear h1
    induction n with
    | nil => simp [List.dropWhile, h0]
    | cons x r ih =>
      have hx : not_colon x = true := by simp [not_colon, h x (List.mem_cons_self _ _)]
      simp only [List.cons_append, List.dropWhile, hx]
      exact ih (fun c hc => h c (List.mem_cons_of_mem _ hc))
  exact ⟨h1, by unfold host_port; rw [h2]⟩

/-- The text of a valid entry is an entry in the sense of the parser, and the parser reads
from it the path, or the name and the port. -/
theorem entry_text_spec (e : Entry) (he : e.ok) :
    entry_ok e.text ∧
    (is_file_entry e.text = true ∨ is_host_entry e.text = true) ∧
    [e.text].countP is_file_entry = (spec_files [e]).length ∧
    [e.text].countP is_host_entry = (spec_hosts [e]).length ∧
    entry_files [e.text] = (spec_files [e]).map some ∧
    entry_hosts [e.text] = (spec_hosts [e]).map (fun p => (some p.1, p.2)) := by
  cases e with
  | file path =>
    have hf : is_file_entry (Entry.file path).text = true := by
      unfold is_file_entry; exact decide_eq_true rfl
    have hh := file_not_host _ hf
    refine ⟨?_, Or.inl hf, ?_, ?_, ?_, ?_⟩
    · intro c hc
      simp only [Entry.text, List.mem_append] at hc
      rcases hc with hc | hc
      · revert hc; revert c; decide
      · exact he c hc
    · rw [List.countP_cons_of_pos _ _ hf]; rfl
    · rw [List.countP_cons_of_neg _ _ (by rw [hh]; decide)]; rfl
    · simp only [entry_files, List.filterMap_cons, hf, if_true, List.filterMap_nil]
      rfl
    · simp only [entry_hosts, List.filterMap_cons, hh, Bool.false_eq_true, if_false,
        List.filterMap_nil]
      rfl
  | host name port =>
    obtain ⟨hn, hp⟩ := he
    have hcol : ∀ c ∈ name, c ≠ ':' := fun c hc => (hn c hc).2.2
    cases port with
    | none =>
      have hh : is_host_entry (Entry.host name none).text = true := by
        unfold is_host_entry; exact decide_eq_true rfl
      have hf : is_file_entry (Entry.host name none).text = false := by
        unfold is_file_entry; exact decide_eq_false (by simp [Entry.text])
      obtain ⟨e1, e2⟩ := host_name_plain name hcol
      have hd : List.drop 5 (Entry.host name none).text = name := rfl
      refine ⟨?_, Or.inr hh, ?_, ?_, ?_, ?_⟩
      · intro c hc
        simp only [Entry.text, List.mem_append] at hc
        rcases hc with hc | hc
        · revert hc; revert c; decide
        · exact ⟨(hn c hc).1, (hn c hc).2.1⟩
      · rw [List.countP_cons_of_neg _ _ (by rw [hf]; decide)]; rfl
      · rw [List.countP_cons_of_pos _ _ hh]; rfl
      · simp only [entry_files, List.filterMap_cons, hf, Bool.false_eq_true, if_false,
          List.filterMap_nil]
        rfl
      · simp only [entry_hosts, List.filterMap_cons, hh, if_true, List.filterMap_nil, hd, e1,
          e2]
        rfl
    | some d =>
      obtain ⟨hd1, _⟩ := hp d rfl
      have hh : is_host_entry (Entry.host name (some d)).text = true := by
        unfold is_host_entry; exact decide_eq_true rfl
      have hf : is_file_entry (Entry.host name (some d)).text = false := by
        unfold is_file_entry; exact decide_eq_false (by simp [Entry.text])
      obtain ⟨e1, e2⟩ := host_name_port name d hcol
      have hd : List.drop 5 (Entry.host name (some d)).text = name ++ ':' :: d := rfl
      refine ⟨?_, Or.inr hh, ?_, ?_, ?_, ?_⟩
      · intro c hc
        simp only [Entry.text, List.mem_append, List.mem_cons] at hc
        rcases hc with hc | hc | rfl | hc
        · revert hc; revert c; decide
        · exact ⟨(hn c hc).1, (hn c hc).2.1⟩
        · decide
        · have := digit_props c (hd1 c hc)
          exact ⟨this.2.2.2.1, this.2.2.2.2⟩
      · rw [List.countP_cons_of_neg _ _ (by rw [hf]; decide)]; rfl
      · rw [List.countP_cons_of_pos _ _ hh]; rfl
      · simp only [entry_files, List.filterMap_cons, hf, Bool.false_eq_true, if_false,
          List.filterMap_nil]
        rfl
      · simp only [entry_hosts, List.filterMap_cons, hh, if_true, List.filterMap_nil, hd, e1,
          e2, atoi_of_digits d hd1]
        rfl

theorem entries_text_spec (es : List Entry) (hok : ∀ e ∈ es, e.ok) :
    (∀ x ∈ es.map Entry.text, entry_ok x) ∧
    (∀ x ∈ es.map Entry.text, is_file_entry x = true ∨ is_host_entry x = true) ∧
    (es.map Entry.text).countP is_file_entry = (spec_files es).length ∧
    (es.map Entry.text).countP is_host_entry = (spec_hosts es).length ∧
    entry_files (es.map Entry.text) = (spec_files es).map some ∧
    entry_hosts (es.map Entry.text) = (spec_hosts es).map (fun p => (some p.1, p.2)) := by
  induction es with
  | nil => exact ⟨by simp, by simp, rfl, rfl, rfl, rfl⟩
  | cons e es ih =>
    obtain ⟨a1, a2, a3, a4, a5, a6⟩ := entry_text_spec e (hok e (List.mem_cons_self _ _))
    obtain ⟨b1, b2, b3, b4, b5, b6⟩ := ih (fun x hx => hok x (List.mem_cons_of_mem _ hx))
    have hsplit : (e :: es).map Entry.text = [e.text] ++ es.map Entry.text := rfl
    have hs1 : spec_files (e :: es) = spec_files [e] ++ spec_files es := by
      unfold spec_files
      rw [← List.filterMap_append]; rfl
    have hs2 : spec_hosts (e :: es) = spec_hosts [e] ++ spec_hosts es := by
      unfold spec_hosts
      rw [← List.filterMap_append]; rfl
    refine ⟨?_, ?_, ?_, ?_, ?_, ?_⟩
    · intro x hx
      rcases List.mem_cons.mp hx with rfl | hx
      · exact a1
      · exact b1 x hx
    · intro x hx
      rcases List.mem_cons.mp hx with rfl | hx
      · exact a2
      · exact b2 x hx
    · rw [hsplit, List.countP_append, a3, b3, hs1, List.length_append]
    · rw [hsplit, List.countP_append, a4, b4, hs2, List.length_append]
    · rw [hsplit, hs1, List.map_append, ← a5, ← b5]
      unfold entry_files
      rw [List.filterMap_append]
    · rw [hsplit, hs2, List.map_append, ← a6, ← b6]
      unfold entry_hosts
      rw [List.filterMap_append]

theorem with_sub_next {r : Res} {b : List Char} {s1 : State} (h : r = Res.next s1) :
    r.with_sub b = Res.next { s1 with bl_subdevice := some b } := by
  subst h; rfl

theorem with_sub_ret {r : Res} {b : List Char} {c : Nat} {s1 : State}
    (h : r = Res.ret c s1) :
    r.with_sub b = Res.ret c { s1 with bl_subdevice := some b } := by
  subst h; rfl

/-- C5: for every subdevice string `arcade:e_1,...,e_n` (n >= 1) whose entries are
`file=<path>` with no comma in the path, `host=<name>` or `host=<name>:<decimal port>` with
no colon and no comma in the name, with at most 16 entries of each kind, the parsing part of
`preinit`, started with empty target lists, ends normally, selects the arcade profile, and
leaves as file list the paths in order of appearance and as host list the (name, port) pairs
in order of appearance, the port being 2323 for an entry without one. -/
theorem preinit_parse_valid (env : Env) (s : State) (e : Entry) (es : List Entry)
    (hm : env.malloc_subdevice = true) (hs : s.wf)
    (hf0 : s.no_bl_files = 0) (hh0 : s.no_bl_hosts = 0)
    (hok : ∀ x ∈ e :: es, x.ok)
    (hnf : (spec_files (e :: es)).length ≤ 16) (hnh : (spec_hosts (e :: es)).length ≤ 16) :
    ∃ s1, preinit_parse env s (some (spec_string e es)) = Res.next s1 ∧
      s1.bl = some bls_arcade ∧
      s1.files = (spec_files (e :: es)).map some ∧
      s1.hosts = (spec_hosts (e :: es)).map (fun p => (some p.1, p.2)) := by
  obtain ⟨t1, t2, t3, t4, t5, t6⟩ := entries_text_spec (e :: es) hok
  rw [List.map_cons] at t1 t2 t3 t4 t5 t6
  have he : entry_ok e.text := t1 _ (List.mem_cons_self _ _)
  have hes : ∀ x ∈ es.map Entry.text, entry_ok x :=
    fun x hx => t1 x (List.mem_cons_of_mem _ hx)
  have hnul : ∀ c ∈ spec_string e es, c ≠ NUL := by
    intro c hc
    simp only [spec_string, List.mem_append] at hc
    rcases hc with hc | hc
    · revert hc; revert c; decide
    · exact join_entries_no_nul _ _ he hes c hc
  obtain ⟨buf1, hp⟩ := preinit_parse_entries env s (spec_string e es) e.text
    (es.map Entry.text) hm (cstr_self _ hnul) he hes
  have hw : State.wf { s with bl := some bls_arcade } := hs
  obtain ⟨s1, hg, _, hfiles, hhosts, hbl, _, _⟩ :=
    parse_entries_good (e.text :: es.map Entry.text) { s with bl := some bls_arcade } hw t2
      (by show s.no_bl_files + _ ≤ BL_MAX_FILES
          rw [hf0, t3]; simpa [BL_MAX_FILES] using hnf)
      (by show s.no_bl_hosts + _ ≤ BL_MAX_HOSTS
          rw [hh0, t4]; simpa [BL_MAX_HOSTS] using hnh)
  refine ⟨{ s1 with bl_subdevice := some buf1 }, ?_, hbl, ?_, ?_⟩
  · rw [hp]; exact with_sub_next hg
  · show s1.files = _
    rw [hfiles, t5]
    show (List.map (fun f => f.name) (List.take s.no_bl_files s.bl_files)) ++ _ = _
    rw [hf0]; simp
  · show s1.hosts = _
    rw [hhosts, t6]
    show (List.map (fun h => (h.name, h.port)) (List.take s.no_bl_hosts s.bl_hosts)) ++ _ = _
    rw [hh0]; simp

theorem State.init_wf : State.init.wf :=
  ⟨rfl, rfl, by decide, by decide⟩

/-- The theorem `preinit_parse_valid` applied to `arcade:host=localhost:2323,file=out.bml`:
the hosts are [(localhost, 2323)] and the files are [out.bml]. -/
theorem preinit_parse_valid_witness :
    ∃ s1, preinit_parse env_ok State.init
        (some "arcade:host=localhost:2323,file=out.bml".toList) = Res.next s1 ∧
      s1.bl = some bls_arcade ∧
      s1.files = [some "out.bml".toList] ∧
      s1.hosts = [(some "localhost".toList, 2323)] :=
  preinit_parse_valid env_ok State.init
    (Entry.host "localhost".toList (some "2323".toList)) [Entry.file "out.bml".toList]
    rfl State.init_wf rfl rfl (by decide) (by decide) (by decide)

/-- The parser on the bare profile name: the branch `*p == 0` after `arcade`. -/
theorem preinit_parse_arcade (env : Env) (s : State) (a : List Char)
    (hm : env.malloc_subdevice = true) (ha : cstr a = "arcade".toList)
    (hh : s.bl_hosts.length = BL_MAX_HOSTS) :
    ∃ s1, preinit_parse env s (some a) = Res.next s1 ∧
      s1.bl = some bls_arcade ∧
      s1.no_bl_hosts = 1 ∧ s1.hosts = [(some "localhost".toList, 2323)] ∧
      s1.no_bl_files = s.no_bl_files ∧ s1.bl_files = s.bl_files := by
  have hlen : ¬ strlen a = 0 := by
    unfold strlen; rw [ha]; decide
  match hb : s.bl_hosts, hh with
  | h0 :: rest, _ =>
    refine ⟨{ s with
        bl := some bls_arcade, no_bl_hosts := 1,
        bl_hosts := { h0 with name := some "localhost".toList, port := 2323 } :: rest,
        bl_subdevice := some ("arcade".toList ++ [NUL]) }, ?_, rfl, rfl, rfl, rfl, rfl⟩
    unfold preinit_parse
    simp only [hlen, hm, ha, if_false]
    have hcmp : ¬ strncmp (List.drop 0 ("arcade".toList ++ [NUL])) "arcade".toList 6 ≠ 0 := by
      decide
    have hd : deref ("arcade".toList ++ [NUL]) (0 + 6) = NUL := rfl
    simp only [hcmp, if_false, hd, if_true, set_host, hb]
    rfl

/-- C6: when the subdevice string is exactly `arcade`, the parser ends normally with exactly
one host target, `localhost` with port 2323, and adds no file target. -/
theorem preinit_parse_default (env : Env) (s : State) (a : List Char)
    (hm : env.malloc_subdevice = true) (ha : cstr a = "arcade".toList)
    (hh : s.bl_hosts.length = BL_MAX_HOSTS) :
    ∃ s1, preinit_parse env s (some a) = Res.next s1 ∧
      s1.bl = some bls_arcade ∧
      s1.no_bl_hosts = 1 ∧ s1.hosts = [(some "localhost".toList, 2323)] ∧
      s1.no_bl_files = s.no_bl_files ∧ s1.bl_files = s.bl_files :=
  preinit_parse_arcade env s a hm ha hh

/-- The theorem `preinit_parse_default` applied to the string `arcade` in the initial
state. -/
theorem preinit_parse_default_witness :
    ∃ s1, preinit_parse env_ok State.init (some "arcade".toList) = Res.next s1 ∧
      s1.bl = some bls_arcade ∧
      s1.no_bl_hosts = 1 ∧ s1.hosts = [(some "localhost".toList, 2323)] ∧
      s1.no_bl_files = State.init.no_bl_files ∧ s1.bl_files = State.init.bl_files :=
  preinit_parse_default env_ok State.init "arcade".toList rfl rfl rfl


/-! ## Malformed subdevice strings and capacity (C7, C8, C9) -/

theorem preinit_of_parse_ret {env : Env} {s s1 : State} {arg : Option (List Char)} {c : Nat}
    (h : preinit_parse env s arg = Res.ret c s1) : preinit env s arg = Res.ret c s1 := by
  unfold preinit
  rw [h]

theorem preinit_parse_nomem (env : Env) (s : State) (a : List Char) (hl : ¬ strlen a = 0)
    (hm : env.malloc_subdevice = false) :
    preinit_parse env s (some a) = Res.ret 1 { s with bl_subdevice := none } := by
  unfold preinit_parse
  simp only [hl, hm, if_true, if_false]

theorem preinit_parse_unknown (env : Env) (s : State) (a : List Char) (hl : ¬ strlen a = 0)
    (hm : env.malloc_subdevice = true)
    (hcmp : strncmp (List.drop 0 (cstr a ++ [NUL])) "arcade".toList 6 ≠ 0) :
    preinit_parse env s (some a)
      = Res.ret 1 { s with bl_subdevice := some (cstr a ++ [NUL]) } := by
  unfold preinit_parse
  simp only [hl, hm, if_false, Bool.true_eq_false]
  rw [if_pos hcmp]

theorem preinit_parse_separator (env : Env) (s : State) (a : List Char) (hl : ¬ strlen a = 0)
    (hm : env.malloc_subdevice = true)
    (hcmp : ¬ strncmp (List.drop 0 (cstr a ++ [NUL])) "arcade".toList 6 ≠ 0)
    (h1 : ¬ deref (cstr a ++ [NUL]) (0 + 6) = NUL)
    (h2 : deref (cstr a ++ [NUL]) (0 + 6) ≠ ':') :
    preinit_parse env s (some a)
      = Res.ret 1 { s with bl := bls.get? 1, bl_subdevice := some (cstr a ++ [NUL]) } := by
  unfold preinit_parse
  simp only [hl, hm, if_false, Bool.true_eq_false]
  rw [if_neg hcmp, if_neg h1, if_pos h2]

/-- The function `preinit` returns failure (1) for every malformed argument on which the
syntax error is met with no file stored: a null pointer or an empty string; a string whose
profile name is not `arcade` (such as `hdl`), or in which `arcade` is followed by a
character other than a colon (such as `arcadex`); a string with an entry that does not
begin with `file=` or `host=`, be it an entry without `=`, an empty entry between two commas,
or the empty entry after a trailing delimiter (`arcade:`, `arcade:host=a,`), when no file
entry comes before it and no file is stored at the call. -/
theorem preinit_rejects_malformed (env : Env) (s : State) (arg : Option (List Char))
    (hs : s.wf) (hnf : s.no_bl_files = 0) (h : Malformed arg) :
    ∃ s1, preinit env s arg = Res.ret 1 s1 := by
  cases h with
  | null => exact ⟨s, rfl⟩
  | empty a ha =>
    refine ⟨s, preinit_of_parse_ret ?_⟩
    unfold preinit_parse
    simp [strlen, ha]
  | unknown_profile a ha =>
    by_cases hl : strlen a = 0
    · exact ⟨s, preinit_of_parse_ret (by unfold preinit_parse; simp [hl])⟩
    · cases hm : env.malloc_subdevice with
      | false => exact ⟨_, preinit_of_parse_ret (preinit_parse_nomem env s a hl hm)⟩
      | true =>
        have hcmp : strncmp (List.drop 0 (cstr a ++ [NUL])) "arcade".toList 6 ≠ 0 := by
          rw [List.drop_zero]
          intro h0
          exact ha (take_entry "arcade".toList (cstr a) [] NUL (by decide)
            ((strncmp_zero_iff "arcade".toList (by decide) _).mp h0))
        exact ⟨_, preinit_of_parse_ret (preinit_parse_unknown env s a hl hm hcmp)⟩
  | bad_separator a c rest ha hc =>
    have hl : ¬ strlen a = 0 := by unfold strlen; rw [ha]; simp
    cases hm : env.malloc_subdevice with
    | false => exact ⟨_, preinit_of_parse_ret (preinit_parse_nomem env s a hl hm)⟩
    | true =>
      have hcn : c ≠ NUL := by
        apply cstr_no_nul a
        rw [ha]; simp
      have hcmp : ¬ strncmp (List.drop 0 (cstr a ++ [NUL])) "arcade".toList 6 ≠ 0 := by
        rw [not_not, List.drop_zero, ha]
        exact (strncmp_zero_iff "arcade".toList (by decide) _).mpr rfl
      have hd : deref (cstr a ++ [NUL]) (0 + 6) = c := by rw [ha]; rfl
      exact ⟨_, preinit_of_parse_ret
        (preinit_parse_separator env s a hl hm hcmp (by rw [hd]; exact hcn)
          (by rw [hd]; exact hc))⟩
  | bad_entry a e es pre bad post ha he hes hsplit hpre hb1 hb2 =>
    cases hm : env.malloc_subdevice with
    | false =>
      have hl : ¬ strlen a = 0 := by unfold strlen; rw [ha]; simp
      exact ⟨_, preinit_of_parse_ret (preinit_parse_nomem env s a hl hm)⟩
    | true =>
      obtain ⟨buf1, hp⟩ := preinit_parse_entries env s a e es hm ha he hes
      have hw : State.wf { s with bl := some bls_arcade } := hs
      obtain ⟨s1, h1⟩ := parse_entries_bad_first pre _ bad post hw hnf hpre hb1 hb2
      rw [← hsplit] at h1
      exact ⟨_, preinit_of_parse_ret (by rw [hp]; exact with_sub_ret h1)⟩

/-- The function `preinit` is undefined on every string `arcade:e_1,...,e_n` in which an
entry that begins neither with `file=` nor with `host=` is reached with a file stored: the
entries before it are file and host entries within the capacity, and a file is among them
or was stored at the call. -/
theorem preinit_undefined_after_file (env : Env) (s : State) (a e : List Char)
    (es pre : List (List Char)) (bad : List Char) (post : List (List Char))
    (hm : env.malloc_subdevice = true) (hs : s.wf)
    (ha : cstr a = "arcade:".toList ++ join_entries e es)
    (he : entry_ok e) (hes : ∀ x ∈ es, entry_ok x)
    (hsplit : e :: es = pre ++ bad :: post)
    (hgood : ∀ x ∈ pre, is_file_entry x = true ∨ is_host_entry x = true)
    (hf : s.no_bl_files + pre.countP is_file_entry ≤ BL_MAX_FILES)
    (hh : s.no_bl_hosts + pre.countP is_host_entry ≤ BL_MAX_HOSTS)
    (hne : s.no_bl_files + pre.countP is_file_entry ≠ 0)
    (hb1 : is_file_entry bad = false) (hb2 : is_host_entry bad = false) :
    preinit env s (some a) = Res.undef := by
  obtain ⟨buf1, hp⟩ := preinit_parse_entries env s a e es hm ha he hes
  have hw : State.wf { s with bl := some bls_arcade } := hs
  have h1 := parse_entries_bad_after_file pre { s with bl := some bls_arcade } bad post hw
    hgood hf hh hne hb1 hb2
  rw [← hsplit] at h1
  unfold preinit
  rw [hp, h1]
  rfl

/-- C7 at a failing input: on `arcade:file=out.bml,` (a trailing delimiter), on
`arcade:file=a,bad` (an entry without `=`) and on `arcade:file=a,,host=b` (an empty
entry) `preinit` does not return failure.  It reaches the syntax error with one file stored,
and the call of `mp_msg` there gives the conversion `%s` the `int` `no_bl_files` = 1, an
address at which no string lives: the outcome is undefined, and so it is on every string in
which a file entry comes before the offending entry.  The malformed arguments on which the
syntax error is met with no file stored, among them `hdl`, `arcadex`, `arcade:` and
`arcade:host=a,`, are all refused with 1. -/
theorem preinit_bad_entry_after_file :
    preinit env_ok State.init (some "arcade:file=out.bml,".toList) = Res.undef ∧
    preinit env_ok State.init (some "arcade:file=a,bad".toList) = Res.undef ∧
    preinit env_ok State.init (some "arcade:file=a,,host=b".toList) = Res.undef ∧
    (∀ (env : Env) (s : State) (a e : List Char) (es pre : List (List Char))
      (bad : List Char) (post : List (List Char)),
      env.malloc_subdevice = true → s.wf →
      cstr a = "arcade:".toList ++ join_entries e es →
      entry_ok e → (∀ x ∈ es, entry_ok x) →
      e :: es = pre ++ bad :: post →
      (∀ x ∈ pre, is_file_entry x = true ∨ is_host_entry x = true) →
      s.no_bl_files + pre.countP is_file_entry ≤ BL_MAX_FILES →
      s.no_bl_hosts + pre.countP is_host_entry ≤ BL_MAX_HOSTS →
      s.no_bl_files + pre.countP is_file_entry ≠ 0 →
      is_file_entry bad = false → is_host_entry bad = false →
      preinit env s (some a) = Res.undef) ∧
    (∀ (env : Env) (s : State) (arg : Option (List Char)),
      s.wf → s.no_bl_files = 0 → Malformed arg → ∃ s1, preinit env s arg = Res.ret 1 s1) ∧
    (∃ s1, preinit env_ok State.init (some "hdl".toList) = Res.ret 1 s1) ∧
    (∃ s1, preinit env_ok State.init (some "arcadex".toList) = Res.ret 1 s1) ∧
    (∃ s1, preinit env_ok State.init (some "arcade:".toList) = Res.ret 1 s1) ∧
    (∃ s1, preinit env_ok State.init (some "arcade:host=a,".toList) = Res.ret 1 s1) ∧
    (∃ s1, preinit env_ok State.init (some "arcade:host=a,,file=b".toList) = Res.ret 1 s1) ∧
    (∃ s1, preinit env_ok State.init (some "arcade:host=a,b".toList) = Res.ret 1 s1) :=
  ⟨rfl, rfl, rfl, preinit_undefined_after_file, preinit_rejects_malformed,
    ⟨_, rfl⟩, ⟨_, rfl⟩, ⟨_, rfl⟩, ⟨_, rfl⟩, ⟨_, rfl⟩, ⟨_, rfl⟩⟩

/-- The only undefined outcome of the parser in a well-formed state is the call of `mp_msg`
at a syntax error met with a file stored; no store goes outside an array. -/
theorem preinit_parse_undef (env : Env) (s : State) (arg : Option (List Char))
    (hs : s.wf) (hu : preinit_parse env s arg = Res.undef) :
    ∃ (a e : List Char) (es pre : List (List Char)) (bad : List Char)
      (post : List (List Char)),
      arg = some a ∧ cstr a = "arcade:".toList ++ join_entries e es ∧
      e :: es = pre ++ bad :: post ∧
      (∀ x ∈ pre, is_file_entry x = true ∨ is_host_entry x = true) ∧
      is_file_entry bad = false ∧ is_host_entry bad = false ∧
      s.no_bl_files + pre.countP is_file_entry ≤ BL_MAX_FILES ∧
      s.no_bl_hosts + pre.countP is_host_entry ≤ BL_MAX_HOSTS ∧
      s.no_bl_files + pre.countP is_file_entry ≠ 0 := by
  cases arg with
  | none => exact absurd hu (by simp [preinit_parse])
  | some a =>
    by_cases hl : strlen a = 0
    · exact absurd hu (by simp [preinit_parse, hl])
    · cases hm : env.malloc_subdevice with
      | false =>
        rw [preinit_parse_nomem env s a hl hm] at hu
        exact absurd hu (by simp)
      | true =>
        by_cases hcmp : strncmp (List.drop 0 (cstr a ++ [NUL])) "arcade".toList 6 ≠ 0
        · rw [preinit_parse_unknown env s a hl hm hcmp] at hu
          exact absurd hu (by simp)
        · have h6 : (cstr a).take 6 = "arcade".toList := by
            rw [not_not, List.drop_zero] at hcmp
            exact take_entry "arcade".toList (cstr a) [] NUL (by decide)
              ((strncmp_zero_iff "arcade".toList (by decide) _).mp hcmp)
          have hsplit : cstr a = "arcade".toList ++ (cstr a).drop 6 := by
            rw [← h6, List.take_append_drop]
          cases hrest : (cstr a).drop 6 with
          | nil =>
            rw [hrest, List.append_nil] at hsplit
            obtain ⟨s1, h1, _⟩ := preinit_parse_arcade env s a hm hsplit hs.2.1
            rw [h1] at hu
            exact absurd hu (by simp)
          | cons c rest =>
            rw [hrest] at hsplit
            by_cases hc : c = ':'
            · subst hc
              obtain ⟨e, es, hj, he, hes⟩ := exists_entries rest (by
                intro x hx
                apply cstr_no_nul a
                rw [hsplit]; simp [hx])
              have ha : cstr a = "arcade:".toList ++ join_entries e es := by
                rw [hsplit, hj]; rfl
              obtain ⟨buf1, hp⟩ := preinit_parse_entries env s a e es hm ha he hes
              have hw : State.wf { s with bl := some bls_arcade } := hs
              rw [hp] at hu
              have hpu : parse_entries { s with bl := some bls_arcade } (e :: es)
                  = Res.undef := by
                cases hpe : parse_entries { s with bl := some bls_arcade } (e :: es) with
                | ret c1 t => rw [hpe] at hu; exact absurd hu (by simp [Res.with_sub])
                | next t => rw [hpe] at hu; exact absurd hu (by simp [Res.with_sub])
                | undef => rfl
              obtain ⟨pre, bad, post, e1, e2, e3, e4, e5, e6, e7⟩ :=
                parse_entries_undef (e :: es) _ hw hpu
              exact ⟨a, e, es, pre, bad, post, rfl, ha, e1, e2, e3, e4, e5, e6, e7⟩
            · have hcn : c ≠ NUL := by
                apply cstr_no_nul a
                rw [hsplit]; simp
              have hd : deref (cstr a ++ [NUL]) (0 + 6) = c := by rw [hsplit]; rfl
              rw [preinit_parse_separator env s a hl hm hcmp (by rw [hd]; exact hcn)
                (by rw [hd]; exact hc)] at hu
              exact absurd hu (by simp)

/-- The entries the loop runs through to its normal end are file and host entries that
fit the arrays. -/
theorem parse_entries_next (es : List (List Char)) :
    ∀ (s s1 : State), s.wf → parse_entries s es = Res.next s1 →
      s.no_bl_files + es.countP is_file_entry ≤ BL_MAX_FILES ∧
      s.no_bl_hosts + es.countP is_host_entry ≤ BL_MAX_HOSTS := by
  induction es with
  | nil =>
    intro s s1 hw _
    obtain ⟨_, _, h3, h4⟩ := hw
    exact ⟨by simpa using h3, by simpa using h4⟩
  | cons e es ih =>
    intro s s2 hw h
    rcases parse_entry_spec s e hw with
      ⟨h1, h2, hpe⟩ | ⟨h1, _, s1, hpe, hw1, hfs, hhs, hbl, hnf, hnh⟩ | ⟨h0, h1, h2, hpe⟩ |
      ⟨h0, h1, _, s1, hpe, hw1, hhs, hfs, hbl, hnh, hnf⟩ | ⟨h0, h1, _, hpe⟩ |
      ⟨h0, h1, h2, hpe⟩
    · simp only [parse_entries, hpe] at h
      exact absurd h (by simp)
    · have hnot := file_not_host e h1
      simp only [parse_entries, hpe] at h
      obtain ⟨a1, a2⟩ := ih s1 s2 hw1 h
      rw [List.countP_cons_of_pos _ _ h1, List.countP_cons_of_neg _ _ (by simp [hnot])]
      constructor <;> omega
    · simp only [parse_entries, hpe] at h
      exact absurd h (by simp)
    · simp only [parse_entries, hpe] at h
      obtain ⟨a1, a2⟩ := ih s1 s2 hw1 h
      rw [List.countP_cons_of_neg _ _ (by simp [h0]), List.countP_cons_of_pos _ _ h1]
      constructor <;> omega
    · simp only [parse_entries, hpe] at h
      exact absurd h (by simp)
    · simp only [parse_entries, hpe] at h
      exact absurd h (by simp)

/-- Started with empty target lists, the parser of `preinit` accepts every string of file
and host entries with at most 16 (in particular exactly 16) entries of each kind and ends
with those numbers of targets.  It returns failure on every string in which the file and
host entries `pre` that open it hold a 17th file entry or a 17th host entry, whatever
follows them, and it accepts no string at all that holds more than 16 entries of a kind.
On no argument does it store a target outside an array: its only undefined outcome is the
call of `mp_msg` at an entry that is neither a file nor a host entry, reached after at most
16 files and 16 hosts have been stored, one file at least. -/
theorem preinit_parse_within_capacity (env : Env) (s : State) (hs : s.wf)
    (hf0 : s.no_bl_files = 0) (hh0 : s.no_bl_hosts = 0) :
    (∀ (a e : List Char) (es : List (List Char)),
      env.malloc_subdevice = true →
      cstr a = "arcade:".toList ++ join_entries e es →
      entry_ok e → (∀ x ∈ es, entry_ok x) →
      (∀ x ∈ e :: es, is_file_entry x = true ∨ is_host_entry x = true) →
      (e :: es).countP is_file_entry ≤ 16 → (e :: es).countP is_host_entry ≤ 16 →
      ∃ s1, preinit_parse env s (some a) = Res.next s1 ∧
        s1.no_bl_files = (e :: es).countP is_file_entry ∧
        s1.no_bl_hosts = (e :: es).countP is_host_entry) ∧
    (∀ (a e : List Char) (es pre post : List (List Char)),
      cstr a = "arcade:".toList ++ join_entries e es →
      entry_ok e → (∀ x ∈ es, entry_ok x) →
      e :: es = pre ++ post →
      (∀ x ∈ pre, is_file_entry x = true ∨ is_host_entry x = true) →
      (16 < pre.countP is_file_entry ∨ 16 < pre.countP is_host_entry) →
      ∃ s1, preinit_parse env s (some a) = Res.ret 1 s1) ∧
    (∀ (a e : List Char) (es : List (List Char)),
      cstr a = "arcade:".toList ++ join_entries e es →
      entry_ok e → (∀ x ∈ es, entry_ok x) →
      (16 < (e :: es).countP is_file_entry ∨ 16 < (e :: es).countP is_host_entry) →
      ∀ s1, preinit_parse env s (some a) ≠ Res.next s1) ∧
    (∀ arg : Option (List Char), preinit_parse env s arg = Res.undef →
      ∃ (a e : List Char) (es pre : List (List Char)) (bad : List Char)
        (post : List (List Char)),
        arg = some a ∧ cstr a = "arcade:".toList ++ join_entries e es ∧
        e :: es = pre ++ bad :: post ∧
        (∀ x ∈ pre, is_file_entry x = true ∨ is_host_entry x = true) ∧
        is_file_entry bad = false ∧ is_host_entry bad = false ∧
        pre.countP is_file_entry ≤ 16 ∧ pre.countP is_host_entry ≤ 16 ∧
        pre.countP is_file_entry ≠ 0) := by
  have hw : State.wf { s with bl := some bls_arcade } := hs
  refine ⟨?_, ?_, ?_, ?_⟩
  · intro a e es hm ha he hes hgood hnf hnh
    obtain ⟨buf1, hp⟩ := preinit_parse_entries env s a e es hm ha he hes
    obtain ⟨s1, hg, _, _, _, _, h5, h6⟩ :=
      parse_entries_good (e :: es) { s with bl := some bls_arcade } hw hgood
        (by show s.no_bl_files + _ ≤ BL_MAX_FILES
            rw [hf0]; simpa [BL_MAX_FILES] using hnf)
        (by show s.no_bl_hosts + _ ≤ BL_MAX_HOSTS
            rw [hh0]; simpa [BL_MAX_HOSTS] using hnh)
    refine ⟨{ s1 with bl_subdevice := some buf1 }, by rw [hp]; exact with_sub_next hg, ?_, ?_⟩
    · show s1.no_bl_files = _
      rw [h5]; show s.no_bl_files + _ = _; rw [hf0]; simp
    · show s1.no_bl_hosts = _
      rw [h6]; show s.no_bl_hosts + _ = _; rw [hh0]; simp
  · intro a e es pre post ha he hes hsplit hgood hmany
    have hl : ¬ strlen a = 0 := by unfold strlen; rw [ha]; simp
    cases hm : env.malloc_subdevice with
    | false => exact ⟨_, preinit_parse_nomem env s a hl hm⟩
    | true =>
      obtain ⟨buf1, hp⟩ := preinit_parse_entries env s a e es hm ha he hes
      obtain ⟨s1, h1⟩ := parse_entries_overflow pre { s with bl := some bls_arcade } post hw
        hgood (by
          rcases hmany with h | h
          · left
            show BL_MAX_FILES < s.no_bl_files + _
            rw [hf0]; simpa [BL_MAX_FILES] using h
          · right
            show BL_MAX_HOSTS < s.no_bl_hosts + _
            rw [hh0]; simpa [BL_MAX_HOSTS] using h)
      rw [← hsplit] at h1
      exact ⟨_, by rw [hp]; exact with_sub_ret h1⟩
  · intro a e es ha he hes hmany s1 hnext
    have hl : ¬ strlen a = 0 := by unfold strlen; rw [ha]; simp
    cases hm : env.malloc_subdevice with
    | false =>
      rw [preinit_parse_nomem env s a hl hm] at hnext
      exact absurd hnext (by simp)
    | true =>
      obtain ⟨buf1, hp⟩ := preinit_parse_entries env s a e es hm ha he hes
      rw [hp] at hnext
      cases hpe : parse_entries { s with bl := some bls_arcade } (e :: es) with
      | ret c1 t => rw [hpe] at hnext; exact absurd hnext (by simp [Res.with_sub])
      | undef => rw [hpe] at hnext; exact absurd hnext (by simp [Res.with_sub])
      | next t =>
        obtain ⟨a1, a2⟩ := parse_entries_next (e :: es) _ t hw hpe
        have b1 : s.no_bl_files + (e :: es).countP is_file_entry ≤ BL_MAX_FILES := a1
        have b2 : s.no_bl_hosts + (e :: es).countP is_host_entry ≤ BL_MAX_HOSTS := a2
        rw [hf0] at b1
        rw [hh0] at b2
        simp only [BL_MAX_FILES, BL_MAX_HOSTS] at b1 b2
        omega
  · intro arg hu
    obtain ⟨a, e, es, pre, bad, post, e0, ha, e1, e2, e3, e4, e5, e6, e7⟩ :=
      preinit_parse_undef env s arg hs hu
    rw [hf0] at e5 e7
    rw [hh0] at e6
    simp only [BL_MAX_FILES, BL_MAX_HOSTS, Nat.zero_add] at e5 e6 e7
    exact ⟨a, e, es, pre, bad, post, e0, ha, e1, e2, e3, e4, e5, e6, e7⟩

/-- C8 at a failing input: `arcade:file=a,bad,file=f,...,file=f` holds seventeen file
entries, and the parser does not return failure on it.  It stores the first file, meets
`bad` and calls `mp_msg` with the `int` `no_bl_files` = 1 for the conversion `%s`, which is
undefined; the 17th file entry is never reached.  Apart from that call the capacity is
kept.  Started with empty target lists, the parser accepts every string of file and host
entries with at most 16 (in particular exactly 16) entries of each kind and ends with those
numbers of targets; it returns failure on every string in which the file and host entries
`pre` that open it hold a 17th file entry or a 17th host entry, whatever follows them; it
accepts no string at all that holds more than 16 entries of a kind; and on no argument does
it store a target outside an array, its only undefined outcome being the call of `mp_msg`
at an entry that is neither a file nor a host entry, reached after at most 16 files and 16
hosts have been stored, one file at least.  The last three parts state the first two at 16
file and 16 host entries, and at a 17th file and a 17th host entry after them. -/
theorem preinit_parse_capacity :
    preinit_parse env_ok State.init
      (some ("arcade:".toList ++ join_entries "file=a".toList
        ("bad".toList :: List.replicate 16 "file=f".toList))) = Res.undef ∧
    preinit env_ok State.init
      (some ("arcade:".toList ++ join_entries "file=a".toList
        ("bad".toList :: List.replicate 16 "file=f".toList))) = Res.undef ∧
    (∀ (env : Env) (s : State), s.wf → s.no_bl_files = 0 → s.no_bl_hosts = 0 →
      (∀ (a e : List Char) (es : List (List Char)),
        env.malloc_subdevice = true →
        cstr a = "arcade:".toList ++ join_entries e es →
        entry_ok e → (∀ x ∈ es, entry_ok x) →
        (∀ x ∈ e :: es, is_file_entry x = true ∨ is_host_entry x = true) →
        (e :: es).countP is_file_entry ≤ 16 → (e :: es).countP is_host_entry ≤ 16 →
        ∃ s1, preinit_parse env s (some a) = Res.next s1 ∧
          s1.no_bl_files = (e :: es).countP is_file_entry ∧
          s1.no_bl_hosts = (e :: es).countP is_host_entry) ∧
      (∀ (a e : List Char) (es pre post : List (List Char)),
        cstr a = "arcade:".toList ++ join_entries e es →
        entry_ok e → (∀ x ∈ es, entry_ok x) →
        e :: es = pre ++ post →
        (∀ x ∈ pre, is_file_entry x = true ∨ is_host_entry x = true) →
        (16 < pre.countP is_file_entry ∨ 16 < pre.countP is_host_entry) →
        ∃ s1, preinit_parse env s (some a) = Res.ret 1 s1) ∧
      (∀ (a e : List Char) (es : List (List Char)),
        cstr a = "arcade:".toList ++ join_entries e es →
        entry_ok e → (∀ x ∈ es, entry_ok x) →
        (16 < (e :: es).countP is_file_entry ∨ 16 < (e :: es).countP is_host_entry) →
        ∀ s1, preinit_parse env s (some a) ≠ Res.next s1) ∧
      (∀ arg : Option (List Char), preinit_parse env s arg = Res.undef →
        ∃ (a e : List Char) (es pre : List (List Char)) (bad : List Char)
          (post : List (List Char)),
          arg = some a ∧ cstr a = "arcade:".toList ++ join_entries e es ∧
          e :: es = pre ++ bad :: post ∧
          (∀ x ∈ pre, is_file_entry x = true ∨ is_host_entry x = true) ∧
          is_file_entry bad = false ∧ is_host_entry bad = false ∧
          pre.countP is_file_entry ≤ 16 ∧ pre.countP is_host_entry ≤ 16 ∧
          pre.countP is_file_entry ≠ 0)) ∧
    (∃ s1, preinit_parse env_ok State.init
        (some ("arcade:".toList ++ join_entries "file=f".toList entries_15_16))
        = Res.next s1 ∧ s1.no_bl_files = 16 ∧ s1.no_bl_hosts = 16) ∧
    (∃ s1, preinit_parse env_ok State.init
        (some ("arcade:".toList ++ join_entries "file=f".toList
          (entries_15_16 ++ ["file=g".toList]))) = Res.ret 1 s1) ∧
    (∃ s1, preinit_parse env_ok State.init
        (some ("arcade:".toList ++ join_entries "file=f".toList
          (entries_15_16 ++ ["host=g".toList]))) = Res.ret 1 s1) :=
  ⟨rfl, rfl, preinit_parse_within_capacity,
    (preinit_parse_within_capacity env_ok State.init State.init_wf rfl rfl).1 _
      "file=f".toList entries_15_16 rfl (by decide) (by decide) (by decide) (by decide)
      (by decide) (by decide),
    (preinit_parse_within_capacity env_ok State.init State.init_wf rfl rfl).2.1 _
      "file=f".toList (entries_15_16 ++ ["file=g".toList])
      ("file=f".toList :: (entries_15_16 ++ ["file=g".toList])) []
      (by decide) (by decide) (by decide) (by decide) (by decide) (Or.inl (by decide)),
    (preinit_parse_within_capacity env_ok State.init State.init_wf rfl rfl).2.1 _
      "file=f".toList (entries_15_16 ++ ["host=g".toList])
      ("file=f".toList :: (entries_15_16 ++ ["host=g".toList])) []
      (by decide) (by decide) (by decide) (by decide) (by decide) (Or.inr (by decide))⟩

theorem Untouched.kept {s t : State} (h : Untouched s t) : Kept s t := by
  obtain ⟨h1, h2, h3, h4, h5⟩ := h
  exact ⟨by rw [h4], by rw [h5], by rw [h2], by rw [h3], Or.inl h1⟩

theorem parse_loop_kept (s : State) (fuel : Nat) (buf : List Char) (p : Nat) (t : State)
    (ht : Kept s t) : (parse_loop fuel buf p t).holds (Kept s) := by
  refine Res.sat_mono (fun _ _ h => h.2) (fun _ h => h)
    (parse_loop_sat (Kept s) (fun _ _ h => h) ?_ ?_ fuel buf p t ht)
  · intro u n u1 hadd hu
    obtain ⟨f, _, rfl⟩ := add_file_eq hadd
    obtain ⟨h1, h2, h3, h4, h5⟩ := hu
    refine ⟨Nat.le_succ_of_le h1, h2, ?_, h4, h5⟩
    show (u.bl_files.set u.no_bl_files _).take s.no_bl_files = _
    rw [take_set_ge _ _ _ _ h1, h3]
  · intro u n port u1 hadd hu
    obtain ⟨x, _, rfl⟩ := add_host_eq hadd
    obtain ⟨h1, h2, h3, h4, h5⟩ := hu
    refine ⟨h1, Nat.le_succ_of_le h2, h3, ?_, h5⟩
    show (u.bl_hosts.set u.no_bl_hosts _).take s.no_bl_hosts = _
    rw [take_set_ge _ _ _ _ h2, h4]

theorem preinit_parse_kept (env : Env) (s : State) (arg : Option (List Char)) :
    (preinit_parse env s arg).sat (fun _ t => Kept s t) (fun _ => True) := by
  have hu : ∀ b, Untouched s { s with bl_subdevice := b } :=
    fun _ => ⟨rfl, rfl, rfl, rfl, rfl⟩
  have hk : ∀ b, Kept s { s with bl := bls.get? 1, bl_subdevice := b } :=
    fun _ => ⟨Nat.le_refl _, Nat.le_refl _, rfl, rfl, Or.inr rfl⟩
  unfold preinit_parse
  split
  · exact (hu s.bl_subdevice).kept
  · simp only
    split
    · exact (hu s.bl_subdevice).kept
    · split
      · exact (hu _).kept
      · split
        · exact (hu _).kept
        · split
          · split
            · trivial
            · trivial
          · split
            · exact hk _
            · exact Res.sat_mono (fun _ _ h => h) (fun _ _ => trivial)
                (parse_loop_kept s _ _ _ _ (hk s.bl_subdevice))

/-- C9, as the code has it: whenever `preinit` fails while parsing the subdevice string, the
targets already stored (the entries of `bl_files` and `bl_hosts` below the old counters)
are unchanged and the counters have not decreased, the profile pointer is unchanged or
points to the arcade profile; and when the argument is null, empty, or does not start with
`arcade`, the profile pointer, the two target arrays and their counters are all exactly as
before the call. -/
theorem preinit_failed_parse_keeps (env : Env) (s s1 : State) (arg : Option (List Char))
    (h : preinit_parse env s arg = Res.ret 1 s1) :
    Kept s s1 ∧
    ((arg = none ∨ ∃ a, arg = some a ∧
        (cstr a = [] ∨ (cstr a).take 6 ≠ "arcade".toList)) → Untouched s s1) := by
  refine ⟨by have hk := preinit_parse_kept env s arg; rw [h] at hk; exact hk, ?_⟩
  have hu : ∀ b, Untouched s { s with bl_subdevice := b } :=
    fun _ => ⟨rfl, rfl, rfl, rfl, rfl⟩
  rintro (rfl | ⟨a, rfl, ha⟩)
  · have e : s1 = s := by
      simp only [preinit_parse] at h
      injection h with _ h2
      exact h2.symm
    rw [e]
    exact ⟨rfl, rfl, rfl, rfl, rfl⟩
  · by_cases hl : strlen a = 0
    · have e : s1 = s := by
        simp only [preinit_parse, hl, if_true] at h
        injection h with _ h2
        exact h2.symm
      rw [e]
      exact ⟨rfl, rfl, rfl, rfl, rfl⟩
    · have h6 : (cstr a).take 6 ≠ "arcade".toList := by
        rcases ha with ha | ha
        · exact absurd (by unfold strlen; rw [ha]; rfl) hl
        · exact ha
      cases hm : env.malloc_subdevice with
      | false =>
        rw [preinit_parse_nomem env s a hl hm] at h
        injection h with _ h2
        rw [← h2]
        exact hu _
      | true =>
        have hcmp : strncmp (List.drop 0 (cstr a ++ [NUL])) "arcade".toList 6 ≠ 0 := by
          rw [List.drop_zero]
          intro h0
          exact h6 (take_entry "arcade".toList (cstr a) [] NUL (by decide)
            ((strncmp_zero_iff "arcade".toList (by decide) _).mp h0))
        rw [preinit_parse_unknown env s a hl hm hcmp] at h
        injection h with _ h2
        rw [← h2]
        exact hu _

/-- The theorem `preinit_failed_parse_keeps` applied to the failing parses of `arcade:` with
seventeen file entries, of `arcadex` and of `hdl` in the initial state. -/
theorem preinit_failed_parse_keeps_witness :
    (∃ s1, preinit_parse env_ok State.init (some ("arcade:".toList ++
        join_entries "file=f".toList (List.replicate 16 "file=f".toList))) = Res.ret 1 s1 ∧
      Kept State.init s1) ∧
    (∃ s1, preinit_parse env_ok State.init (some "arcadex".toList) = Res.ret 1 s1 ∧
      Kept State.init s1) ∧
    (∃ s1, preinit_parse env_ok State.init (some "hdl".toList) = Res.ret 1 s1 ∧
      Untouched State.init s1) :=
  ⟨⟨_, rfl, (preinit_failed_parse_keeps env_ok State.init _
      (some ("arcade:".toList ++
        join_entries "file=f".toList (List.replicate 16 "file=f".toList))) rfl).1⟩,
    ⟨_, rfl, (preinit_failed_parse_keeps env_ok State.init _
      (some "arcadex".toList) rfl).1⟩,
    ⟨_, rfl, (preinit_failed_parse_keeps env_ok State.init _ (some "hdl".toList) rfl).2
      (Or.inr ⟨_, rfl, Or.inr (by decide)⟩)⟩⟩

/-- C9 as stated fails: the parse of `arcade:` followed by seventeen entries `file=f` in the
initial state fails at the seventeenth entry, and by then `bl` points to the arcade profile
(it was null) and `no_bl_files` is 16 (it was 0) with sixteen files stored; the parse of
`arcadex` fails with `bl` pointing to the arcade profile. -/
theorem preinit_failed_parse_changes_state :
    (∃ s1, preinit env_ok State.init (some ("arcade:".toList ++
        join_entries "file=f".toList (List.replicate 16 "file=f".toList))) = Res.ret 1 s1 ∧
      State.init.bl = none ∧ s1.bl = some bls_arcade ∧
      State.init.no_bl_files = 0 ∧ s1.no_bl_files = 16 ∧
      State.init.files = [] ∧ s1.files = List.replicate 16 (some "f".toList)) ∧
    (∃ s1, preinit env_ok State.init (some "arcadex".toList) = Res.ret 1 s1 ∧
      State.init.bl = none ∧ s1.bl = some bls_arcade) :=
  ⟨⟨_, rfl, rfl, rfl, rfl, rfl, rfl, rfl⟩, ⟨_, rfl, rfl, rfl⟩⟩


/-! ## A successful `preinit` leaves the driver ready -/

theorem loop_from_inv (Q : Nat → State → Prop) (body : Nat → State → Res)
    (hb : ∀ i s, Q i s → (body i s).sat (fun _ _ => True) (Q (i + 1))) :
    ∀ todo i s, Q i s → (loop_from body todo i s).sat (fun _ _ => True) (Q (i + todo)) := by
  intro todo
  induction todo with
  | zero => intro i s h; exact h
  | succ n ih =>
    intro i s h
    have h1 := hb i s h
    unfold loop_from
    cases hr : body i s with
    | ret c s1 => trivial
    | undef => trivial
    | next s1 =>
      rw [hr] at h1
      have := ih (i + 1) s1 h1
      rw [show i + 1 + n = i + (n + 1) by omega] at this
      exact this

theorem for_loop_inv_next (Q : Nat → State → Prop) (body : Nat → State → Res)
    (hb : ∀ i s, Q i s → (body i s).sat (fun _ _ => True) (Q (i + 1)))
    {count : Nat} {s s1 : State} (h : for_loop count body s = Res.next s1) (hq : Q 0 s) :
    Q count s1 := by
  have := loop_from_inv Q body hb count 0 s hq
  unfold for_loop at h
  rw [h, Nat.zero_add] at this
  exact this

theorem for_loop_holds_next (P : State → Prop) (body : Nat → State → Res)
    (hb : ∀ i s, P s → (body i s).holds P) {count : Nat} {s s1 : State}
    (h : for_loop count body s = Res.next s1) (hs : P s) : P s1 := by
  have := for_loop_holds P body hb count s hs
  rw [h] at this
  exact this

theorem bml_init_opens (env : Env) (i : Nat) (s : State) (h : FilesOpen i s) :
    (bml_init env i s).sat (fun _ _ => True) (FilesOpen (i + 1)) := by
  unfold bml_init
  split
  · trivial
  · rename_i f hf
    split
    · trivial
    · split
      · split <;> trivial
      · split
        · rename_i bl s1 _ h1
          obtain ⟨f1, hf1, rfl⟩ := set_fp_eq h1
          have hlt : i < s.bl_files.length := by
            rw [List.get?_eq_getElem?] at hf1
            exact (List.getElem?_eq_some_iff.mp hf1).1
          refine ⟨by simp [h.1], ?_⟩
          intro j hj
          by_cases hji : j = i
          · subst hji
            exact ⟨{ f1 with fp := Stream.opened }, by simp [hlt], rfl⟩
          · obtain ⟨g, hg, hgo⟩ := h.2 j (by omega)
            refine ⟨g, ?_, hgo⟩
            simp only [List.get?_eq_getElem?] at hg ⊢
            rw [List.getElem?_set_ne (Ne.symm hji)]
            exact hg
        · trivial

theorem bml_init_hosts (env : Env) (i : Nat) (s : State) :
    (bml_init env i s).holds (fun t => t.bl_hosts = s.bl_hosts) := by
  unfold bml_init
  split
  · trivial
  · split
    · trivial
    · split
      · split
        · trivial
        · rename_i s1 h1
          obtain ⟨f, _, rfl⟩ := set_fp_eq h1
          exact rfl
      · split
        · rename_i s1 _ h1
          obtain ⟨f, _, rfl⟩ := set_fp_eq h1
          exact rfl
        · trivial

theorem udp_init_files (env : Env) (i : Nat) (s : State) :
    (udp_init env i s).holds (fun t => t.bl_files = s.bl_files ∧
      t.bl_hosts.length = s.bl_hosts.length) := by
  unfold udp_init
  split
  · trivial
  · split
    · trivial
    · split
      · exact ⟨rfl, rfl⟩
      · simp only
        split
        · trivial
        · rename_i s1 h1
          obtain ⟨x, _, rfl⟩ := set_fd_eq h1
          split
          · exact ⟨rfl, by simp⟩
          · split
            · exact ⟨rfl, by simp⟩
            · exact ⟨rfl, by simp⟩

theorem preinit_parse_wf (env : Env) (s : State) (arg : Option (List Char)) (hs : s.wf) :
    (preinit_parse env s arg).holds (fun t => t.wf ∧ t.prevpts = s.prevpts) := by
  have hloop := fun fuel buf p (t : State) (ht : t.wf ∧ t.prevpts = s.prevpts) =>
    @Res.sat_mono _ (fun _ u => u.wf ∧ u.prevpts = s.prevpts) _
      (fun u => u.wf ∧ u.prevpts = s.prevpts) _ (fun _ _ h => h.2) (fun _ h => h)
      (parse_loop_sat (fun u => u.wf ∧ u.prevpts = s.prevpts) (fun _ _ h => h)
        (fun u n u1 hadd hu => by
          obtain ⟨f, hf, rfl⟩ := add_file_eq hadd
          obtain ⟨⟨h1, h2, h3, h4⟩, h5⟩ := hu
          have hlt : u.no_bl_files < u.bl_files.length := by
            rw [List.get?_eq_getElem?] at hf
            exact (List.getElem?_eq_some_iff.mp hf).1
          exact ⟨⟨by simp [h1], h2, by show u.no_bl_files + 1 ≤ _; omega, h4⟩, h5⟩)
        (fun u n port u1 hadd hu => by
          obtain ⟨x, hx, rfl⟩ := add_host_eq hadd
          obtain ⟨⟨h1, h2, h3, h4⟩, h5⟩ := hu
          have hlt : u.no_bl_hosts < u.bl_hosts.length := by
            rw [List.get?_eq_getElem?] at hx
            exact (List.getElem?_eq_some_iff.mp hx).1
          exact ⟨⟨h1, by simp [h2], h3, by show u.no_bl_hosts + 1 ≤ _; omega⟩, h5⟩)
        fuel buf p t ht)
  have hu : ∀ b, State.wf { s with bl_subdevice := b } ∧
      ({ s with bl_subdevice := b } : State).prevpts = s.prevpts := fun _ => ⟨hs, rfl⟩
  unfold preinit_parse
  split
  · exact ⟨hs, rfl⟩
  · simp only
    split
    · exact ⟨hs, rfl⟩
    · split
      · exact hu _
      · split
        · exact hu _
        · split
          · split
            · trivial
            · rename_i s1 h1
              obtain ⟨x, _, rfl⟩ := set_host_eq h1
              obtain ⟨h1, h2, h3, h4⟩ := hs
              exact ⟨⟨h1, by simp [h2], h3, by show 1 ≤ BL_MAX_HOSTS; decide⟩, rfl⟩
          · split
            · exact ⟨hs, rfl⟩
            · exact hloop _ _ _ _ ⟨hs, rfl⟩

/-- Whenever `preinit` returns 0 from a well-formed state, the driver is ready and
`prevpts` is what it was. -/
theorem preinit_ready (env : Env) (s s1 : State) (arg : Option (List Char)) (hs : s.wf)
    (h : preinit env s arg = Res.ret 0 s1) :
    ∃ pkt snap, Ready s1 pkt snap ∧ s1.prevpts = s.prevpts := by
  obtain ⟨hbl1, pkt, hpkt, hlen, hhead⟩ := preinit_packet env s s1 arg h
  have hpw := preinit_parse_wf env s arg hs
  have hpa := preinit_parse_sat env s arg
  unfold preinit at h
  split at h
  · rename_i s0 h0
    rw [h0] at hpw hpa
    obtain ⟨hw0, hprev0⟩ : s0.wf ∧ s0.prevpts = s.prevpts := hpw
    have hbl0 : s0.bl = some bls_arcade := hpa
    unfold preinit_open at h
    rw [hbl0] at h
    simp only at h
    split at h
    · rename_i mem t hp ht
      split at h
      · rename_i s2 h2
        have f2 := for_loop_same_next (call_init_file_same env bls_arcade) h2
        have o2 : FilesOpen s0.no_bl_files s2 :=
          for_loop_inv_next FilesOpen (call_init_file env bls_arcade)
            (fun i u hu => by
              unfold call_init_file
              exact bml_init_opens env i u hu)
            h2 ⟨hw0.1, fun j hj => absurd hj (by omega)⟩
        have j2' : s2.bl_hosts = s0.bl_hosts :=
          for_loop_holds_next (fun u => u.bl_hosts = s0.bl_hosts)
            (call_init_file env bls_arcade)
            (fun i u hu => by
              unfold call_init_file
              have := bml_init_hosts env i u
              exact Res.sat_mono (fun _ _ hh => hh.trans hu) (fun _ hh => hh.trans hu) this)
            h2 rfl
        split at h
        · rename_i s3 h3
          have f3 := for_loop_same_next (call_init_connection_same env bls_arcade) h3
          obtain ⟨k3a, k3b⟩ : s3.bl_files = s2.bl_files ∧
              s3.bl_hosts.length = s2.bl_hosts.length :=
            for_loop_holds_next (fun u => u.bl_files = s2.bl_files ∧
                u.bl_hosts.length = s2.bl_hosts.length) (call_init_connection env bls_arcade)
              (fun i u hu => by
                unfold call_init_connection
                have := udp_init_files env i u
                exact Res.sat_mono (fun _ _ hh => ⟨hh.1.trans hu.1, hh.2.trans hu.2⟩)
                  (fun _ hh => ⟨hh.1.trans hu.1, hh.2.trans hu.2⟩) this)
              h3 ⟨rfl, rfl⟩
          have e : s3 = s1 := by injection h
          subst e
          have f := SameVars.trans f2 f3
          obtain ⟨g1, g2, g3, g4, g5, g6, g7, g8, g9, g10⟩ := f
          obtain ⟨m0, hm0, rfl⟩ := Option.map_eq_some'.mp ht
          simp only at g1 g2 g3 g4 g5 g6 g7 g8 g9 g10
          rw [hm0] at g2
          refine ⟨pkt, block (bls_arcade.width * bls_arcade.height * bls_arcade.channels) m0,
            { bl_eq := hbl1, image_eq := g1, packet_eq := hpkt, packet_length := hlen,
              header_eq := hhead, tmp_eq := g2, tmp_length := by rw [block_length]; rfl,
              size_eq := g10,
              wf := ⟨by rw [k3a]; exact o2.1, by rw [k3b, j2']; exact hw0.2.1,
                by rw [g7]; exact hw0.2.2.1, by rw [g8]; exact hw0.2.2.2⟩,
              files_open := by
                intro i hi
                rw [k3a]
                exact o2.2 i (by rw [g7] at hi; exact hi) },
            by rw [g5]; exact hprev0⟩
        · have hc := (for_loop_same_ret (call_init_connection_same env bls_arcade) h).1
          exact absurd hc (by decide)
      · have hc := (for_loop_same_ret (call_init_file_same env bls_arcade) h).1
        exact absurd hc (by decide)
    · exact absurd h (by simp)
  · rw [h] at hpa
    have hc : (0 : Nat) = 1 := hpa
    exact absurd hc (by decide)

/-! ## `flip_page` in a ready state (C3, C4) -/

theorem state_trace_self (s : State) : { s with trace := s.trace } = s := rfl

/-- A loop whose body only appends one event per iteration appends those events in order. -/
theorem loop_from_events (body : Nat → State → Res) (ev : Nat → Event) (P : State → Prop)
    (bound : Nat)
    (hP : ∀ s e, P s → P { s with trace := s.trace ++ e })
    (hb : ∀ i s, P s → i < bound →
      body i s = Res.next { s with trace := s.trace ++ [ev i] }) :
    ∀ todo i s, P s → i + todo ≤ bound →
      loop_from body todo i s
        = Res.next { s with trace := s.trace ++ (List.range' i todo).map ev } := by
  intro todo
  induction todo with
  | zero =>
    intro i s _ _
    simp [loop_from]
  | succ n ih =>
    intro i s hs hi
    unfold loop_from
    rw [hb i s hs (by omega)]
    simp only
    rw [ih (i + 1) _ (hP s _ hs) (by omega)]
    simp [List.range'_succ]

theorem for_loop_events (body : Nat → State → Res) (ev : Nat → Event) (P : State → Prop)
    (count : Nat)
    (hP : ∀ s e, P s → P { s with trace := s.trace ++ e })
    (hb : ∀ i s, P s → i < count →
      body i s = Res.next { s with trace := s.trace ++ [ev i] })
    (s : State) (hs : P s) :
    for_loop count body s
      = Res.next { s with trace := s.trace ++ (List.range count).map ev } := by
  unfold for_loop
  rw [loop_from_events body ev P count hP hb count 0 s hs (by omega), List.range_eq_range']

theorem bml_row_digits_some (img : List Nat) (base : Nat) :
    ∀ todo k, base + k + todo ≤ img.length →
      ∃ ds, bml_row_digits img base todo k = some ds := by
  intro todo
  induction todo with
  | zero => intro k _; exact ⟨[], rfl⟩
  | succ n ih =>
    intro k hk
    obtain ⟨rest, hrest⟩ := ih (k + 1) (by omega)
    have hlt : base + k < img.length := by omega
    refine ⟨fmt_02x (img.get ⟨base + k, hlt⟩) ++ rest, ?_⟩
    unfold bml_row_digits
    rw [List.get?_eq_get hlt, hrest]

theorem bml_rows_some (bl : bl_properties_t) (img : List Nat) :
    ∀ todo j, (j + todo) * bl.width ≤ img.length →
      ∃ rows, bml_rows bl img todo j = some rows := by
  intro todo
  induction todo with
  | zero => intro j _; exact ⟨[], rfl⟩
  | succ n ih =>
    intro j hj
    obtain ⟨rest, hrest⟩ := ih (j + 1) (by
      have : j + 1 + n = j + (n + 1) := by omega
      rw [this]; exact hj)
    have hrow : j * bl.width + 0 + bl.width ≤ img.length := by
      have : (j + 1) * bl.width ≤ (j + (n + 1)) * bl.width :=
        Nat.mul_le_mul_right _ (by omega)
      have h2 : (j + 1) * bl.width = j * bl.width + bl.width := by ring
      omega
    obtain ⟨ds, hds⟩ := bml_row_digits_some img (j * bl.width) bl.width 0 hrow
    refine ⟨("        <row>".toList ++ ds ++ "</row>\n".toList) :: rest, ?_⟩
    unfold bml_rows bml_row
    rw [hds, hrest]

/-- A frame record can be printed from every block that holds `width * height` pixels. -/
theorem bml_frame_text_some (bl : bl_properties_t) (img : List Nat) (duration : Int)
    (h : bl.width * bl.height ≤ img.length) :
    ∃ text, bml_frame_text bl img duration = some text := by
  obtain ⟨rows, hrows⟩ := bml_rows_some bl img bl.height 0 (by
    rw [Nat.zero_add, Nat.mul_comm]; exact h)
  unfold bml_frame_text
  rw [hrows]
  exact ⟨_, rfl⟩

theorem memcpy_snapshot (snap pkt : List Nat) (hs : snap.length = 520)
    (hp : pkt.length = 1572) :
    memcpy snap 0 (pkt.drop 12) 0 520 = some ((pkt.drop 12).take 520) := by
  have h1 : peek (pkt.drop 12) 0 520 = some ((pkt.drop 12).take 520) := by
    unfold peek
    rw [if_pos (by simp [hp])]
    simp
  unfold memcpy
  rw [if_neg (by decide), h1]
  simp only
  rw [if_pos (by omega)]
  have hlen : ((pkt.drop 12).take 520).length = 520 := by simp [hp]
  have hdrop : snap.drop (0 + ((pkt.drop 12).take 520).length) = [] := by
    rw [hlen]
    exact List.drop_eq_nil_of_le (by omega)
  unfold poke
  rw [hdrop]
  simp

/-- What `flip_page` does in a ready state: unless `prevpts` is negative it prints to every
file the frame record of the snapshot in `tmp` with duration `(vo_pts - prevpts) / 90`, then
it copies the image into `tmp`, sets `prevpts`, writes the first 532 bytes of the packet block
to every host, and returns. -/
theorem flip_page_ready (s : State) (pkt snap : List Nat) (pts : Int)
    (h : Ready s pkt snap) :
    ∃ text, bml_frame_text bls_arcade snap (Int.tdiv (pts - s.prevpts) 90) = some text ∧
      flip_page s pts = Res.ret 0 { s with
        tmp := some ((pkt.drop 12).take 520), prevpts := pts,
        framenum := s.framenum + 1,
        trace := s.trace ++ (if s.prevpts ≥ 0 then records s text else [])
          ++ sends s (pkt.take 532) } := by
  obtain ⟨text, htext⟩ := bml_frame_text_some bls_arcade snap
    (Int.tdiv (pts - s.prevpts) 90) (by rw [h.tmp_length]; decide)
  refine ⟨text, htext, ?_⟩
  -- the loop over the files
  have hfiles : ∀ u : State, u.bl = some bls_arcade → u.tmp = some snap →
      u.prevpts = s.prevpts → u.bl_files = s.bl_files → u.no_bl_files = s.no_bl_files →
      for_loop u.no_bl_files
        (fun i s1 => call_write_frame bls_arcade i s1.tmp
          (Int.tdiv (pts - s1.prevpts) 90) s1) u
        = Res.next { u with trace := u.trace ++ records s text } := by
    intro u hbl htmp hprev hfs hn
    unfold records
    rw [← hn]
    apply for_loop_events _ (fun i => Event.fprintf i text)
      (fun v => v.bl = some bls_arcade ∧ v.tmp = some snap ∧ v.prevpts = s.prevpts ∧
        v.bl_files = s.bl_files)
    · intro v e hv; exact hv
    · intro i v hv hi
      obtain ⟨v1, v2, v3, v4⟩ := hv
      obtain ⟨f, hf, hopen⟩ := h.files_open i (by rw [← hn]; exact hi)
      simp only [call_write_frame, bls_arcade, bml_write_frame, v1, v2, v3, v4, hf, hopen,
        if_true]
      have : bml_frame_text bls_arcade snap (Int.tdiv (pts - s.prevpts) 90) = some text :=
        htext
      simp only [bls_arcade] at this
      rw [this]
    · exact ⟨hbl, htmp, hprev, hfs⟩
  -- the loop over the hosts
  have hhosts : ∀ u : State, u.bl_hosts = s.bl_hosts → u.bl_packet = some pkt →
      u.bl_size = 532 → u.no_bl_hosts = s.no_bl_hosts →
      for_loop u.no_bl_hosts (call_send_frame bls_arcade) u
        = Res.next { u with trace := u.trace ++ sends s (pkt.take 532) } := by
    intro u hh hp hsz hn
    unfold sends
    rw [← hn]
    apply for_loop_events _ (fun i => Event.write i (host_fd s i) (pkt.take 532))
      (fun v => v.bl_hosts = s.bl_hosts ∧ v.bl_packet = some pkt ∧ v.bl_size = 532)
    · intro v e hv; exact hv
    · intro i v hv hi
      obtain ⟨v1, v2, v3⟩ := hv
      have hlt : i < s.bl_hosts.length := by
        have := h.wf.2.1; have := h.wf.2.2.2; omega
      have hget : s.bl_hosts.get? i = some (s.bl_hosts.get ⟨i, hlt⟩) := List.get?_eq_get hlt
      have hfd : host_fd s i = (s.bl_hosts.get ⟨i, hlt⟩).fd := by
        unfold host_fd; rw [hget]
      simp only [call_send_frame, bls_arcade, udp_send, v1, v2, v3, hget, hfd]
      rw [if_pos (by rw [h.packet_length]; decide)]
    · exact ⟨hh, hp, hsz⟩
  have e1 := h.bl_eq
  have e2 := h.image_eq
  have e3 := h.packet_eq
  have e4 := h.tmp_eq
  have e5 := h.size_eq
  have hm := memcpy_snapshot snap pkt h.tmp_length h.packet_length
  clear h
  obtain ⟨image, tmp, framenum, sub, prevpts, bl, files, hosts, nf, nh, packet, size, trace⟩ := s
  simp only at e1 e2 e3 e4 e5
  subst e1 e2 e3 e4 e5
  unfold flip_page
  simp only
  by_cases hp : prevpts ≥ 0
  · rw [if_pos hp, hfiles _ rfl rfl rfl rfl rfl]
    simp only [off_data, bls_arcade, hm]
    have := hhosts ⟨some 12, some ((pkt.drop 12).take 520), framenum, sub, pts,
      some bls_arcade, files, hosts, nf, nh, some pkt, 532,
      trace ++ records ⟨some off_data, some snap, framenum, sub, prevpts, some bls_arcade,
        files, hosts, nf, nh, some pkt, 532, trace⟩ text⟩ rfl rfl rfl rfl
    simp only [off_data, bls_arcade] at this
    rw [this]
    simp [hp]
  · rw [if_neg hp]
    simp only [off_data, bls_arcade, hm]
    have := hhosts ⟨some 12, some ((pkt.drop 12).take 520), framenum, sub, pts,
      some bls_arcade, files, hosts, nf, nh, some pkt, 532, trace⟩ rfl rfl rfl rfl
    simp only [off_data, bls_arcade] at this
    rw [this]
    simp [hp]


theorem pixels_ready {s : State} {pkt snap : List Nat} (h : Ready s pkt snap) :
    s.pixels = (pkt.drop 12).take 520 := by
  unfold State.pixels
  rw [h.bl_eq, h.image_eq, h.packet_eq]
  rfl

theorem packet_split (pkt : List Nat) (hh : pkt.take 12 = arcade_header) :
    pkt.take 532 = arcade_header ++ (pkt.drop 12).take 520 := by
  rw [← hh]
  have : 532 = 12 + 520 := rfl
  rw [this, List.take_add]

/-- The function `flip_page` leaves the driver ready, with the image copied into `tmp`. -/
theorem flip_page_keeps_ready (s s1 : State) (pkt snap : List Nat) (pts : Int)
    (h : Ready s pkt snap) (hf : flip_page s pts = Res.ret 0 s1) :
    Ready s1 pkt ((pkt.drop 12).take 520) ∧ s1.prevpts = pts ∧
      s1.tmp = some s1.pixels ∧ s1.pixels = s.pixels ∧
      s1.no_bl_files = s.no_bl_files ∧ s1.no_bl_hosts = s.no_bl_hosts ∧
      s1.bl_hosts = s.bl_hosts := by
  obtain ⟨text, _, hflip⟩ := flip_page_ready s pkt snap pts h
  rw [hflip] at hf
  injection hf with _ hs1
  subst hs1
  have hr : Ready { s with
      tmp := some ((pkt.drop 12).take 520), prevpts := pts, framenum := s.framenum + 1,
      trace := s.trace ++ (if s.prevpts ≥ 0 then records s text else [])
        ++ sends s (pkt.take 532) } pkt ((pkt.drop 12).take 520) :=
    { bl_eq := h.bl_eq, image_eq := h.image_eq, packet_eq := h.packet_eq,
      packet_length := h.packet_length, header_eq := h.header_eq, tmp_eq := rfl,
      tmp_length := by simp [h.packet_length], size_eq := h.size_eq, wf := h.wf,
      files_open := h.files_open }
  refine ⟨hr, rfl, ?_, ?_, rfl, rfl, rfl⟩
  · rw [pixels_ready hr]
  · rw [pixels_ready hr, pixels_ready h]

theorem memcpy_ok (dst : List Nat) (doff : Nat) (src : List Nat) (soff : Int) (n : Nat)
    (hs : 0 ≤ soff ∧ soff + n ≤ src.length) (hd : doff + n ≤ dst.length)
    (h12 : 12 ≤ doff) :
    ∃ r, memcpy dst doff src soff n = some r ∧ r.length = dst.length ∧
      r.take 12 = dst.take 12 := by
  unfold memcpy
  by_cases hn : n = 0
  · exact ⟨dst, by rw [if_pos hn], rfl, rfl⟩
  · rw [if_neg hn]
    have hp : peek src soff n = some ((src.drop soff.toNat).take n) := by
      unfold peek
      rw [if_pos ⟨hs.1, by omega⟩]
    rw [hp]
    simp only
    rw [if_pos hd]
    have hlen : ((src.drop soff.toNat).take n).length = n := by
      rw [List.length_take, List.length_drop]
      omega
    refine ⟨_, rfl, ?_, ?_⟩
    · rw [poke_length _ _ _ (by rw [hlen]; exact hd)]
    · unfold poke
      rw [List.append_assoc, List.take_append_of_le_length (by rw [List.length_take]; omega),
        List.take_take]
      congr 1
      omega

theorem draw_rows_ok (s : State) (plane : List Nat) (stride w : Int)
    (hbl : s.bl = some bls_arcade) (hw0 : 0 ≤ w) (hw : w ≤ 26) :
    ∀ (todo dst : Nat) (src : Int) (pkt : List Nat),
      12 ≤ dst → dst + todo * 26 ≤ pkt.length →
      (∀ i : Nat, i < todo → 0 ≤ src + (i : Int) * stride ∧
        src + (i : Int) * stride + w ≤ plane.length) →
      ∃ r, draw_rows s plane stride w todo dst src pkt = some r ∧ r.length = pkt.length ∧
        r.take 12 = pkt.take 12 := by
  intro todo
  induction todo with
  | zero => intro dst src pkt _ _ _; exact ⟨pkt, rfl, rfl, rfl⟩
  | succ n ih =>
    intro dst src pkt h12 hdst hsrc
    have h0 := hsrc 0 (by omega)
    simp only [Nat.cast_zero, zero_mul, add_zero] at h0
    have hwn : ((w.toNat : Nat) : Int) = w := Int.toNat_of_nonneg hw0
    obtain ⟨r1, hm, hl1, ht1⟩ := memcpy_ok pkt dst plane src w.toNat
      ⟨h0.1, by rw [hwn]; exact h0.2⟩ (by
        have : w.toNat ≤ 26 := by omega
        have : (n + 1) * 26 = n * 26 + 26 := by ring
        omega) h12
    obtain ⟨r, hr, hl, ht⟩ := ih (dst + 26) (src + stride) r1 (by omega) (by
        rw [hl1]
        have : (n + 1) * 26 = n * 26 + 26 := by ring
        omega) (by
        intro i hi
        have := hsrc (i + 1) (by omega)
        have e : src + ((i + 1 : Nat) : Int) * stride = src + stride + (i : Int) * stride := by
          push_cast; ring
        rw [e] at this
        exact this)
    refine ⟨r, ?_, by rw [hl, hl1], by rw [ht, ht1]⟩
    unfold draw_rows
    rw [hbl]
    simp only
    rw [if_neg (by omega), hm]
    exact hr

/-- A fitting call of `draw_slice` in a ready state returns 0, changes nothing but the
image area of the packet block, and leaves the driver ready. -/
theorem draw_slice_ready (s : State) (pkt snap : List Nat) (d : DrawCall)
    (h : Ready s pkt snap) (hd : d.fits) :
    ∃ pkt1, draw_slice s d.plane d.stride d.w d.h d.x d.y
        = Res.ret 0 { s with bl_packet := some pkt1 } ∧
      Ready { s with bl_packet := some pkt1 } pkt1 snap := by
  obtain ⟨hw0, hw, hh, hsrc⟩ := hd
  unfold draw_slice
  by_cases h0 : d.h ≤ 0
  · rw [if_pos h0]
    refine ⟨pkt, ?_, ?_⟩
    · rw [← h.packet_eq]
    · have e : { s with bl_packet := some pkt } = s := by rw [← h.packet_eq]
      rw [e]; exact h
  · rw [if_neg h0, h.image_eq, h.packet_eq]
    simp only
    obtain ⟨r, hr, hl, ht⟩ := draw_rows_ok s d.plane d.stride d.w h.bl_eq hw0 hw d.h.toNat
      off_data 0 pkt (by decide) (by
        rw [h.packet_length]
        have : d.h.toNat ≤ 20 := by omega
        simp only [off_data]
        omega) (by
        intro i hi
        have := hsrc i (by omega)
        simpa using this)
    rw [hr]
    exact ⟨r, rfl,
      { bl_eq := h.bl_eq, image_eq := rfl, packet_eq := rfl,
        packet_length := by rw [hl, h.packet_length],
        header_eq := by rw [ht, h.header_eq], tmp_eq := h.tmp_eq,
        tmp_length := h.tmp_length, size_eq := h.size_eq, wf := h.wf,
        files_open := h.files_open }⟩

/-- The `draw_slice` calls of a frame, all fitting, in a ready state. -/
theorem draw_all_ready (ds : List DrawCall) :
    ∀ (s : State) (pkt snap : List Nat), Ready s pkt snap → (∀ d ∈ ds, d.fits) →
      ∃ pkt1, draw_all s ds = Res.ret 0 { s with bl_packet := some pkt1 } ∧
        Ready { s with bl_packet := some pkt1 } pkt1 snap := by
  induction ds with
  | nil =>
    intro s pkt snap h _
    refine ⟨pkt, ?_, ?_⟩
    · unfold draw_all; rw [← h.packet_eq]
    · have e : { s with bl_packet := some pkt } = s := by rw [← h.packet_eq]
      rw [e]; exact h
  | cons d ds ih =>
    intro s pkt snap h hfit
    obtain ⟨pkt1, h1, hr1⟩ := draw_slice_ready s pkt snap d h
      (hfit d (List.mem_cons_self _ _))
    obtain ⟨pkt2, h2, hr2⟩ := ih _ pkt1 snap hr1
      (fun x hx => hfit x (List.mem_cons_of_mem _ hx))
    refine ⟨pkt2, ?_, hr2⟩
    unfold draw_all
    rw [h1]
    exact h2


/-- C3: every `flip_page` in a ready state returns after sending to each configured host,
in list order, exactly one packet: the fixed twelve header bytes followed by the first
`width*height*channels` = 520 bytes of the image as it stands at this call, 532 bytes in
all, whatever `tmp` (the previous commit's frame) holds; the only other calls it makes are
the `fprintf` calls for the files. -/
theorem flip_page_sends (s : State) (pkt snap : List Nat) (pts : Int)
    (h : Ready s pkt snap) :
    ∃ s1 text, flip_page s pts = Res.ret 0 s1 ∧
      s1.trace = s.trace ++ (if s.prevpts ≥ 0 then records s text else [])
        ++ sends s (arcade_header ++ s.pixels) ∧
      s.pixels = (pkt.drop 12).take (26 * 20 * 1) ∧
      (arcade_header ++ s.pixels).length = 12 + 26 * 20 * 1 ∧
      (arcade_header ++ s.pixels).length = 532 := by
  obtain ⟨text, _, hflip⟩ := flip_page_ready s pkt snap pts h
  have hpx := pixels_ready h
  have hlen : (arcade_header ++ s.pixels).length = 532 := by
    rw [hpx, List.length_append, List.length_take, List.length_drop, h.packet_length]
    rfl
  refine ⟨_, text, hflip, ?_, hpx, hlen, hlen⟩
  show s.trace ++ _ ++ sends s (pkt.take 532) = _
  rw [packet_split pkt h.header_eq, hpx]

theorem sends_congr {s t : State} (h1 : t.no_bl_hosts = s.no_bl_hosts)
    (h2 : t.bl_hosts = s.bl_hosts) (bytes : List Nat) : sends t bytes = sends s bytes := by
  unfold sends host_fd
  rw [h1, h2]

/-- One frame in a ready state: the `draw_slice` calls and `flip_page` all return, and
`flip_page` prints the records for the snapshot in `tmp` unless `prevpts` is negative, then
sends the new image. -/
theorem commit_step (p : State) (pkt snap : List Nat) (c : Commit)
    (h : Ready p pkt snap) (hfit : ∀ d ∈ c.draws, d.fits) :
    ∃ pre pkt1 text q, draw_all p c.draws = Res.ret 0 pre ∧
      flip_page pre c.pts = Res.ret 0 q ∧
      Ready q pkt1 ((pkt1.drop 12).take 520) ∧
      bml_frame_text bls_arcade snap (Int.tdiv (c.pts - p.prevpts) 90) = some text ∧
      q.trace = p.trace ++ (if p.prevpts ≥ 0 then records p text else [])
        ++ sends q (arcade_header ++ q.pixels) ∧
      q.prevpts = c.pts ∧ q.pixels = pre.pixels ∧ q.tmp = some q.pixels := by
  obtain ⟨pkt1, hdraw, hr1⟩ := draw_all_ready c.draws p pkt snap h hfit
  obtain ⟨text, htext, hflip⟩ := flip_page_ready _ pkt1 snap c.pts hr1
  obtain ⟨hr2, hprev, htmp, hpix, _, hnh, hhosts⟩ :=
    flip_page_keeps_ready _ _ pkt1 snap c.pts hr1 hflip
  refine ⟨_, pkt1, text, _, hdraw, hflip, hr2, htext, ?_, hprev, hpix, htmp⟩
  rw [sends_congr hnh hhosts, hpix, pixels_ready hr1, ← packet_split pkt1 hr1.header_eq]
  rfl

/-- The commits after the first one: every `flip_page` prints the records of the image of the
previous commit. -/
theorem play_chained (cs : List Commit) :
    ∀ (p : State) (pkt snap : List Nat), Ready p pkt snap → 0 ≤ p.prevpts →
      p.tmp = some p.pixels →
      (∀ x ∈ cs, ∀ d ∈ x.draws, d.fits) → (∀ x ∈ cs, 0 ≤ x.pts) →
      ∃ posts, play p cs = some posts ∧ Chained p cs posts := by
  induction cs with
  | nil => intro p pkt snap _ _ _ _ _; exact ⟨[], rfl, trivial⟩
  | cons c cs ih =>
    intro p pkt snap h hp htmp hfit hpts
    obtain ⟨pre, pkt1, text, q, hdraw, hflip, hrq, htext, htr, hprev, hpix, hqtmp⟩ :=
      commit_step p pkt snap c h (hfit c (List.mem_cons_self _ _))
    have hsnap : snap = p.pixels := by
      have := h.tmp_eq
      rw [htmp] at this
      exact (Option.some.inj this).symm
    obtain ⟨posts, hplay, hchain⟩ := ih q pkt1 _ hrq
      (by rw [hprev]; exact hpts c (List.mem_cons_self _ _)) hqtmp
      (fun x hx => hfit x (List.mem_cons_of_mem _ hx))
      (fun x hx => hpts x (List.mem_cons_of_mem _ hx))
    refine ⟨q :: posts, ?_, ?_, hchain⟩
    · unfold play
      rw [hdraw]
      simp only
      rw [hflip]
      simp only
      rw [hplay]
      rfl
    · refine ⟨pre, text, hdraw, by rw [← hsnap]; exact htext, ?_, hprev, hpix⟩
      rw [htr, if_pos hp]

/-- C4: starting from a ready state with `prevpts = -1` (the initial value), for every
sequence of frames with non-negative presentation times whose `draw_slice` calls fit, all
calls return; the first `flip_page` prints no frame record; every later `flip_page` prints
to every file, in list order, exactly one frame record, whose pixels are the image as it was
at the previous `flip_page` (whatever `draw_slice` did since) and whose duration is
`(t_k - t_(k-1)) / 90` with C integer division. -/
theorem flip_page_records (s : State) (pkt snap : List Nat) (c : Commit) (cs : List Commit)
    (h : Ready s pkt snap) (h0 : s.prevpts = -1)
    (hfit : ∀ x ∈ c :: cs, ∀ d ∈ x.draws, d.fits) (hpts : ∀ x ∈ c :: cs, 0 ≤ x.pts) :
    ∃ p posts, play s (c :: cs) = some (p :: posts) ∧
      FirstCommit s c p ∧ Chained p cs posts := by
  obtain ⟨pre, pkt1, text, q, hdraw, hflip, hrq, htext, htr, hprev, hpix, hqtmp⟩ :=
    commit_step s pkt snap c h (hfit c (List.mem_cons_self _ _))
  obtain ⟨posts, hplay, hchain⟩ := play_chained cs q pkt1 _ hrq
    (by rw [hprev]; exact hpts c (List.mem_cons_self _ _)) hqtmp
    (fun x hx => hfit x (List.mem_cons_of_mem _ hx))
    (fun x hx => hpts x (List.mem_cons_of_mem _ hx))
  refine ⟨q, posts, ?_, ⟨pre, hdraw, ?_, hprev, hpix⟩, hchain⟩
  · unfold play
    rw [hdraw]
    simp only
    rw [hflip]
    simp only
    rw [hplay]
    rfl
  · rw [htr, if_neg (by rw [h0]; decide)]
    simp


theorem demo_state_ready : ∃ pkt snap, Ready demo_state pkt snap ∧ demo_state.prevpts = -1 :=
  preinit_ready env_ok State.init demo_state
    (some "arcade:host=localhost:2323,file=out.bml".toList) State.init_wf rfl

/-- The theorem `flip_page_sends` applied to the state after `preinit` on
`arcade:host=localhost:2323,file=out.bml`. -/
theorem flip_page_sends_witness :
    ∃ pkt snap, Ready demo_state pkt snap ∧
      ∃ s1 text, flip_page demo_state 0 = Res.ret 0 s1 ∧
        s1.trace = demo_state.trace
          ++ (if demo_state.prevpts ≥ 0 then records demo_state text else [])
          ++ sends demo_state (arcade_header ++ demo_state.pixels) ∧
        demo_state.pixels = (pkt.drop 12).take (26 * 20 * 1) ∧
        (arcade_header ++ demo_state.pixels).length = 12 + 26 * 20 * 1 ∧
        (arcade_header ++ demo_state.pixels).length = 532 := by
  obtain ⟨pkt, snap, hr, _⟩ := demo_state_ready
  exact ⟨pkt, snap, hr, flip_page_sends demo_state pkt snap 0 hr⟩

theorem demo_frame_fits (v : Nat) (pts : Int) : ∀ d ∈ (demo_frame v pts).draws, d.fits := by
  intro d hd
  simp only [demo_frame, List.mem_singleton] at hd
  subst hd
  refine ⟨by simp, by simp, by simp, ?_⟩
  intro i hi
  simp only [List.length_replicate] at hi ⊢
  constructor <;> omega

/-- The theorem `flip_page_records` applied to three frames committed at the times 0, 900
and 1800 after `preinit` on `arcade:host=localhost:2323,file=out.bml`: the two records
printed carry the durations `(900 - 0) / 90 = 10` and `(1800 - 900) / 90 = 10`. -/
theorem flip_page_records_witness :
    (∃ p posts,
      play demo_state [demo_frame 1 0, demo_frame 2 900, demo_frame 3 1800]
        = some (p :: posts) ∧
      FirstCommit demo_state (demo_frame 1 0) p ∧
      Chained p [demo_frame 2 900, demo_frame 3 1800] posts) ∧
    Int.tdiv (900 - 0) 90 = 10 ∧ Int.tdiv (1800 - 900) 90 = 10 := by
  obtain ⟨pkt, snap, hr, h0⟩ := demo_state_ready
  refine ⟨flip_page_records demo_state pkt snap _ _ hr h0 ?_ ?_, by decide, by decide⟩
  · intro x hx
    simp only [List.mem_cons, List.mem_singleton, List.not_mem_nil, or_false] at hx
    rcases hx with rfl | rfl | rfl <;> exact demo_frame_fits _ _
  · intro x hx
    simp only [List.mem_cons, List.mem_singleton, List.not_mem_nil, or_false] at hx
    rcases hx with rfl | rfl | rfl <;> decide

/-! ## `draw_slice` (C10) -/

/-- C10 at a failing input: `draw_slice` never reads its arguments `x` and `y` (every call
equals the call with offset 0, 0); a one-pixel slice of value 255 drawn at `x = 1, y = 0`
into the blank image after `preinit` lands in image byte 0 and leaves byte 1 at 0, and drawn
at `x = 0, y = 1` it lands in byte 0 and leaves byte 26 at 0. -/
theorem draw_slice_ignores_offset :
    (∀ (s : State) (plane : List Nat) (stride w h x y : Int),
      draw_slice s plane stride w h x y = draw_slice s plane stride w h 0 0) ∧
    demo_state.pixels.take 27 = List.replicate 27 0 ∧
    (∃ s1, draw_slice demo_state [255] 1 1 1 1 0 = Res.ret 0 s1 ∧
      s1.pixels.take 27 = 255 :: List.replicate 26 0) ∧
    (∃ s1, draw_slice demo_state [255] 1 1 1 0 1 = Res.ret 0 s1 ∧
      s1.pixels.take 27 = 255 :: List.replicate 26 0) :=
  ⟨fun _ _ _ _ _ _ _ => rfl, by decide, ⟨_, rfl, by decide⟩, ⟨_, rfl, by decide⟩⟩

/-! ## `config` (C11, C12) -/

theorem memset0_image (pkt : List Nat) (hp : pkt.length = 1572) :
    memset0 pkt 12 1560 = some (pkt.take 12 ++ List.replicate 1560 0) := by
  unfold memset0 poke
  rw [if_neg (by decide), if_pos (by omega)]
  have hd : pkt.drop (12 + (List.replicate 1560 0).length) = [] :=
    List.drop_eq_nil_of_le (by simp [hp])
  rw [hd, List.append_nil]

/-- A request that passes the checks of `config` in a ready state: the function returns 0
after setting `framenum` to 0 and clearing the `width*height*3` = 1560 bytes at `image`; the
driver stays ready, and `tmp`, `prevpts` and the trace are as before. -/
theorem config_ready (s : State) (pkt snap : List Nat) (width height : Nat)
    (h : Ready s pkt snap) (hw : width ≤ 26) (hh : height ≤ 20) :
    config s width height ImgFmt.IMGFMT_YV12
        = Res.ret 0 { s with
            framenum := 0, bl_packet := some (pkt.take 12 ++ List.replicate 1560 0) } ∧
      Ready { s with
        framenum := 0, bl_packet := some (pkt.take 12 ++ List.replicate 1560 0) }
        (pkt.take 12 ++ List.replicate 1560 0) snap := by
  have hm := memset0_image pkt h.packet_length
  constructor
  · unfold config
    simp only [ne_eq, not_true_eq_false, if_false, h.bl_eq, h.image_eq, h.packet_eq]
    rw [if_neg (by simp only [bls_arcade]; omega), if_neg (by simp only [bls_arcade]; omega)]
    simp only [off_data, bls_arcade]
    rw [show 26 * 20 * 3 = 1560 from rfl, hm]
  · exact
      { bl_eq := h.bl_eq, image_eq := h.image_eq, packet_eq := rfl,
        packet_length := by simp [h.packet_length],
        header_eq := by
          rw [List.take_append_of_le_length (by simp [h.packet_length]), List.take_take]
          exact h.header_eq,
        tmp_eq := h.tmp_eq, tmp_length := h.tmp_length, size_eq := h.size_eq, wf := h.wf,
        files_open := h.files_open }

/-- What `config` does when a check fails under the arcade profile: it returns 1 and has
assigned `framenum` only. -/
theorem config_rejected (s : State) (width height : Nat) (format : ImgFmt)
    (hbl : s.bl = some bls_arcade)
    (hbad : 26 < width ∨ 20 < height ∨ format ≠ ImgFmt.IMGFMT_YV12) :
    config s width height format = Res.ret 1 { s with framenum := 0 } := by
  unfold config
  by_cases hf : format = ImgFmt.IMGFMT_YV12
  · simp only [ne_eq, hf, not_true_eq_false, if_false, hbl]
    by_cases hw : width > 26
    · rw [if_pos (by simp only [bls_arcade]; exact hw)]
    · rw [if_neg (by simp only [bls_arcade]; exact hw)]
      have hh : height > 20 := by
        rcases hbad with h1 | h1 | h1
        · omega
        · exact h1
        · exact absurd hf h1
      rw [if_pos (by simp only [bls_arcade]; exact hh)]
  · simp only [ne_eq, hf, not_false_eq_true, if_true]

/-- C11: under the arcade profile, `config` returns 1 whenever the requested width exceeds
26, or the requested height exceeds 20, or the format is not the profile's declared format,
and then the packet block (which holds the image), the block of `tmp`, the sink arrays and
the trace of calls are exactly as before; in a ready state (buffers allocated by `preinit`)
a request with the declared format, width at most 26 and height at most 20 returns 0 and
leaves all 1560 bytes of the image area, so also the 520 bytes `flip_page` reads, zero, the
header, `tmp` and the trace being as before. -/
theorem config_checks (s : State) (width height : Nat) (format : ImgFmt)
    (hbl : s.bl = some bls_arcade) :
    ((26 < width ∨ 20 < height ∨ format ≠ bls_arcade.img_format) →
      ∃ s1, config s width height format = Res.ret 1 s1 ∧
        s1.bl_packet = s.bl_packet ∧ s1.image = s.image ∧ s1.tmp = s.tmp ∧
        s1.bl_files = s.bl_files ∧ s1.bl_hosts = s.bl_hosts ∧ s1.trace = s.trace) ∧
    (∀ pkt snap, Ready s pkt snap → width ≤ 26 → height ≤ 20 →
      format = bls_arcade.img_format →
      ∃ s1 pkt1, config s width height format = Res.ret 0 s1 ∧
        s1.bl_packet = some pkt1 ∧ s1.image = some 12 ∧
        pkt1.drop 12 = List.replicate (26 * 20 * 3) 0 ∧ pkt1.take 12 = pkt.take 12 ∧
        s1.pixels = List.replicate (26 * 20) 0 ∧
        s1.tmp = s.tmp ∧ s1.trace = s.trace) := by
  constructor
  · intro hbad
    exact ⟨_, config_rejected s width height format hbl hbad, rfl, rfl, rfl, rfl, rfl, rfl⟩
  · intro pkt snap h hw hh hf
    have hf1 : format = ImgFmt.IMGFMT_YV12 := hf
    subst hf1
    obtain ⟨hc, hr⟩ := config_ready s pkt snap width height h hw hh
    have hlen : (pkt.take 12).length = 12 := by simp [h.packet_length]
    refine ⟨_, _, hc, rfl, h.image_eq, ?_, ?_, ?_, rfl, rfl⟩
    · rw [List.drop_append_of_le_length (by omega), List.drop_of_length_le (by omega)]
      rfl
    · rw [List.take_append_of_le_length (by omega), List.take_take]
      rfl
    · rw [pixels_ready hr, List.drop_append_of_le_length (by omega),
        List.drop_of_length_le (by omega)]
      simp

/-- The theorem `config_checks` applied to the state after `preinit` on
`arcade:host=localhost:2323,file=out.bml`: requests of 27 by 20, of 26 by 21 and of the
format `IMGFMT_BGR1` are refused, the request of 26 by 20 in `IMGFMT_YV12` is accepted. -/
theorem config_checks_witness :
    (∃ s1, config demo_state 27 20 ImgFmt.IMGFMT_YV12 = Res.ret 1 s1 ∧
      s1.bl_packet = demo_state.bl_packet ∧ s1.image = demo_state.image ∧
      s1.tmp = demo_state.tmp ∧ s1.bl_files = demo_state.bl_files ∧
      s1.bl_hosts = demo_state.bl_hosts ∧ s1.trace = demo_state.trace) ∧
    (∃ s1, config demo_state 26 21 ImgFmt.IMGFMT_YV12 = Res.ret 1 s1 ∧
      s1.bl_packet = demo_state.bl_packet ∧ s1.image = demo_state.image ∧
      s1.tmp = demo_state.tmp ∧ s1.bl_files = demo_state.bl_files ∧
      s1.bl_hosts = demo_state.bl_hosts ∧ s1.trace = demo_state.trace) ∧
    (∃ s1, config demo_state 26 20 ImgFmt.IMGFMT_BGR1 = Res.ret 1 s1 ∧
      s1.bl_packet = demo_state.bl_packet ∧ s1.image = demo_state.image ∧
      s1.tmp = demo_state.tmp ∧ s1.bl_files = demo_state.bl_files ∧
      s1.bl_hosts = demo_state.bl_hosts ∧ s1.trace = demo_state.trace) ∧
    ∃ pkt snap, Ready demo_state pkt snap ∧
      ∃ s1 pkt1, config demo_state 26 20 ImgFmt.IMGFMT_YV12 = Res.ret 0 s1 ∧
        s1.bl_packet = some pkt1 ∧ s1.image = some 12 ∧
        pkt1.drop 12 = List.replicate (26 * 20 * 3) 0 ∧ pkt1.take 12 = pkt.take 12 ∧
        s1.pixels = List.replicate (26 * 20) 0 ∧
        s1.tmp = demo_state.tmp ∧ s1.trace = demo_state.trace := by
  obtain ⟨pkt, snap, hr, _⟩ := demo_state_ready
  exact ⟨(config_checks demo_state 27 20 ImgFmt.IMGFMT_YV12 hr.bl_eq).1 (Or.inl (by decide)),
    (config_checks demo_state 26 21 ImgFmt.IMGFMT_YV12 hr.bl_eq).1
      (Or.inr (Or.inl (by decide))),
    (config_checks demo_state 26 20 ImgFmt.IMGFMT_BGR1 hr.bl_eq).1
      (Or.inr (Or.inr (by decide))),
    pkt, snap, hr,
    (config_checks demo_state 26 20 ImgFmt.IMGFMT_YV12 hr.bl_eq).2 pkt snap hr
      (by decide) (by decide) rfl⟩

/-- The call of `config` that succeeds in a ready state, followed by `flip_page`: `config`
assigns neither `prevpts` nor `tmp`, so `flip_page` prints the frame record of the snapshot
in `tmp` unless `prevpts` is negative; it sends the blank image. -/
theorem config_then_flip (s : State) (pkt snap : List Nat) (width height : Nat) (pts : Int)
    (h : Ready s pkt snap) (hw : width ≤ 26) (hh : height ≤ 20) :
    ∃ s1 s2 text, config s width height ImgFmt.IMGFMT_YV12 = Res.ret 0 s1 ∧
      s1.prevpts = s.prevpts ∧ s1.tmp = s.tmp ∧
      bml_frame_text bls_arcade snap (Int.tdiv (pts - s.prevpts) 90) = some text ∧
      flip_page s1 pts = Res.ret 0 s2 ∧
      s2.trace = s.trace ++ (if s.prevpts ≥ 0 then records s text else [])
        ++ sends s (arcade_header ++ List.replicate 520 0) ∧
      s2.prevpts = pts ∧ s2.tmp = some (List.replicate 520 0) ∧
      s1.trace = s.trace ∧ s1.no_bl_hosts = s.no_bl_hosts ∧ s1.bl_hosts = s.bl_hosts := by
  obtain ⟨hc, hr⟩ := config_ready s pkt snap width height h hw hh
  obtain ⟨text, htext, hflip⟩ := flip_page_ready _ _ snap pts hr
  have hlen : (pkt.take 12).length = 12 := by simp [h.packet_length]
  have hpix : ((pkt.take 12 ++ List.replicate 1560 0).drop 12).take 520
      = List.replicate 520 0 := by
    rw [List.drop_append_of_le_length (by omega), List.drop_of_length_le (by omega)]
    simp
  refine ⟨_, _, text, hc, rfl, rfl, htext, hflip, ?_, rfl, ?_, rfl, rfl, rfl⟩
  · show s.trace ++ (if s.prevpts ≥ 0 then records s text else []) ++ _ = _
    rw [packet_split _ hr.header_eq, hpix]
    rfl
  · show some _ = _
    rw [hpix]

/-- C12, as the code has it: a successful `config` in a ready state leaves the clock
`prevpts` and the snapshot `tmp` as they are.  The first `flip_page` after it returns, and
it prints no frame record exactly when `prevpts` is negative (or there is no file); when
the last commit before the `config` had a non-negative time, it prints to every file the
record of the snapshot of that commit, whose duration is `(vo_pts - prevpts) / 90` whenever
the difference `vo_pts - prevpts` is representable as an `int` (as it is for non-negative
times).  In both cases it then sends the blank image and records the snapshot and the
time. -/
theorem config_keeps_clock (s : State) (pkt snap : List Nat) (width height : Nat) (pts : Int)
    (h : Ready s pkt snap) (hw : width ≤ 26) (hh : height ≤ 20) :
    ∃ s1 s2 d text, config s width height ImgFmt.IMGFMT_YV12 = Res.ret 0 s1 ∧
      s1.prevpts = s.prevpts ∧ s1.tmp = s.tmp ∧
      bml_frame_text bls_arcade snap d = some text ∧
      ((-2147483648 ≤ pts - s.prevpts ∧ pts - s.prevpts ≤ 2147483647) →
        d = Int.tdiv (pts - s.prevpts) 90) ∧
      flip_page s1 pts = Res.ret 0 s2 ∧
      s2.trace = s.trace ++ (if s.prevpts ≥ 0 then records s text else [])
        ++ sends s (arcade_header ++ List.replicate 520 0) ∧
      s2.prevpts = pts ∧ s2.tmp = some (List.replicate 520 0) := by
  obtain ⟨s1, s2, text, h1, h2, h3, h4, h5, h6, h7, h8, _⟩ :=
    config_then_flip s pkt snap width height pts h hw hh
  exact ⟨s1, s2, _, text, h1, h2, h3, h4, fun _ => rfl, h5, h6, h7, h8⟩

/-- The theorem `config_keeps_clock` applied to the state after `preinit` on
`arcade:host=localhost:2323,file=out.bml`, where `prevpts` is -1, and a `flip_page` at
time 0. -/
theorem config_keeps_clock_witness :
    ∃ pkt snap, Ready demo_state pkt snap ∧
      ∃ s1 s2 d text, config demo_state 26 20 ImgFmt.IMGFMT_YV12 = Res.ret 0 s1 ∧
        s1.prevpts = demo_state.prevpts ∧ s1.tmp = demo_state.tmp ∧
        bml_frame_text bls_arcade snap d = some text ∧
        ((-2147483648 ≤ 0 - demo_state.prevpts ∧ 0 - demo_state.prevpts ≤ 2147483647) →
          d = Int.tdiv (0 - demo_state.prevpts) 90) ∧
        flip_page s1 0 = Res.ret 0 s2 ∧
        s2.trace = demo_state.trace
          ++ (if demo_state.prevpts ≥ 0 then records demo_state text else [])
          ++ sends demo_state (arcade_header ++ List.replicate 520 0) ∧
        s2.prevpts = 0 ∧ s2.tmp = some (List.replicate 520 0) := by
  obtain ⟨pkt, snap, hr, _⟩ := demo_state_ready
  exact ⟨pkt, snap, hr,
    config_keeps_clock demo_state pkt snap 26 20 0 hr (by decide) (by decide)⟩

/-- In a ready state `flip_page` returns, and leaves the driver ready. -/
theorem flip_page_returns (s : State) (pkt snap : List Nat) (pts : Int)
    (h : Ready s pkt snap) :
    ∃ s1, flip_page s pts = Res.ret 0 s1 ∧
      Ready s1 pkt ((pkt.drop 12).take 520) ∧ s1.prevpts = pts ∧
      s1.tmp = some s1.pixels ∧ s1.pixels = s.pixels ∧
      s1.no_bl_files = s.no_bl_files ∧ s1.no_bl_hosts = s.no_bl_hosts ∧
      s1.bl_hosts = s.bl_hosts := by
  obtain ⟨text, _, hflip⟩ := flip_page_ready s pkt snap pts h
  exact ⟨_, hflip, flip_page_keeps_ready s _ pkt snap pts h hflip⟩

/-- C12 at a counterexample: after `preinit` on `arcade:host=localhost:2323,file=out.bml`
and one commit at time 900, a successful `config` is followed by a `flip_page` at time 0
that prints a frame record to file 0, with the duration `(0 - 900) / 90 = -10`. -/
theorem config_does_not_reset_clock :
    ∃ s1 s2 s3 snap text, flip_page demo_state 900 = Res.ret 0 s1 ∧
      config s1 26 20 ImgFmt.IMGFMT_YV12 = Res.ret 0 s2 ∧
      flip_page s2 0 = Res.ret 0 s3 ∧
      s1.tmp = some snap ∧ bml_frame_text bls_arcade snap (-10) = some text ∧
      s3.trace = s2.trace ++ [Event.fprintf 0 text]
        ++ sends s2 (arcade_header ++ List.replicate 520 0) := by
  obtain ⟨pkt, snap, hr, _⟩ := demo_state_ready
  obtain ⟨s1, hflip, hr1, hp1, _, _, hn1, _, _⟩ := flip_page_returns demo_state pkt snap 900 hr
  obtain ⟨s2, s3, text, hc, hp2, ht2, htext, hf2, htr, _, _, htr2, hnh, hbh⟩ :=
    config_then_flip s1 pkt _ 26 20 0 hr1 (by decide) (by decide)
  have hd : Int.tdiv (0 - 900) 90 = -10 := by decide
  have hrec : records s1 text = [Event.fprintf 0 text] := by
    unfold records
    rw [hn1]
    rfl
  refine ⟨s1, s2, s3, _, text, hflip, hc, hf2, hr1.tmp_eq, ?_, ?_⟩
  · rw [hp1, hd] at htext
    exact htext
  · rw [htr, htr2, sends_congr hnh hbh, if_pos (by rw [hp1]; decide), hrec]

/-! ## A failing `preinit` releases nothing (C13) -/

theorem no_release_trans {s t u : State} (h1 : NoRelease s t) (h2 : NoRelease t u) :
    NoRelease s u := by
  obtain ⟨e1, a1, b1, c1⟩ := h1
  obtain ⟨e2, a2, b2, c2⟩ := h2
  refine ⟨e1 ++ e2, by rw [a2, a1, List.append_assoc], ?_, ?_⟩
  · intro e he
    rcases List.mem_append.mp he with h | h
    · exact b1 e h
    · exact b2 e h
  · intro i fd he
    rcases List.mem_append.mp he with h | h
    · exact List.mem_append_left _ (c1 i fd h)
    · exact List.mem_append_right _ (c2 i fd h)

theorem no_release_of_trace {s t : State} (h : t.trace = s.trace) : NoRelease s t :=
  ⟨[], by simp [h], by simp, by simp⟩

theorem bml_init_no_release (env : Env) (i : Nat) (s : State) :
    (bml_init env i s).holds (NoRelease s) := by
  unfold bml_init
  split
  · trivial
  · split
    · trivial
    · split
      · split
        · trivial
        · rename_i s1 h1
          obtain ⟨f, _, rfl⟩ := set_fp_eq h1
          exact ⟨_, rfl, by simp [Event.is_fclose], by simp⟩
      · split
        · rename_i s1 _ h1
          obtain ⟨f, _, rfl⟩ := set_fp_eq h1
          exact ⟨_, rfl, by simp [Event.is_fclose], by simp⟩
        · trivial

theorem udp_init_no_release (env : Env) (i : Nat) (s : State) :
    (udp_init env i s).holds (NoRelease s) := by
  unfold udp_init
  split
  · trivial
  · split
    · trivial
    · split
      · exact ⟨_, rfl, by simp [Event.is_fclose], by simp⟩
      · simp only
        split
        · trivial
        · rename_i s1 h1
          obtain ⟨x, _, rfl⟩ := set_fd_eq h1
          split
          · exact ⟨_, rfl, by simp [Event.is_fclose], by simp⟩
          · split
            · exact ⟨_, rfl, by simp [Event.is_fclose], by simp⟩
            · exact ⟨_, rfl, by simp [Event.is_fclose], by simp⟩

theorem preinit_parse_trace (env : Env) (s : State) (arg : Option (List Char)) :
    (preinit_parse env s arg).holds (fun t => t.trace = s.trace) := by
  unfold preinit_parse
  split
  · exact rfl
  · simp only
    split
    · exact rfl
    · split
      · exact rfl
      · split
        · exact rfl
        · split
          · split
            · trivial
            · rename_i s1 h1
              obtain ⟨x, _, rfl⟩ := set_host_eq h1
              exact rfl
          · split
            · exact rfl
            · exact Res.sat_mono (fun _ _ h => h.2) (fun _ h => h)
                (parse_loop_sat (fun t => t.trace = s.trace)
                  (fun _ _ h => h)
                  (fun _ _ _ h1 h => by obtain ⟨f, _, rfl⟩ := add_file_eq h1; exact h)
                  (fun _ _ _ _ h1 h => by obtain ⟨f, _, rfl⟩ := add_host_eq h1; exact h)
                  _ _ _ _ rfl)

theorem preinit_open_no_release (env : Env) (s : State) :
    (preinit_open env s).holds (NoRelease s) := by
  have hfile : ∀ bl i (t : State), NoRelease s t →
      (call_init_file env bl i t).holds (NoRelease s) := by
    intro bl i t ht
    unfold call_init_file
    split
    · exact Res.sat_mono (fun _ _ h => no_release_trans ht h) (fun _ h => no_release_trans ht h)
        (bml_init_no_release env i t)
    · trivial
  have hconn : ∀ bl i (t : State), NoRelease s t →
      (call_init_connection env bl i t).holds (NoRelease s) := by
    intro bl i t ht
    unfold call_init_connection
    split
    · exact Res.sat_mono (fun _ _ h => no_release_trans ht h) (fun _ h => no_release_trans ht h)
        (udp_init_no_release env i t)
    · trivial
  unfold preinit_open
  split
  · trivial
  · rename_i bl hbl
    simp only
    split
    · rename_i mem t hp ht
      have h1 := for_loop_holds (NoRelease s) (call_init_file env bl) (hfile bl)
      split
      · rename_i s1 e1
        have n1 : NoRelease s s1 :=
          for_loop_holds_next (NoRelease s) (call_init_file env bl) (hfile bl) e1
            (no_release_of_trace rfl)
        have h2 := for_loop_holds (NoRelease s) (call_init_connection env bl) (hconn bl)
          s1.no_bl_hosts s1 n1
        split
        · rename_i s2 e2
          rw [e2] at h2
          exact h2
        · exact h2
      · exact h1 _ _ (no_release_of_trace rfl)
    · exact no_release_of_trace rfl

/-- On every argument, in every environment, `preinit` closes no file, and closes a socket
only when the `connect` on that socket has just failed. -/
theorem preinit_no_release (env : Env) (s : State) (arg : Option (List Char)) :
    (preinit env s arg).holds (NoRelease s) := by
  have hp := preinit_parse_trace env s arg
  unfold preinit
  split
  · rename_i s1 e1
    rw [e1] at hp
    exact Res.sat_mono (fun _ _ h => no_release_trans (no_release_of_trace hp) h)
      (fun _ h => no_release_trans (no_release_of_trace hp) h)
      (preinit_open_no_release env s1)
  · exact Res.sat_mono (fun _ _ h => no_release_of_trace h) (fun _ h => no_release_of_trace h) hp

/-- C13 at a failing input: on `arcade:file=a.bml,host=a,host=b`, when the file opens, the
host `a` is reached and the name `b` does not resolve, `preinit` returns 1 right after the
failed `gethostbyname`: the file has been opened and has received the preamble, the socket 3
of host `a` has been connected, and neither an `fclose` nor a `close` follows; the stream of
file 0 is left open.  The same on `arcade:file=a.bml,host=nohost` when no name resolves.  On
no argument and in no environment does `preinit` close a file, and it closes a socket only
when the `connect` on that very socket has failed. -/
theorem preinit_failure_leaves_sinks_open :
    (∃ s1, preinit env_second_unresolved State.init
        (some "arcade:file=a.bml,host=a,host=b".toList) = Res.ret 1 s1 ∧
      s1.trace = [Event.fopen 0 "a.bml".toList true,
        Event.fprintf 0 (bml_preamble bls_arcade),
        Event.gethostbyname 0 "a".toList true, Event.socket 0 3, Event.connect 0 3 true,
        Event.gethostbyname 1 "b".toList false] ∧
      (s1.bl_files.get? 0).map (fun f => f.fp) = some Stream.opened ∧
      (s1.bl_hosts.get? 0).map (fun h => h.fd) = some 3) ∧
    (∃ s1, preinit env_unresolved State.init
        (some "arcade:file=a.bml,host=nohost".toList) = Res.ret 1 s1 ∧
      s1.trace = [Event.fopen 0 "a.bml".toList true,
        Event.fprintf 0 (bml_preamble bls_arcade),
        Event.gethostbyname 0 "nohost".toList false] ∧
      (s1.bl_files.get? 0).map (fun f => f.fp) = some Stream.opened) ∧
    ∀ (env : Env) (s : State) (arg : Option (List Char)),
      (preinit env s arg).holds (NoRelease s) :=
  ⟨⟨_, rfl, rfl, rfl, rfl⟩, ⟨_, rfl, rfl, rfl⟩, preinit_no_release⟩

/-! ## `uninit` (C14) -/

theorem call_close_file_same (bl : bl_properties_t) (i : Nat) (s : State) :
    (call_close_file bl i s).sat (fun c t => c = 1 ∧ SameVars s t) (SameVars s) := by
  unfold call_close_file
  split
  · unfold bml_close
    split
    · trivial
    · split
      · split
        · trivial
        · rename_i s1 h1
          obtain ⟨f, _, rfl⟩ := set_fp_eq h1
          exact SameVars.refl s
      · trivial
  · trivial

theorem call_close_connection_same (bl : bl_properties_t) (i : Nat) (s : State) :
    (call_close_connection bl i s).sat (fun c t => c = 1 ∧ SameVars s t) (SameVars s) := by
  unfold call_close_connection
  split
  · unfold udp_close
    split
    · trivial
    · exact SameVars.refl s
  · trivial

/-- The loops of `uninit` do not return from the function. -/
theorem close_files_no_ret (bl : bl_properties_t) (count c : Nat) (s s1 : State) :
    for_loop count (call_close_file bl) s ≠ Res.ret c s1 := by
  intro h
  have := for_loop_sat (fun _ _ => False) (fun _ => True) (call_close_file bl)
    (fun i t _ => by
      unfold call_close_file
      split
      · unfold bml_close
        split
        · trivial
        · split
          · split <;> trivial
          · trivial
      · trivial) count s trivial
  rw [h] at this
  exact this

theorem close_connections_no_ret (bl : bl_properties_t) (count c : Nat) (s s1 : State) :
    for_loop count (call_close_connection bl) s ≠ Res.ret c s1 := by
  intro h
  have := for_loop_sat (fun _ _ => False) (fun _ => True) (call_close_connection bl)
    (fun i t _ => by
      unfold call_close_connection
      split
      · unfold udp_close
        split <;> trivial
      · trivial) count s trivial
  rw [h] at this
  exact this

/-- In a state without targets, without profile and without packet and subdevice blocks,
`uninit` returns without a call and changes nothing. -/
theorem uninit_closed (t : State) (h1 : t.no_bl_files = 0) (h2 : t.no_bl_hosts = 0)
    (h3 : t.bl = none) (h4 : t.bl_packet = none) (h5 : t.bl_subdevice = none) :
    uninit t = Res.ret 0 t := by
  obtain ⟨image, tmp, framenum, sub, prevpts, bl, files, hosts, nf, nh, packet, size, trace⟩ := t
  simp only at h1 h2 h3 h4 h5
  subst h1 h2 h3 h4 h5
  rfl

/-- Whenever `uninit` returns, the counters are zero, the profile pointer is null and the
pointers to the packet and to the subdevice string are null. -/
theorem uninit_result {s s1 : State} {c : Nat} (h : uninit s = Res.ret c s1) :
    c = 0 ∧ s1.no_bl_files = 0 ∧ s1.no_bl_hosts = 0 ∧ s1.bl = none ∧
      s1.bl_packet = none ∧ s1.bl_subdevice = none := by
  unfold uninit at h
  simp only at h
  split at h
  · rename_i t1 e1
    have f1 : t1.bl_packet = none ∧ t1.bl_subdevice = none := by
      split at e1
      · injection e1 with e1
        subst e1
        exact ⟨rfl, rfl⟩
      · split at e1
        · exact absurd e1 (by simp)
        · rename_i bl hbl
          have f := for_loop_same_next (call_close_file_same bl) e1
          exact ⟨f.2.2.2.2.2.2.2.2.1, f.2.2.2.1⟩
    split at h
    · rename_i t2 e2
      have f2 : t2.bl_packet = none ∧ t2.bl_subdevice = none := by
        split at e2
        · injection e2 with e2
          subst e2
          exact f1
        · split at e2
          · exact absurd e2 (by simp)
          · rename_i bl hbl
            have f := for_loop_same_next (call_close_connection_same bl) e2
            exact ⟨f.2.2.2.2.2.2.2.2.1.trans f1.1, f.2.2.2.1.trans f1.2⟩
      injection h with hc hs
      subst hs
      exact ⟨hc.symm, rfl, rfl, rfl, f2.1, f2.2⟩
    · split at h
      · exact absurd h (by simp)
      · split at h
        · exact absurd h (by simp)
        · exact absurd h (close_connections_no_ret _ _ _ _ _)
  · split at h
    · exact absurd h (by simp)
    · split at h
      · exact absurd h (by simp)
      · exact absurd h (close_files_no_ret _ _ _ _ _)

/-- A loop whose body always falls through while an invariant holds falls through, and
the invariant holds at the end. -/
theorem loop_from_total (Q : Nat → State → Prop) (body : Nat → State → Res) (bound : Nat)
    (hb : ∀ i s, Q i s → i < bound → ∃ s1, body i s = Res.next s1 ∧ Q (i + 1) s1) :
    ∀ todo i s, Q i s → i + todo ≤ bound →
      ∃ s1, loop_from body todo i s = Res.next s1 ∧ Q (i + todo) s1 := by
  intro todo
  induction todo with
  | zero => intro i s h _; exact ⟨s, rfl, h⟩
  | succ n ih =>
    intro i s h hi
    obtain ⟨s1, e1, q1⟩ := hb i s h (by omega)
    obtain ⟨s2, e2, q2⟩ := ih (i + 1) s1 q1 (by omega)
    refine ⟨s2, ?_, ?_⟩
    · unfold loop_from
      rw [e1]
      exact e2
    · rw [show i + (n + 1) = i + 1 + n by omega]
      exact q2

theorem for_loop_total (Q : Nat → State → Prop) (body : Nat → State → Res) (count : Nat)
    (hb : ∀ i s, Q i s → i < count → ∃ s1, body i s = Res.next s1 ∧ Q (i + 1) s1)
    (s : State) (hs : Q 0 s) :
    ∃ s1, for_loop count body s = Res.next s1 ∧ Q count s1 := by
  have := loop_from_total Q body count hb count 0 s hs (by omega)
  rw [Nat.zero_add] at this
  exact this

theorem file_closings_succ (n : Nat) :
    file_closings (n + 1) = file_closings n ++ [Event.fprintf n closing_tag, Event.fclose n] := by
  unfold file_closings
  rw [List.range_succ, List.flatMap_append]
  simp

/-- The first loop of `uninit` when the first `n` files are open: every file gets the
closing tag and is closed; nothing else changes. -/
theorem close_files_open (s : State) (n : Nat) (hlen : s.bl_files.length = BL_MAX_FILES)
    (hn : n ≤ BL_MAX_FILES)
    (hopen : ∀ i, i < n → ∃ f, s.bl_files.get? i = some f ∧ f.fp = Stream.opened) :
    ∃ s1, for_loop n (call_close_file bls_arcade) s = Res.next s1 ∧ SameVars s s1 ∧
      s1.bl_hosts = s.bl_hosts ∧ s1.trace = s.trace ++ file_closings n := by
  obtain ⟨s1, e1, q1, q2, q3, q4, _⟩ := for_loop_total
    (fun i t => SameVars s t ∧ t.bl_hosts = s.bl_hosts ∧
      t.trace = s.trace ++ file_closings i ∧ t.bl_files.length = BL_MAX_FILES ∧
      ∀ j, i ≤ j → j < n → ∃ f, t.bl_files.get? j = some f ∧ f.fp = Stream.opened)
    (call_close_file bls_arcade) n
    (fun i t ht hi => by
      obtain ⟨t1, t2, t3, t4, t5⟩ := ht
      obtain ⟨f, hf, hfo⟩ := t5 i (le_refl _) hi
      have hset : set_fp t i Stream.closed
          = some { t with bl_files := t.bl_files.set i { f with fp := Stream.closed } } := by
        unfold set_fp
        rw [hf]
      have hclose : bml_close i t = Res.next { t with
          bl_files := t.bl_files.set i { f with fp := Stream.closed },
          trace := t.trace ++ [Event.fprintf i closing_tag, Event.fclose i] } := by
        unfold bml_close
        rw [hf]
        simp only
        rw [if_pos hfo, hset]
        rfl
      refine ⟨_, hclose, ?_⟩
      · refine ⟨t1, t2, ?_, by simp [t4], ?_⟩
        · show t.trace ++ _ = _
          rw [t3, file_closings_succ, List.append_assoc]
        · intro j hij hj
          obtain ⟨g, hg, hgo⟩ := t5 j (by omega) hj
          refine ⟨g, ?_, hgo⟩
          simp only [List.get?_eq_getElem?] at hg ⊢
          rw [List.getElem?_set_ne (by omega)]
          exact hg)
    s ⟨SameVars.refl s, rfl, by simp [file_closings], hlen, fun j _ hj => hopen j hj⟩
  exact ⟨s1, e1, q1, q2, q3⟩

/-- The second loop of `uninit`: one `close` per host; nothing else changes. -/
theorem close_connections_all (s : State) (hlen : s.bl_hosts.length = BL_MAX_HOSTS)
    (hn : s.no_bl_hosts ≤ BL_MAX_HOSTS) :
    for_loop s.no_bl_hosts (call_close_connection bls_arcade) s
      = Res.next { s with trace := s.trace ++ host_closings s } := by
  unfold host_closings
  apply for_loop_events _ (fun i => Event.close i (host_fd s i))
    (fun v => v.bl_hosts = s.bl_hosts)
  · intro v e hv; exact hv
  · intro i v hv hi
    have hlt : i < s.bl_hosts.length := by omega
    have hget : s.bl_hosts.get? i = some (s.bl_hosts.get ⟨i, hlt⟩) := List.get?_eq_get hlt
    have hfd : host_fd s i = (s.bl_hosts.get ⟨i, hlt⟩).fd := by
      unfold host_fd; rw [hget]
    show udp_close i v = _
    unfold udp_close
    rw [hv, hget, hfd]
  · rfl

/-- A loop of `uninit`, which reads `bl` only when it runs at least once. -/
theorem guarded_loop_eq (t : State) (n : Nat) (body : bl_properties_t → Nat → State → Res)
    (bl : bl_properties_t) (hbl : t.bl = some bl) :
    (if n = 0 then Res.next t
      else
        match t.bl with
        | none => Res.undef
        | some b => for_loop n (body b) t) = for_loop n (body bl) t := by
  by_cases h0 : n = 0
  · rw [if_pos h0, h0]
    rfl
  · rw [if_neg h0, hbl]

/-- In a ready state `uninit` returns: it prints the closing tag to every file and closes
it, then closes the descriptor of every host; it makes no other call. -/
theorem uninit_ready (s : State) (pkt snap : List Nat) (h : Ready s pkt snap) :
    ∃ s1, uninit s = Res.ret 0 s1 ∧
      s1.trace = s.trace ++ file_closings s.no_bl_files ++ host_closings s := by
  obtain ⟨t1, e1, f1, g1, tr1⟩ := close_files_open
    { s with bl_packet := none, bl_subdevice := none } s.no_bl_files h.wf.1 h.wf.2.2.1
    h.files_open
  have hn1 : t1.no_bl_hosts = s.no_bl_hosts := f1.2.2.2.2.2.2.2.1
  have hb1 : t1.bl = some bls_arcade := f1.2.2.2.2.2.1.trans h.bl_eq
  have e2 := close_connections_all t1 (by rw [g1]; exact h.wf.2.1)
    (by rw [hn1]; exact h.wf.2.2.2)
  have hc : host_closings t1 = host_closings s := by
    unfold host_closings host_fd
    rw [hn1, g1]
  have r1 : (if s.no_bl_files = 0 then
        Res.next { s with bl_packet := none, bl_subdevice := none }
      else
        match s.bl with
        | none => Res.undef
        | some bl => for_loop s.no_bl_files (call_close_file bl)
            { s with bl_packet := none, bl_subdevice := none }) = Res.next t1 :=
    (guarded_loop_eq { s with bl_packet := none, bl_subdevice := none } s.no_bl_files
      call_close_file bls_arcade h.bl_eq).trans e1
  have r2 : (if t1.no_bl_hosts = 0 then Res.next t1
      else
        match t1.bl with
        | none => Res.undef
        | some bl => for_loop t1.no_bl_hosts (call_close_connection bl) t1)
      = Res.next { t1 with trace := t1.trace ++ host_closings t1 } :=
    (guarded_loop_eq t1 t1.no_bl_hosts call_close_connection bls_arcade hb1).trans e2
  have hu : uninit s = Res.ret 0 ⟨t1.image, t1.tmp, t1.framenum, t1.bl_subdevice, t1.prevpts,
      none, t1.bl_files, t1.bl_hosts, 0, 0, t1.bl_packet, t1.bl_size,
      t1.trace ++ host_closings t1⟩ := by
    unfold uninit
    simp only
    rw [r1]
    simp only
    rw [r2]
  refine ⟨_, hu, ?_⟩
  show t1.trace ++ host_closings t1 = _
  rw [tr1, hc]

/-- C14: whenever a call of `uninit` returns, leaving the state `s1`, a second call
returns as well and leaves exactly `s1`: the counters are zero, the profile pointer and the
packet pointer are null, the trace has no new call (no sink is closed again), and the result
is not the undefined one (`bl` is not read, as both loops run zero times).  The first call
does return in every ready state, so after every successful `preinit`. -/
theorem uninit_idempotent (s : State) :
    (∀ c s1, uninit s = Res.ret c s1 →
      uninit s1 = Res.ret 0 s1 ∧ s1.no_bl_files = 0 ∧ s1.no_bl_hosts = 0 ∧ s1.bl = none ∧
        s1.bl_packet = none) ∧
    (∀ pkt snap, Ready s pkt snap →
      ∃ s1, uninit s = Res.ret 0 s1 ∧ uninit s1 = Res.ret 0 s1 ∧ s1.trace =
        s.trace ++ file_closings s.no_bl_files ++ host_closings s) := by
  have key : ∀ c s1, uninit s = Res.ret c s1 →
      uninit s1 = Res.ret 0 s1 ∧ s1.no_bl_files = 0 ∧ s1.no_bl_hosts = 0 ∧ s1.bl = none ∧
        s1.bl_packet = none := by
    intro c s1 h
    obtain ⟨_, h1, h2, h3, h4, h5⟩ := uninit_result h
    exact ⟨uninit_closed s1 h1 h2 h3 h4 h5, h1, h2, h3, h4⟩
  refine ⟨key, ?_⟩
  intro pkt snap h
  obtain ⟨s1, e1, tr1⟩ := uninit_ready s pkt snap h
  exact ⟨s1, e1, (key 0 s1 e1).1, tr1⟩

/-- The theorem `uninit_idempotent` applied to the state after `preinit` on
`arcade:host=localhost:2323,file=out.bml`, and to the initial state. -/
theorem uninit_idempotent_witness :
    (∃ pkt snap, Ready demo_state pkt snap ∧
      ∃ s1, uninit demo_state = Res.ret 0 s1 ∧ uninit s1 = Res.ret 0 s1 ∧ s1.trace =
        demo_state.trace ++ file_closings demo_state.no_bl_files
          ++ host_closings demo_state) ∧
    (uninit State.init = Res.ret 0 State.init ∧
      uninit State.init = Res.ret 0 State.init ∧ State.init.no_bl_files = 0 ∧
      State.init.no_bl_hosts = 0 ∧ State.init.bl = none ∧ State.init.bl_packet = none) := by
  obtain ⟨pkt, snap, hr, _⟩ := demo_state_ready
  exact ⟨⟨pkt, snap, hr, (uninit_idempotent demo_state).2 pkt snap hr⟩,
    rfl, (uninit_idempotent State.init).1 0 State.init rfl⟩

/-! ## The frame record (C15) -/

theorem hex_value_digitChar (k : Nat) (hk : k < 16) : hex_value (Nat.digitChar k) = some k := by
  interval_cases k <;> rfl

theorem decode_hex_fmt (b : Nat) (hb : b < 256) (rest : List Char) :
    decode_hex (fmt_02x b ++ rest) = (decode_hex rest).map (fun bytes => b :: bytes) := by
  have h1 : b / 16 % 16 < 16 := Nat.mod_lt _ (by decide)
  have h2 : b % 16 < 16 := Nat.mod_lt _ (by decide)
  have e : 16 * (b / 16 % 16) + b % 16 = b := by omega
  have hl : fmt_02x b ++ rest
      = Nat.digitChar (b / 16 % 16) :: Nat.digitChar (b % 16) :: rest := rfl
  rw [hl, decode_hex, hex_value_digitChar _ h1, hex_value_digitChar _ h2]
  cases decode_hex rest with
  | none => rfl
  | some v => simp [e]

theorem decode_hex_flatMap (bytes : List Nat) (hb : ∀ b ∈ bytes, b < 256) :
    decode_hex (bytes.flatMap fmt_02x) = some bytes ∧
      (bytes.flatMap fmt_02x).length = 2 * bytes.length := by
  induction bytes with
  | nil => exact ⟨rfl, rfl⟩
  | cons b bs ih =>
    obtain ⟨h1, h2⟩ := ih (fun x hx => hb x (List.mem_cons_of_mem _ hx))
    constructor
    · rw [List.flatMap_cons, decode_hex_fmt b (hb b (List.mem_cons_self _ _)), h1]
      rfl
    · rw [List.flatMap_cons, List.length_append, h2]
      simp [fmt_02x]
      omega

/-- The inner loop of `bml_write_frame` prints two digits for each byte it reads. -/
theorem bml_row_digits_eq (img : List Nat) (base : Nat) :
    ∀ todo k, base + k + todo ≤ img.length →
      bml_row_digits img base todo k
        = some (((img.drop (base + k)).take todo).flatMap fmt_02x) := by
  intro todo
  induction todo with
  | zero => intro k _; simp [bml_row_digits]
  | succ n ih =>
    intro k hk
    have hlt : base + k < img.length := by omega
    unfold bml_row_digits
    rw [List.get?_eq_get hlt, ih (k + 1) (by omega)]
    simp only
    have hd : img.drop (base + k) = img.get ⟨base + k, hlt⟩ :: img.drop (base + (k + 1)) := by
      rw [show base + (k + 1) = base + k + 1 by omega]
      exact List.drop_eq_getElem_cons hlt
    rw [hd, List.take_succ_cons, List.flatMap_cons]

theorem bml_rows_eq (img : List Nat) :
    ∀ todo j, (j + todo) * 26 ≤ img.length →
      bml_rows bls_arcade img todo j
        = some ((List.range' j todo).map (fun m => row_entry (hex_row img m))) := by
  intro todo
  induction todo with
  | zero => intro j _; simp [bml_rows]
  | succ n ih =>
    intro j hj
    have h1 : bml_row bls_arcade img j = some (row_entry (hex_row img j)) := by
      unfold bml_row
      have := bml_row_digits_eq img (j * 26) 26 0 (by omega)
      simp only [bls_arcade]
      rw [this]
      rfl
    unfold bml_rows
    rw [h1, ih (j + 1) (by omega)]
    simp [List.range'_succ]

/-- The text of a frame record of the arcade profile. -/
theorem bml_frame_text_eq (img : List Nat) (duration : Int) (h : 26 * 20 ≤ img.length) :
    bml_frame_text bls_arcade img duration
      = some (frame_record duration ((List.range 20).map (hex_row img))) := by
  unfold bml_frame_text
  have := bml_rows_eq img 20 0 (by omega)
  simp only [bls_arcade] at this ⊢
  rw [this]
  simp only [frame_record, List.range_eq_range', List.map_map]
  rfl

theorem isdigit_digitChar (k : Nat) (hk : k < 10) :
    isdigit (Nat.digitChar k) = true ∧ (Nat.digitChar k).toNat - 48 = k := by
  interval_cases k <;> exact ⟨rfl, rfl⟩

/-- The digits `%d` prints are read back by the digit loop of `atoi`. -/
theorem atoi_digits_toDigitsCore :
    ∀ (fuel n : Nat) (ds : List Char), n < fuel →
      atoi_digits (Nat.toDigitsCore 10 fuel n ds) 0 = atoi_digits ds n := by
  intro fuel
  induction fuel with
  | zero => intro n ds h; omega
  | succ f ih =>
    intro n ds h
    obtain ⟨d1, d2⟩ := isdigit_digitChar (n % 10) (Nat.mod_lt _ (by decide))
    have step : ∀ acc, atoi_digits (Nat.digitChar (n % 10) :: ds) acc
        = atoi_digits ds (acc * 10 + n % 10) := by
      intro acc
      rw [atoi_digits, if_pos d1, d2]
    unfold Nat.toDigitsCore
    simp only
    by_cases h0 : n / 10 = 0
    · rw [if_pos h0, step]
      congr 1
      omega
    · rw [if_neg h0, ih (n / 10) _ (by omega), step]
      congr 1
      omega

theorem toDigitsCore_head :
    ∀ (fuel n : Nat) (ds : List Char), 0 < fuel →
      ∃ c rest, Nat.toDigitsCore 10 fuel n ds = c :: rest ∧ isdigit c = true := by
  intro fuel
  induction fuel with
  | zero => intro n ds h; omega
  | succ f ih =>
    intro n ds _
    obtain ⟨d1, _⟩ := isdigit_digitChar (n % 10) (Nat.mod_lt _ (by decide))
    unfold Nat.toDigitsCore
    simp only
    by_cases h0 : n / 10 = 0
    · rw [if_pos h0]
      exact ⟨_, _, rfl, d1⟩
    · rw [if_neg h0]
      by_cases hf : f = 0
      · subst hf
        exact ⟨_, _, rfl, d1⟩
      · exact ih _ _ (by omega)

/-- What `atoi` reads from the output of `%d` followed by a character that is not a digit is
the number printed. -/
theorem atoi_fmt_d (d : Int) (sep : Char) (post : List Char) (hsep : isdigit sep = false) :
    atoi (fmt_d d ++ sep :: post) = d := by
  have hnat : ∀ k : Nat, atoi_digits (Nat.toDigits 10 k ++ sep :: post) 0 = k := by
    intro k
    rw [atoi_digits_append _ sep post hsep]
    unfold Nat.toDigits
    rw [atoi_digits_toDigitsCore (k + 1) k [] (by omega)]
    rfl
  cases d with
  | ofNat k =>
    obtain ⟨c, rest, hc, hd⟩ := toDigitsCore_head (k + 1) k [] (by omega)
    obtain ⟨h1, h2, h3, _, _⟩ := digit_props c hd
    have hk := hnat k
    show atoi (Nat.toDigits 10 k ++ sep :: post) = _
    unfold Nat.toDigits at hk ⊢
    rw [hc] at hk ⊢
    rw [List.cons_append] at hk ⊢
    rw [atoi_nospace c _ h1, if_neg h2, if_neg h3, hk]
    rfl
  | negSucc k =>
    show atoi ('-' :: (Nat.toDigits 10 (k + 1) ++ sep :: post)) = _
    rw [atoi_nospace '-' _ (by decide), if_pos rfl, hnat (k + 1)]
    rfl

/-- The duration attribute of a frame record reads back as the duration given. -/
theorem record_duration_frame (duration : Int) (rows : List (List Char)) :
    record_duration (frame_record duration rows) = duration := by
  unfold record_duration frame_record
  have e : "\">\n".toList = Char.ofNat 34 :: ">\n".toList := by decide
  have : "    <frame duration=\"".toList ++ fmt_d duration ++ "\">\n".toList
      ++ (rows.map row_entry).flatten ++ "    </frame>\n".toList
      = "    <frame duration=\"".toList ++ (fmt_d duration ++ Char.ofNat 34 ::
          (">\n".toList ++ (rows.map row_entry).flatten ++ "    </frame>\n".toList)) := by
    rw [e]
    simp only [List.append_assoc, List.cons_append]
  rw [this, List.drop_left' (by rfl)]
  exact atoi_fmt_d duration (Char.ofNat 34) _ (by decide)

/-- C15: for every block `img` of at least `width*height` = 520 bytes and every duration,
`bml_write_frame` on an open file prints exactly one frame record: the opening tag whose
duration attribute reads back as the given duration, then exactly 20 row entries, then the
closing tag.  The text of row `j` between `<row>` and `</row>` has exactly 2 * 26 = 52
characters, all of them lower case hexadecimal digits, and decoding each consecutive pair of
digits gives back the bytes `j*26 .. j*26 + 25` of the block. -/
theorem bml_write_frame_round_trip (img : List Nat) (duration : Int)
    (hlen : 26 * 20 ≤ img.length) (hb : ∀ b ∈ img, b < 256) :
    ∃ rows : List (List Char),
      bml_frame_text bls_arcade img duration = some (frame_record duration rows) ∧
      record_duration (frame_record duration rows) = duration ∧
      rows.length = 20 ∧
      (∀ j, j < 20 → ∃ r, rows.get? j = some r ∧ r.length = 2 * 26 ∧
        decode_hex r = some ((img.drop (j * 26)).take 26)) ∧
      ∀ (s : State) (i : Nat) (f : bl_file_t), s.bl = some bls_arcade →
        s.bl_files.get? i = some f → f.fp = Stream.opened →
        bml_write_frame i (some img) duration s
          = Res.next { s with
              trace := s.trace ++ [Event.fprintf i (frame_record duration rows)] } := by
  have htext := bml_frame_text_eq img duration hlen
  refine ⟨(List.range 20).map (hex_row img), htext, record_duration_frame _ _, by simp, ?_, ?_⟩
  · intro j hj
    have hrow : ∀ b ∈ (img.drop (j * 26)).take 26, b < 256 :=
      fun b hx => hb b (List.mem_of_mem_drop (List.mem_of_mem_take hx))
    obtain ⟨h1, h2⟩ := decode_hex_flatMap _ hrow
    refine ⟨hex_row img j, ?_, ?_, h1⟩
    · rw [List.get?_eq_getElem?, List.getElem?_map, List.getElem?_range hj]
      rfl
    · unfold hex_row
      rw [h2, List.length_take, List.length_drop]
      omega
  · intro s i f hbl hf hopen
    unfold bml_write_frame
    rw [hf, hbl]
    simp only
    rw [if_pos hopen, htext]

/-- The theorem `bml_write_frame_round_trip` applied to a white frame (every byte 255) and
the duration 10. -/
theorem bml_write_frame_round_trip_witness :
    ∃ rows : List (List Char),
      bml_frame_text bls_arcade (List.replicate 520 255) 10 = some (frame_record 10 rows) ∧
      record_duration (frame_record 10 rows) = 10 ∧
      rows.length = 20 ∧
      (∀ j, j < 20 → ∃ r, rows.get? j = some r ∧ r.length = 2 * 26 ∧
        decode_hex r = some (((List.replicate 520 255).drop (j * 26)).take 26)) ∧
      ∀ (s : State) (i : Nat) (f : bl_file_t), s.bl = some bls_arcade →
        s.bl_files.get? i = some f → f.fp = Stream.opened →
        bml_write_frame i (some (List.replicate 520 255)) 10 s
          = Res.next { s with
              trace := s.trace ++ [Event.fprintf i (frame_record 10 rows)] } :=
  bml_write_frame_round_trip (List.replicate 520 255) 10 (by simp)
    (fun b hx => by rw [List.eq_of_mem_replicate hx]; decide)

/-! ## Calls after `uninit` (C16) -/

/-- C16, as the code has it: `draw_slice` and `flip_page` test neither `bl` nor the buffer
pointers.  In the state any returning `uninit` leaves, `flip_page` reads through the null
pointer `bl` and `draw_slice` with at least one row copies to the block `bl_packet` pointed
to, which has been freed: both are the undefined outcome, at every argument, and no failure
is reported.  Only `draw_slice` without rows, which touches nothing, returns (with 0). -/
theorem after_uninit_unguarded (s s1 : State) (c : Nat) (h : uninit s = Res.ret c s1) :
    (∀ pts, flip_page s1 pts = Res.undef) ∧
    (∀ plane stride w h x y, 0 < h → draw_slice s1 plane stride w h x y = Res.undef) ∧
    (∀ plane stride w h x y, h ≤ 0 → draw_slice s1 plane stride w h x y = Res.ret 0 s1) := by
  obtain ⟨_, _, _, hbl, hpkt, _⟩ := uninit_result h
  refine ⟨?_, ?_, ?_⟩
  · intro pts
    unfold flip_page
    rw [hbl]
  · intro plane stride w h x y hh
    unfold draw_slice
    rw [if_neg (by omega), hpkt]
    cases s1.image <;> rfl
  · intro plane stride w h x y hh
    unfold draw_slice
    rw [if_pos hh]

/-- The theorem `after_uninit_unguarded` applied to `uninit` after `preinit` on
`arcade:host=localhost:2323,file=out.bml`. -/
theorem after_uninit_unguarded_witness :
    ∃ s1, uninit demo_state = Res.ret 0 s1 ∧
      (∀ pts, flip_page s1 pts = Res.undef) ∧
      (∀ plane stride w h x y, 0 < h → draw_slice s1 plane stride w h x y = Res.undef) ∧
      (∀ plane stride w h x y, h ≤ 0 → draw_slice s1 plane stride w h x y = Res.ret 0 s1) := by
  obtain ⟨pkt, snap, hr, _⟩ := demo_state_ready
  obtain ⟨s1, h1, _⟩ := uninit_ready demo_state pkt snap hr
  exact ⟨s1, h1, after_uninit_unguarded demo_state s1 0 h1⟩

/-- C16 at a counterexample: after `preinit` on `arcade:host=localhost:2323,file=out.bml`
and `uninit`, neither `flip_page` nor `draw_slice` with one row of one pixel returns a
failure: both take the undefined branch (a read through the null `bl`, a copy to the freed
packet block). -/
theorem after_uninit_no_reported_failure :
    ∃ s1, uninit demo_state = Res.ret 0 s1 ∧
      s1.bl = none ∧ s1.bl_packet = none ∧
      flip_page s1 0 = Res.undef ∧
      draw_slice s1 [255] 1 1 1 0 0 = Res.undef ∧
      (∀ code t, flip_page s1 0 ≠ Res.ret code t) ∧
      (∀ code t, draw_slice s1 [255] 1 1 1 0 0 ≠ Res.ret code t) := by
  obtain ⟨pkt, snap, hr, _⟩ := demo_state_ready
  obtain ⟨s1, h1, _⟩ := uninit_ready demo_state pkt snap hr
  obtain ⟨_, _, _, hbl, hpkt, _⟩ := uninit_result h1
  have hf : flip_page s1 0 = Res.undef := by
    unfold flip_page
    rw [hbl]
  have hd : draw_slice s1 [255] 1 1 1 0 0 = Res.undef := by
    unfold draw_slice
    rw [if_neg (by decide), hpkt]
    cases s1.image <;> rfl
  refine ⟨s1, h1, hbl, hpkt, hf, hd, ?_, ?_⟩
  · intro code t
    rw [hf]
    exact fun e => Res.noConfusion e
  · intro code t
    rw [hd]
    exact fun e => Res.noConfusion e

/-! ## Where `draw_slice` writes (C17) -/

theorem drop_eq_of_le {α : Type} (l1 l2 : List α) (k m : Nat)
    (h : l1.drop k = l2.drop k) (hkm : k ≤ m) : l1.drop m = l2.drop m := by
  obtain ⟨j, rfl⟩ := Nat.exists_eq_add_of_le hkm
  have := congrArg (List.drop j) h
  simpa [List.drop_drop, Nat.add_comm] using this

/-- A defined `memcpy` changes the destination block only at `doff .. doff + n - 1`. -/
theorem memcpy_frame (dst : List Nat) (doff : Nat) (src : List Nat) (soff : Int) (n : Nat)
    (r : List Nat) (h : memcpy dst doff src soff n = some r) :
    r.length = dst.length ∧ r.take doff = dst.take doff ∧
      r.drop (doff + n) = dst.drop (doff + n) := by
  unfold memcpy at h
  by_cases hn : n = 0
  · rw [if_pos hn] at h
    injection h with h
    subst h
    exact ⟨rfl, rfl, rfl⟩
  · rw [if_neg hn] at h
    unfold peek at h
    by_cases hc : 0 ≤ soff ∧ soff.toNat + n ≤ src.length
    · rw [if_pos hc] at h
      simp only at h
      by_cases hd : doff + n ≤ dst.length
      · rw [if_pos hd] at h
        injection h with h
        subst h
        have hlen : ((src.drop soff.toNat).take n).length = n := by
          rw [List.length_take, List.length_drop]
          omega
        unfold poke
        rw [hlen]
        refine ⟨?_, ?_, ?_⟩
        · simp only [List.length_append, List.length_take, List.length_drop, hlen]
          omega
        · rw [List.append_assoc, List.take_append_of_le_length (by rw [List.length_take]; omega),
            List.take_take]
          congr 1
          omega
        · have h1 : (dst.take doff ++ (src.drop soff.toNat).take n).length = doff + n := by
            rw [List.length_append, List.length_take, hlen]
            omega
          rw [← h1, List.drop_left, h1]
      · rw [if_neg hd] at h
        exact absurd h (by simp)
    · rw [if_neg hc] at h
      exact absurd h (by simp)

/-- The loop of `draw_slice` under the arcade profile, when it is defined: with `todo` rows
of at most 26 bytes to copy from offset `dst` on, the block changes only at the offsets
`dst .. dst + todo*26 - 1`. -/
theorem draw_rows_frame (s : State) (plane : List Nat) (stride w : Int)
    (hbl : s.bl = some bls_arcade) (hw : w ≤ 26) :
    ∀ (todo dst : Nat) (src : Int) (pkt r : List Nat),
      draw_rows s plane stride w todo dst src pkt = some r →
      r.length = pkt.length ∧ r.take dst = pkt.take dst ∧
        r.drop (dst + todo * 26) = pkt.drop (dst + todo * 26) := by
  intro todo
  induction todo with
  | zero =>
    intro dst src pkt r h
    unfold draw_rows at h
    injection h with h
    subst h
    exact ⟨rfl, rfl, rfl⟩
  | succ n ih =>
    intro dst src pkt r h
    unfold draw_rows at h
    rw [hbl] at h
    simp only at h
    by_cases hneg : w < 0
    · rw [if_pos hneg] at h
      exact absurd h (by simp)
    · rw [if_neg hneg] at h
      cases hm : memcpy pkt dst plane src w.toNat with
      | none =>
        rw [hm] at h
        exact absurd h (by simp)
      | some r1 =>
        rw [hm] at h
        simp only at h
        obtain ⟨a1, a2, a3⟩ := memcpy_frame pkt dst plane src w.toNat r1 hm
        obtain ⟨b1, b2, b3⟩ := ih (dst + bls_arcade.width) (src + stride) r1 r h
        have hwn : w.toNat ≤ 26 := by omega
        have e26 : bls_arcade.width = 26 := rfl
        rw [e26] at b2 b3
        refine ⟨b1.trans a1, ?_, ?_⟩
        · have := congrArg (List.take dst) b2
          rw [List.take_take, List.take_take, Nat.min_eq_left (by omega)] at this
          rw [this, a2]
        · have e : dst + (n + 1) * 26 = dst + 26 + n * 26 := by ring
          rw [e, b3]
          exact drop_eq_of_le r1 pkt (dst + w.toNat) _ a3 (by omega)

/-- C17: in a ready state (arcade profile, buffers as `preinit` allocates them), for every
call of `draw_slice` with `0 ≤ w ≤ 26` and `0 ≤ h ≤ 20`, any `x`, `y`, any plane and any
stride: whenever the call returns, the only variable changed is the packet block, the block
keeps its size of 12 + 1560 bytes, its first 12 bytes (the header) are unchanged and so is
everything from offset 12 + 520 on; so every byte written has an image index below
`width*height` = 520, inside the 1560 bytes of the image area and inside the 520 bytes
`flip_page` copies and sends.  When the `h` source rows of `w` bytes can be read from the
plane the call does return: no copy of the loop leaves the block on the destination side. -/
theorem draw_slice_within_image (s : State) (pkt snap plane : List Nat)
    (stride w h x y : Int) (hr : Ready s pkt snap)
    (hw0 : 0 ≤ w) (hw : w ≤ 26) (hh0 : 0 ≤ h) (hh : h ≤ 20) :
    (∀ c s1, draw_slice s plane stride w h x y = Res.ret c s1 →
      ∃ pkt1, s1 = { s with bl_packet := some pkt1 } ∧ pkt1.length = 12 + 26 * 20 * 3 ∧
        pkt1.take 12 = pkt.take 12 ∧
        pkt1.drop (12 + 26 * 20) = pkt.drop (12 + 26 * 20)) ∧
    ((∀ i : Nat, (i : Int) < h →
        0 ≤ (i : Int) * stride ∧ (i : Int) * stride + w ≤ plane.length) →
      ∃ s1, draw_slice s plane stride w h x y = Res.ret 0 s1) := by
  constructor
  · intro c s1 hd
    unfold draw_slice at hd
    by_cases h0 : h ≤ 0
    · rw [if_pos h0] at hd
      injection hd with _ hs
      subst hs
      refine ⟨pkt, ?_, hr.packet_length, rfl, rfl⟩
      rw [← hr.packet_eq]
    · rw [if_neg h0, hr.image_eq, hr.packet_eq] at hd
      simp only at hd
      cases hrows : draw_rows s plane stride w h.toNat off_data 0 pkt with
      | none =>
        rw [hrows] at hd
        exact absurd hd (by simp)
      | some r =>
        rw [hrows] at hd
        simp only at hd
        injection hd with _ hs
        obtain ⟨a1, a2, a3⟩ := draw_rows_frame s plane stride w hr.bl_eq hw h.toNat
          off_data 0 pkt r hrows
        refine ⟨r, hs.symm.trans (by rw [hr.image_eq]), by rw [a1, hr.packet_length], a2, ?_⟩
        have hle : h.toNat ≤ 20 := by omega
        exact drop_eq_of_le r pkt (off_data + h.toNat * 26) _ a3 (by
          simp only [off_data]
          omega)
  · intro hsrc
    obtain ⟨pkt1, h1, _⟩ := draw_slice_ready s pkt snap ⟨plane, stride, w, h, x, y⟩ hr
      ⟨hw0, hw, hh, hsrc⟩
    exact ⟨_, h1⟩

/-- The theorem `draw_slice_within_image` applied to a full frame of 20 rows of 26 bytes
drawn at `x = 3, y = 4` into the image after `preinit` on
`arcade:host=localhost:2323,file=out.bml`. -/
theorem draw_slice_within_image_witness :
    ∃ pkt snap, Ready demo_state pkt snap ∧
      ∃ s1 pkt1, draw_slice demo_state (List.replicate 520 7) 26 26 20 3 4 = Res.ret 0 s1 ∧
        s1 = { demo_state with bl_packet := some pkt1 } ∧ pkt1.length = 12 + 26 * 20 * 3 ∧
        pkt1.take 12 = pkt.take 12 ∧
        pkt1.drop (12 + 26 * 20) = pkt.drop (12 + 26 * 20) := by
  obtain ⟨pkt, snap, hr, _⟩ := demo_state_ready
  have hthm := draw_slice_within_image demo_state pkt snap (List.replicate 520 7) 26 26 20 3 4
    hr (by decide) (by decide) (by decide) (by decide)
  obtain ⟨s1, h1⟩ := hthm.2 (by
    intro i hi
    simp only [List.length_replicate]
    constructor <;> omega)
  obtain ⟨pkt1, h2⟩ := hthm.1 0 s1 h1
  exact ⟨pkt, snap, hr, s1, pkt1, h1, h2⟩

/-! ## What the files receive over a sequence of frames (C18, C19) -/

theorem file_texts_append (i : Nat) (a b : List Event) :
    file_texts i (a ++ b) = file_texts i a ++ file_texts i b := by
  unfold file_texts
  rw [List.filterMap_append]

theorem file_texts_records (i : Nat) (s : State) (text : List Char) :
    file_texts i (records s text) = if i < s.no_bl_files then [text] else [] := by
  unfold records
  induction s.no_bl_files with
  | zero => simp [file_texts]
  | succ n ih =>
    rw [List.range_succ, List.map_append, file_texts_append, ih]
    by_cases h1 : i < n
    · have h2 : n ≠ i := by omega
      simp [file_texts, h1, h2, Nat.lt_succ_of_lt h1]
    · by_cases h2 : n = i
      · subst h2
        simp [file_texts]
      · have h3 : ¬ i < n + 1 := by omega
        simp [file_texts, h1, h2, h3]

theorem file_texts_sends (i : Nat) (s : State) (bytes : List Nat) :
    file_texts i (sends s bytes) = [] := by
  unfold sends file_texts
  rw [List.filterMap_eq_nil_iff]
  intro e he
  obtain ⟨j, _, rfl⟩ := List.mem_map.mp he
  rfl

theorem file_texts_host_closings (i : Nat) (s : State) :
    file_texts i (host_closings s) = [] := by
  unfold host_closings file_texts
  rw [List.filterMap_eq_nil_iff]
  intro e he
  obtain ⟨j, _, rfl⟩ := List.mem_map.mp he
  rfl

theorem file_texts_file_closings (i n : Nat) :
    file_texts i (file_closings n) = if i < n then [closing_tag] else [] := by
  induction n with
  | zero => simp [file_closings, file_texts]
  | succ n ih =>
    rw [file_closings_succ, file_texts_append, ih]
    by_cases h1 : i < n
    · have h2 : n ≠ i := by omega
      simp [file_texts, h1, h2, Nat.lt_succ_of_lt h1]
    · by_cases h2 : n = i
      · subst h2
        simp [file_texts]
      · have h3 : ¬ i < n + 1 := by omega
        simp [file_texts, h1, h2, h3]

/-- What `flip_page` prints to the files in a ready state: unless `prevpts` is negative,
each file gets the frame record of the snapshot in `tmp` with the duration
`(vo_pts - prevpts) / 90`, and nothing else. -/
theorem flip_page_file_texts (s : State) (pkt snap : List Nat) (pts : Int)
    (h : Ready s pkt snap) :
    ∃ s1, flip_page s pts = Res.ret 0 s1 ∧
      Ready s1 pkt ((pkt.drop 12).take 520) ∧ s1.prevpts = pts ∧
      s1.tmp = some s1.pixels ∧ s1.pixels = s.pixels ∧ s1.no_bl_files = s.no_bl_files ∧
      ∀ i, i < s.no_bl_files →
        file_texts i s1.trace = file_texts i s.trace ++
          (if s.prevpts ≥ 0 then
            [frame_record (Int.tdiv (pts - s.prevpts) 90) (hex_rows snap)]
          else []) := by
  obtain ⟨text, htext, hflip⟩ := flip_page_ready s pkt snap pts h
  obtain ⟨hr1, hp1, ht1, hx1, hn1, _, _⟩ := flip_page_keeps_ready s _ pkt snap pts h hflip
  have htext2 := bml_frame_text_eq snap (Int.tdiv (pts - s.prevpts) 90)
    (by rw [h.tmp_length])
  rw [htext] at htext2
  have htext3 : text = frame_record (Int.tdiv (pts - s.prevpts) 90) (hex_rows snap) :=
    Option.some.inj htext2
  refine ⟨_, hflip, hr1, hp1, ht1, hx1, hn1, ?_⟩
  intro i hi
  show file_texts i (s.trace ++ (if s.prevpts ≥ 0 then records s text else [])
    ++ sends s (pkt.take 532)) = _
  rw [file_texts_append, file_texts_append, file_texts_sends, List.append_nil, htext3]
  by_cases hp : s.prevpts ≥ 0
  · rw [if_pos hp, if_pos hp, file_texts_records, if_pos hi]
  · rw [if_neg hp, if_neg hp]
    rfl

/-- One frame in a ready state, as seen by the files. -/
theorem commit_step_files (p : State) (pkt snap : List Nat) (c : Commit)
    (h : Ready p pkt snap) (hfit : ∀ d ∈ c.draws, d.fits) :
    ∃ q pkt1, (∀ cs, play p (c :: cs) = (play q cs).map (fun posts => q :: posts)) ∧
      Ready q pkt1 ((pkt1.drop 12).take 520) ∧ q.prevpts = c.pts ∧
      q.tmp = some q.pixels ∧ q.no_bl_files = p.no_bl_files ∧
      ∀ i, i < p.no_bl_files →
        file_texts i q.trace = file_texts i p.trace ++
          (if p.prevpts ≥ 0 then
            [frame_record (Int.tdiv (c.pts - p.prevpts) 90) (hex_rows snap)]
          else []) := by
  obtain ⟨pkt1, hdraw, hr1⟩ := draw_all_ready c.draws p pkt snap h hfit
  obtain ⟨q, hflip, hrq, hprev, htmp, _, hnf, htexts⟩ :=
    flip_page_file_texts _ pkt1 snap c.pts hr1
  refine ⟨q, pkt1, ?_, hrq, hprev, htmp, hnf, htexts⟩
  intro cs
  rw [play, hdraw]
  simp only
  rw [hflip]

/-- The frames after the first one, as seen by the files: each commit prints the record of
the image of the commit before it, with the time between the two. -/
theorem play_file_texts (cs : List Commit) :
    ∀ (p : State) (pkt snap : List Nat), Ready p pkt snap → 0 ≤ p.prevpts →
      p.tmp = some p.pixels →
      (∀ x ∈ cs, ∀ d ∈ x.draws, d.fits) → (∀ x ∈ cs, 0 ≤ x.pts) →
      ∃ posts last pktL snapL, play p cs = some posts ∧
        (p :: posts).getLast? = some last ∧ posts.length = cs.length ∧
        Ready last pktL snapL ∧ last.no_bl_files = p.no_bl_files ∧
        ∀ i, i < p.no_bl_files →
          file_texts i last.trace = file_texts i p.trace ++
            recorded_frames ((p :: posts).dropLast.map State.pixels)
              (p.prevpts :: cs.map Commit.pts) := by
  induction cs with
  | nil =>
    intro p pkt snap h _ _ _ _
    refine ⟨[], p, pkt, snap, rfl, rfl, rfl, h, rfl, ?_⟩
    intro i _
    simp [recorded_frames]
  | cons c cs ih =>
    intro p pkt snap h hp htmp hfit hpts
    obtain ⟨q, pkt1, hplay, hrq, hprev, hqtmp, hnf, htexts⟩ :=
      commit_step_files p pkt snap c h (hfit c (List.mem_cons_self _ _))
    have hsnap : snap = p.pixels := by
      have := h.tmp_eq
      rw [htmp] at this
      exact (Option.some.inj this).symm
    obtain ⟨posts, last, pktL, snapL, hplay2, hlast, hlen, hrl, hnl, htl⟩ := ih q pkt1 _ hrq
      (by rw [hprev]; exact hpts c (List.mem_cons_self _ _)) hqtmp
      (fun x hx => hfit x (List.mem_cons_of_mem _ hx))
      (fun x hx => hpts x (List.mem_cons_of_mem _ hx))
    refine ⟨q :: posts, last, pktL, snapL, ?_, ?_, by simp [hlen], hrl, hnl.trans hnf, ?_⟩
    · rw [hplay, hplay2]
      rfl
    · rw [List.getLast?_cons_cons]
      exact hlast
    · intro i hi
      rw [htl i (by rw [hnf]; exact hi), htexts i hi, if_pos hp, hprev, hsnap,
        List.append_assoc]
      rfl

theorem recorded_frames_length :
    ∀ (pxs : List (List Nat)) (ts : List Int), ts.length = pxs.length + 1 →
      (recorded_frames pxs ts).length = pxs.length := by
  intro pxs
  induction pxs with
  | nil =>
    intro ts _
    cases ts <;> rfl
  | cons px pxs ih =>
    intro ts hts
    match ts, hts with
    | t0 :: t1 :: ts, hts =>
      simp only [recorded_frames, List.length_cons]
      rw [ih (t1 :: ts) (by simpa using hts)]

/-- The states reached by a sequence of frames without its last frame are the states
reached by the whole sequence without the last state. -/
theorem play_dropLast (cs : List Commit) :
    ∀ (s : State) (posts : List State), play s cs = some posts →
      play s cs.dropLast = some posts.dropLast := by
  induction cs with
  | nil =>
    intro s posts h
    have : posts = [] := by
      unfold play at h
      injection h with h
      exact h.symm
    subst this
    rfl
  | cons c cs ih =>
    intro s posts h
    unfold play at h
    split at h
    · rename_i code s1 hd
      split at h
      · rename_i code2 s2 hf
        obtain ⟨posts1, h1, rfl⟩ := Option.map_eq_some'.mp h
        cases cs with
        | nil =>
          have : posts1 = [] := by
            unfold play at h1
            injection h1 with h1
            exact h1.symm
          subst this
          rfl
        | cons c1 cs1 =>
          have ih1 := ih s2 posts1 h1
          have hne : posts1 ≠ [] := by
            intro e
            subst e
            unfold play at h1
            split at h1
            · split at h1
              · obtain ⟨x, _, hx⟩ := Option.map_eq_some'.mp h1
                exact absurd hx (by simp)
              · exact absurd h1 (by simp)
            · exact absurd h1 (by simp)
          rw [List.dropLast_cons₂, List.dropLast_cons_of_ne_nil hne, play, hd]
          simp only
          rw [hf]
          simp only
          rw [ih1]
          rfl
      · exact absurd h (by simp)
    · exact absurd h (by simp)

/-- C18, for presentation times that are not negative: from a ready state with
`prevpts = -1`, after the `n` ≥ 1 frames `c :: cs` (all calls return) `uninit` returns, and
every file has then received, after what it held before, exactly `n - 1` frame records
followed by the closing tag.  The records are those of the images of the first `n - 1`
commits, each with the time to the next commit; these images are the states the sequence
reaches without its last frame, so the image of the `n`-th commit is in no record. -/
theorem last_frame_not_recorded (s : State) (pkt snap : List Nat) (c : Commit)
    (cs : List Commit) (h : Ready s pkt snap) (h0 : s.prevpts = -1)
    (hfit : ∀ x ∈ c :: cs, ∀ d ∈ x.draws, d.fits) (hpts : ∀ x ∈ c :: cs, 0 ≤ x.pts) :
    ∃ posts last u, play s (c :: cs) = some posts ∧ posts.getLast? = some last ∧
      play s (c :: cs).dropLast = some posts.dropLast ∧
      uninit last = Res.ret 0 u ∧
      (recorded_frames (posts.dropLast.map State.pixels) ((c :: cs).map Commit.pts)).length
        = (c :: cs).length - 1 ∧
      ∀ i, i < s.no_bl_files →
        file_texts i u.trace = file_texts i s.trace
          ++ recorded_frames (posts.dropLast.map State.pixels) ((c :: cs).map Commit.pts)
          ++ [closing_tag] := by
  obtain ⟨q, pkt1, hplay, hrq, hprev, hqtmp, hnf, htexts⟩ :=
    commit_step_files s pkt snap c h (hfit c (List.mem_cons_self _ _))
  obtain ⟨posts, last, pktL, snapL, hplay2, hlast, hlen, hrl, hnl, htl⟩ :=
    play_file_texts cs q pkt1 _ hrq
      (by rw [hprev]; exact hpts c (List.mem_cons_self _ _)) hqtmp
      (fun x hx => hfit x (List.mem_cons_of_mem _ hx))
      (fun x hx => hpts x (List.mem_cons_of_mem _ hx))
  obtain ⟨u, hu, htr⟩ := uninit_ready last pktL snapL hrl
  have hall : play s (c :: cs) = some (q :: posts) := by
    rw [hplay, hplay2]
    rfl
  refine ⟨q :: posts, last, u, hall, hlast, play_dropLast _ s _ hall, hu, ?_, ?_⟩
  · rw [recorded_frames_length _ _ (by simp [hlen])]
    simp [hlen]
  · intro i hi
    have hil : i < last.no_bl_files := by rw [hnl, hnf]; exact hi
    rw [htr, file_texts_append, file_texts_append, file_texts_host_closings,
      file_texts_file_closings, if_pos hil, htl i (by rw [hnf]; exact hi), htexts i hi,
      if_neg (by rw [h0]; decide), hprev]
    simp

/-- The theorem `last_frame_not_recorded` applied to three frames committed at the times 0,
900 and 1800 after `preinit` on `arcade:host=localhost:2323,file=out.bml`. -/
theorem last_frame_not_recorded_witness :
    ∃ posts last u,
      play demo_state [demo_frame 1 0, demo_frame 2 900, demo_frame 3 1800] = some posts ∧
      posts.getLast? = some last ∧
      play demo_state [demo_frame 1 0, demo_frame 2 900, demo_frame 3 1800].dropLast
        = some posts.dropLast ∧
      uninit last = Res.ret 0 u ∧
      (recorded_frames (posts.dropLast.map State.pixels)
        ([demo_frame 1 0, demo_frame 2 900, demo_frame 3 1800].map Commit.pts)).length
        = [demo_frame 1 0, demo_frame 2 900, demo_frame 3 1800].length - 1 ∧
      ∀ i, i < demo_state.no_bl_files →
        file_texts i u.trace = file_texts i demo_state.trace
          ++ recorded_frames (posts.dropLast.map State.pixels)
            ([demo_frame 1 0, demo_frame 2 900, demo_frame 3 1800].map Commit.pts)
          ++ [closing_tag] := by
  obtain ⟨pkt, snap, hr, h0⟩ := demo_state_ready
  refine last_frame_not_recorded demo_state pkt snap _ _ hr h0 ?_ ?_
  · intro x hx
    simp only [List.mem_cons, List.mem_singleton, List.not_mem_nil, or_false] at hx
    rcases hx with rfl | rfl | rfl <;> exact demo_frame_fits _ _
  · intro x hx
    simp only [List.mem_cons, List.mem_singleton, List.not_mem_nil, or_false] at hx
    rcases hx with rfl | rfl | rfl <;> decide

/-- C18 at a counterexample: after `preinit` on `arcade:host=localhost:2323,file=out.bml`,
two commits at the times -5 and 10 and then `uninit`, file 0 has received the closing tag
and no frame record at all, where `n - 1` = 1 record is claimed: the commit at a negative
time leaves `prevpts` negative, and `flip_page` prints only when `prevpts >= 0`. -/
theorem negative_time_drops_record :
    ∃ posts last u, play demo_state [⟨[], -5⟩, ⟨[], 10⟩] = some posts ∧
      posts.length = 2 ∧ posts.getLast? = some last ∧ uninit last = Res.ret 0 u ∧
      0 < demo_state.no_bl_files ∧
      file_texts 0 u.trace = file_texts 0 demo_state.trace ++ [closing_tag] := by
  obtain ⟨pkt, snap, hr, h0⟩ := demo_state_ready
  have hn : demo_state.no_bl_files = 1 := rfl
  obtain ⟨q1, pkt1, hplay1, hrq1, hprev1, _, hnf1, htexts1⟩ :=
    commit_step_files demo_state pkt snap ⟨[], -5⟩ hr (by simp)
  obtain ⟨q2, pkt2, hplay2, hrq2, hprev2, _, hnf2, htexts2⟩ :=
    commit_step_files q1 pkt1 _ ⟨[], 10⟩ hrq1 (by simp)
  obtain ⟨u, hu, htr⟩ := uninit_ready q2 pkt2 _ hrq2
  refine ⟨[q1, q2], q2, u, ?_, rfl, rfl, hu, by rw [hn]; decide, ?_⟩
  · rw [hplay1, hplay2]
    rfl
  · rw [htr, file_texts_append, file_texts_append, file_texts_host_closings,
      file_texts_file_closings, if_pos (by rw [hnf2, hnf1, hn]; decide),
      htexts2 0 (by rw [hnf1, hn]; decide), if_neg (by rw [hprev1]; decide),
      htexts1 0 (by rw [hn]; decide), if_neg (by rw [h0]; decide)]
    simp

theorem chain_le_all (t0 : Int) (ts : List Int) (h : List.Chain (fun a b => a ≤ b) t0 ts) :
    ∀ t ∈ ts, t0 ≤ t := by
  induction ts generalizing t0 with
  | nil => intro t ht; exact absurd ht (List.not_mem_nil _)
  | cons t1 ts ih =>
    intro t ht
    obtain ⟨h1, h2⟩ := List.chain_cons.mp h
    rcases List.mem_cons.mp ht with rfl | ht
    · exact h1
    · exact le_trans h1 (ih t1 h2 t ht)

theorem getLastD_pts (cs : List Commit) :
    ∀ c : Commit, (cs.map Commit.pts).getLastD c.pts = (cs.getLastD c).pts := by
  induction cs with
  | nil => intro c; rfl
  | cons c1 cs ih =>
    intro c
    rw [List.map_cons, List.getLastD_cons, List.getLastD_cons, ih]

/-- The durations of the records for commit times that do not decrease: each duration is
the elapsed time divided by 90 and rounded down, so the durations sum to at most the time
from the first to the last commit, and fall short of it by at most 89 per record. -/
theorem recorded_durations_bound :
    ∀ (pxs : List (List Nat)) (t0 : Int) (ts : List Int), ts.length = pxs.length →
      List.Chain (fun a b => a ≤ b) t0 ts →
      90 * ((recorded_frames pxs (t0 :: ts)).map record_duration).sum ≤ ts.getLastD t0 - t0 ∧
        ts.getLastD t0 - t0
          ≤ 90 * ((recorded_frames pxs (t0 :: ts)).map record_duration).sum
            + 89 * (pxs.length : Int) := by
  intro pxs
  induction pxs with
  | nil =>
    intro t0 ts hts _
    have : ts = [] := List.length_eq_zero.mp hts
    subst this
    simp [recorded_frames]
  | cons px pxs ih =>
    intro t0 ts hts hch
    match ts, hts, hch with
    | t1 :: ts, hts, hch =>
      obtain ⟨h1, h2⟩ := List.chain_cons.mp hch
      obtain ⟨a1, a2⟩ := ih t1 ts (by simpa using hts) h2
      have hd : Int.tdiv (t1 - t0) 90 = (t1 - t0) / 90 :=
        Int.tdiv_eq_ediv (by omega) (by decide)
      simp only [recorded_frames, List.map_cons, List.sum_cons, record_duration_frame,
        List.getLastD_cons, List.length_cons, Nat.cast_add, Nat.cast_one]
      rw [hd]
      constructor <;> omega

/-- C19: from a ready state with `prevpts = -1`, for frames committed at times
`0 ≤ t_0 ≤ t_1 ≤ ... ≤ t_n` with `n ≥ 1`, every file receives exactly `n` frame records,
and the sum `D` of the durations they carry satisfies `90 * D ≤ t_n - t_0 < 90 * (D + n)`. -/
theorem durations_never_overstate (s : State) (pkt snap : List Nat) (c0 c1 : Commit)
    (cs : List Commit) (h : Ready s pkt snap) (h0 : s.prevpts = -1)
    (hfit : ∀ x ∈ c0 :: c1 :: cs, ∀ d ∈ x.draws, d.fits) (hnn : 0 ≤ c0.pts)
    (hmono : List.Chain (fun a b => a ≤ b) c0.pts ((c1 :: cs).map Commit.pts)) :
    ∃ posts last, play s (c0 :: c1 :: cs) = some posts ∧ posts.getLast? = some last ∧
      ∀ i, i < s.no_bl_files →
        ∃ texts, file_texts i last.trace = file_texts i s.trace ++ texts ∧
          texts.length = (c1 :: cs).length ∧
          90 * (texts.map record_duration).sum ≤ (cs.getLastD c1).pts - c0.pts ∧
          (cs.getLastD c1).pts - c0.pts
            < 90 * ((texts.map record_duration).sum + ((c1 :: cs).length : Int)) := by
  have hall := chain_le_all _ _ hmono
  have hpts : ∀ x ∈ c1 :: cs, 0 ≤ x.pts := fun x hx =>
    le_trans hnn (hall x.pts (List.mem_map_of_mem _ hx))
  obtain ⟨q, pkt1, hplay, hrq, hprev, hqtmp, hnf, htexts⟩ :=
    commit_step_files s pkt snap c0 h (hfit c0 (List.mem_cons_self _ _))
  obtain ⟨posts, last, pktL, snapL, hplay2, hlast, hlen, hrl, hnl, htl⟩ :=
    play_file_texts (c1 :: cs) q pkt1 _ hrq (by rw [hprev]; exact hnn) hqtmp
      (fun x hx => hfit x (List.mem_cons_of_mem _ hx)) hpts
  have hplen : ((q :: posts).dropLast.map State.pixels).length = (c1 :: cs).length := by
    simp [hlen]
  obtain ⟨b1, b2⟩ := recorded_durations_bound ((q :: posts).dropLast.map State.pixels)
    c0.pts ((c1 :: cs).map Commit.pts) (by rw [hplen]; simp) hmono
  refine ⟨q :: posts, last, ?_, hlast, ?_⟩
  · rw [hplay, hplay2]
    rfl
  · intro i hi
    refine ⟨recorded_frames ((q :: posts).dropLast.map State.pixels)
      (c0.pts :: (c1 :: cs).map Commit.pts), ?_, ?_, ?_, ?_⟩
    · rw [htl i (by rw [hnf]; exact hi), htexts i hi, if_neg (by rw [h0]; decide), hprev,
        List.append_nil]
    · rw [recorded_frames_length _ _ (by rw [hplen]; simp), hplen]
    · rw [← getLastD_pts, ← List.getLastD_cons c0.pts, ← List.map_cons]
      exact b1
    · rw [← getLastD_pts, ← List.getLastD_cons c0.pts, ← List.map_cons]
      rw [hplen] at b2
      have hpos : (0 : Int) < ((c1 :: cs).length : Int) := by simp
      omega

/-- The theorem `durations_never_overstate` applied to three frames committed at the times
0, 100 and 250 after `preinit` on `arcade:host=localhost:2323,file=out.bml`: the two
durations are 100 / 90 = 1 and 150 / 90 = 1, and 90 * 2 ≤ 250 < 90 * (2 + 2). -/
theorem durations_never_overstate_witness :
    (∃ posts last,
      play demo_state [demo_frame 1 0, demo_frame 2 100, demo_frame 3 250] = some posts ∧
      posts.getLast? = some last ∧
      ∀ i, i < demo_state.no_bl_files →
        ∃ texts, file_texts i last.trace = file_texts i demo_state.trace ++ texts ∧
          texts.length = [demo_frame 2 100, demo_frame 3 250].length ∧
          90 * (texts.map record_duration).sum
            ≤ ([demo_frame 3 250].getLastD (demo_frame 2 100)).pts - (demo_frame 1 0).pts ∧
          ([demo_frame 3 250].getLastD (demo_frame 2 100)).pts - (demo_frame 1 0).pts
            < 90 * ((texts.map record_duration).sum
              + (([demo_frame 2 100, demo_frame 3 250].length : Nat) : Int))) ∧
    Int.tdiv (100 - 0) 90 = 1 ∧ Int.tdiv (250 - 100) 90 = 1 := by
  obtain ⟨pkt, snap, hr, h0⟩ := demo_state_ready
  refine ⟨durations_never_overstate demo_state pkt snap _ _ _ hr h0 ?_ (by decide) ?_,
    by decide, by decide⟩
  · intro x hx
    simp only [List.mem_cons, List.mem_singleton, List.not_mem_nil, or_false] at hx
    rcases hx with rfl | rfl | rfl <;> exact demo_frame_fits _ _
  · simp [demo_frame]

end VoBl
